import Mathlib

/-!
Verification development for the subtitle acquisition and normalization
pipeline of the Bili_Youtube_summarizer repository.

Python strings are modelled as `List Char`, Python floats as `ℚ`
(the formatter arithmetic is exact on the rationals that arise),
Python ints as `ℤ`/`ℕ`, fallible code as `Option`/`Except`.
Each definition is a shallow embedding of the function of the same
name in the Python sources (src/subtitle_extractor.py,
src/bilibili_api.py, src/utils.py); the source file and line ranges
are recorded in the doc comments.
-/

/-- Python strings are modelled as lists of characters. -/
abbrev Str := List Char

/-- Whitespace characters recognised by Python's `str.strip` and the regex
class `\s` (ASCII range; the inputs manipulated here are ASCII). -/
def pyIsSpace (c : Char) : Bool :=
  c = ' ' || c = '\t' || c = '\n' || c = '\r' || c = '\x0b' || c = '\x0c'

/-- Python `str.strip()`: drop leading and trailing whitespace. -/
def stripChars (s : Str) : Str :=
  ((s.dropWhile pyIsSpace).reverse.dropWhile pyIsSpace).reverse

/-- Python `text.split("\n")`. -/
def splitNl : Str → List Str
  | [] => [[]]
  | c :: rest =>
    if c = '\n' then [] :: splitNl rest
    else
      match splitNl rest with
      | [] => [[c]]
      | l :: ls => (c :: l) :: ls

/-- Python `"\n".join(lines)`. -/
def joinNl : List Str → Str
  | [] => []
  | [l] => l
  | l :: rest => l ++ '\n' :: joinNl rest

/-- Python `text.find(pat)`: index of the first occurrence of `pat` in
`text`, `none` when absent (Python returns `-1` there). -/
def strFind (text pat : Str) : Option Nat :=
  if pat.isPrefixOf text then some 0
  else
    match text with
    | [] => none
    | _ :: rest => (strFind rest pat).map (· + 1)

/-- Python substring membership (the `in` operator on `str`). -/
def hasSub (text pat : Str) : Bool := (strFind text pat).isSome

/-- Digit-list worker: structural recursion on a fuel argument so that the
kernel can evaluate it (the fuel is always sufficient, see
`decDigitsAux_fuel`). -/
def decDigitsAux : Nat → Nat → Str
  | 0, _ => []
  | fuel + 1, n =>
    if n < 10 then [Nat.digitChar n]
    else decDigitsAux fuel (n / 10) ++ [Nat.digitChar (n % 10)]

/-- Decimal digit string of a natural number, least significant digit last,
as produced by Python's `d` format code for nonnegative values. -/
def decDigits (n : Nat) : Str := decDigitsAux (n + 1) n

/-- Python's zero-padding format `f"{n:0wd}"` for nonnegative `n`:
pad the decimal digits with leading zeros to a minimum width `w`. -/
def fmtNum (w : Nat) (n : Nat) : Str :=
  List.replicate (w - (decDigits n).length) '0' ++ decDigits n

/-- Python `round()` on a real value: nearest integer, ties to even. -/
def pyRound (q : ℚ) : ℤ :=
  if q - (Rat.floor q : ℚ) < 1 / 2 then Rat.floor q
  else if 1 / 2 < q - (Rat.floor q : ℚ) then Rat.floor q + 1
  else if Rat.floor q % 2 = 0 then Rat.floor q else Rat.floor q + 1

/-- Field computation of `SubtitleExtractor._format_timestamp_srt`
(src/subtitle_extractor.py lines 438-449): clamp to `0`, truncate to whole
seconds (`int(safe)`, which is the floor for nonnegative input), round the
fractional remainder to milliseconds, carry one second when the rounding
yields `1000`, and split the whole seconds into hours / minutes / seconds.
Returns `(hours, minutes, secs, ms)`. -/
def srt_parts (seconds : ℚ) : Nat × Nat × Nat × Nat :=
  let safe : ℚ := max 0 seconds
  let whole : ℤ := Rat.floor safe
  let ms : ℤ := pyRound ((safe - (whole : ℚ)) * 1000)
  let whole' : ℤ := if ms = 1000 then whole + 1 else whole
  let ms' : ℤ := if ms = 1000 then 0 else ms
  let w : Nat := whole'.toNat
  (w / 3600, (w % 3600) / 60, w % 60, ms'.toNat)

/-- `SubtitleExtractor._format_timestamp_srt` (src/subtitle_extractor.py
lines 438-449): render the fields as `f"{hours:02d}:{minutes:02d}:{secs:02d},{ms:03d}"`. -/
def format_timestamp_srt (seconds : ℚ) : Str :=
  let p := srt_parts seconds
  fmtNum 2 p.1 ++ [':'] ++ fmtNum 2 p.2.1 ++ [':'] ++ fmtNum 2 p.2.2.1
    ++ [','] ++ fmtNum 3 p.2.2.2

/-- `SubtitleExtractor._format_timestamp_vtt` (src/subtitle_extractor.py
lines 451-453): the SRT string with `str.replace(",", ".")` applied.  The
replacement pattern is a single character, so `replace` is the map that
rewrites each comma. -/
def format_timestamp_vtt (seconds : ℚ) : Str :=
  (format_timestamp_srt seconds).map (fun c => if c = ',' then '.' else c)

/-- Specification-side VTT formatter for the refinement claim: the very same
field arithmetic as the SRT formatter, rendered with a period between the
seconds and milliseconds fields instead of a comma. -/
def vtt_spec (seconds : ℚ) : Str :=
  let p := srt_parts seconds
  fmtNum 2 p.1 ++ [':'] ++ fmtNum 2 p.2.1 ++ [':'] ++ fmtNum 2 p.2.2.1
    ++ ['.'] ++ fmtNum 3 p.2.2.2

/-- Field computation of `SubtitleExtractor._format_timestamp_lrc`
(src/subtitle_extractor.py lines 455-468): clamp to `0`,
`minutes = int(safe // 60)`, `sec_float = safe % 60` (for a nonnegative
value and positive modulus this is `safe - 60 * (safe / 60).floor`),
`secs = int(sec_float)`, `centis = round((sec_float - secs) * 100)`, then
carry at the centisecond boundary (`100` becomes `0`, seconds increment)
and at the second boundary (`60` becomes `0`, minutes increment).
Returns `(minutes, secs, centis)`. -/
def lrc_parts (seconds : ℚ) : Nat × Nat × Nat :=
  let safe : ℚ := max 0 seconds
  let minutes : ℤ := Rat.floor (safe / 60)
  let secFloat : ℚ := safe - 60 * (minutes : ℚ)
  let secs : ℤ := Rat.floor secFloat
  let centis : ℤ := pyRound ((secFloat - (secs : ℚ)) * 100)
  let secs' : ℤ := if centis = 100 then secs + 1 else secs
  let centis' : ℤ := if centis = 100 then 0 else centis
  let minutes' : ℤ := if secs' = 60 then minutes + 1 else minutes
  let secs'' : ℤ := if secs' = 60 then 0 else secs'
  (minutes'.toNat, secs''.toNat, centis'.toNat)

/-- `SubtitleExtractor._format_timestamp_lrc` (src/subtitle_extractor.py
lines 455-468): render the fields as `f"{minutes:02d}:{secs:02d}.{centis:02d}"`. -/
def format_timestamp_lrc (seconds : ℚ) : Str :=
  let p := lrc_parts seconds
  fmtNum 2 p.1 ++ [':'] ++ fmtNum 2 p.2.1 ++ ['.'] ++ fmtNum 2 p.2.2

/-! Helper lemmas about the numeric embedding. -/

/-- Batteries' computable `Rat.floor` agrees with Mathlib's `Int.floor`. -/
theorem ratFloor_eq (q : ℚ) : Rat.floor q = ⌊q⌋ := by
  rw [Rat.floor_def', ← Rat.floor_def]

theorem pyRound_nonneg {q : ℚ} (h : 0 ≤ q) : 0 ≤ pyRound q := by
  have hf : (0 : ℤ) ≤ ⌊q⌋ := Int.floor_nonneg.mpr h
  unfold pyRound
  rw [ratFloor_eq]
  split
  · exact hf
  · split
    · omega
    · split <;> omega

theorem pyRound_le {q : ℚ} {n : ℤ} (h : q < (n : ℚ)) : pyRound q ≤ n := by
  have hf : ⌊q⌋ < n := Int.floor_lt.mpr h
  unfold pyRound
  rw [ratFloor_eq]
  split
  · omega
  · split
    · omega
    · split <;> omega

theorem pyRound_eq_low {q : ℚ} {f : ℤ} (hf : ⌊q⌋ = f) (h : q - (f : ℚ) < 1 / 2) :
    pyRound q = f := by
  unfold pyRound
  rw [ratFloor_eq, hf, if_pos h]

theorem pyRound_eq_high {q : ℚ} {f : ℤ} (hf : ⌊q⌋ = f) (h : 1 / 2 < q - (f : ℚ)) :
    pyRound q = f + 1 := by
  unfold pyRound
  rw [ratFloor_eq, hf, if_neg (by linarith), if_pos h]

theorem decDigitsAux_ext : ∀ (n f1 f2 : Nat), n < f1 → n < f2 →
    decDigitsAux f1 n = decDigitsAux f2 n := by
  intro n
  induction n using Nat.strong_induction_on with
  | _ n ih =>
    intro f1 f2 h1 h2
    match f1, f2 with
    | g1 + 1, g2 + 1 =>
      by_cases h10 : n < 10
      · simp [decDigitsAux, h10]
      · simp only [decDigitsAux, if_neg h10]
        rw [ih (n / 10) (Nat.div_lt_self (by omega) (by omega)) g1 g2 (by omega) (by omega)]

theorem decDigitsAux_fuel (fuel n : Nat) (h : n < fuel) : decDigitsAux fuel n = decDigits n :=
  decDigitsAux_ext n fuel (n + 1) h (Nat.lt_succ_self n)

/-- Unfolding equation for `decDigits` that hides the fuel. -/
theorem decDigits_eq (n : Nat) :
    decDigits n
      = if n < 10 then [Nat.digitChar n]
        else decDigits (n / 10) ++ [Nat.digitChar (n % 10)] := by
  have h1 : decDigits n
      = if n < 10 then [Nat.digitChar n]
        else decDigitsAux n (n / 10) ++ [Nat.digitChar (n % 10)] := rfl
  rw [h1]
  by_cases h10 : n < 10
  · simp [h10]
  · rw [if_neg h10, if_neg h10, decDigitsAux_fuel n (n / 10) (by omega)]

theorem digitChar_isDigit {k : Nat} (h : k < 10) : (Nat.digitChar k).isDigit := by
  interval_cases k <;> decide

theorem decDigits_digits (n : Nat) : ∀ c ∈ decDigits n, c.isDigit := by
  induction n using Nat.strong_induction_on with
  | _ n ih =>
    rw [decDigits_eq]
    by_cases h10 : n < 10
    · intro c hc
      rw [if_pos h10] at hc
      simp only [List.mem_singleton] at hc
      exact hc ▸ digitChar_isDigit h10
    · intro c hc
      rw [if_neg h10] at hc
      rcases List.mem_append.mp hc with h | h
      · exact ih (n / 10) (Nat.div_lt_self (by omega) (by omega)) c h
      · simp only [List.mem_singleton] at h
        exact h ▸ digitChar_isDigit (Nat.mod_lt _ (by omega))

theorem decDigits_ne_nil (n : Nat) : decDigits n ≠ [] := by
  rw [decDigits_eq]
  by_cases h10 : n < 10 <;> simp [h10]

theorem fmtNum_digits (w n : Nat) : ∀ c ∈ fmtNum w n, c.isDigit := by
  intro c hc
  rcases List.mem_append.mp hc with h | h
  · have := List.eq_of_mem_replicate h
    subst this
    decide
  · exact decDigits_digits n c h

theorem decDigits_length_le : ∀ k n : Nat, 0 < k → n < 10 ^ k → (decDigits n).length ≤ k := by
  intro k
  induction k with
  | zero => omega
  | succ j ih =>
    intro n _ hn
    rw [decDigits_eq]
    by_cases h10 : n < 10
    · simp [h10]
    · rw [if_neg h10]
      have hpow : 10 ^ (j + 1) = 10 ^ j * 10 := pow_succ 10 j
      have hj : 0 < j := by
        rcases Nat.eq_zero_or_pos j with hj0 | hj0
        · subst hj0
          norm_num at hn
          omega
        · exact hj0
      have hdiv : n / 10 < 10 ^ j := Nat.div_lt_of_lt_mul (by omega)
      have := ih (n / 10) hj hdiv
      simp only [List.length_append, List.length_singleton]
      omega

theorem fmtNum_length (w n : Nat) : (fmtNum w n).length = max w (decDigits n).length := by
  simp only [fmtNum, List.length_append, List.length_replicate]
  omega

theorem map_keep_of_digits {s : Str} (h : ∀ c ∈ s, c.isDigit) :
    s.map (fun c => if c = ',' then '.' else c) = s := by
  induction s with
  | nil => rfl
  | cons c t ih =>
    have hc : c.isDigit := h c (by simp)
    have hne : ¬ c = ',' := by
      intro e
      rw [e] at hc
      exact absurd hc (by decide)
    simp only [List.map_cons, if_neg hne]
    rw [ih (fun d hd => h d (by simp [hd]))]

theorem fmtNum_len_exact {w n : Nat} (hw : 0 < w) (hb : n < 10 ^ w) : (fmtNum w n).length = w := by
  have := decDigits_length_le w n hw hb
  rw [fmtNum_length]
  omega

theorem fmtNum_len_ge (w n : Nat) : w ≤ (fmtNum w n).length := by
  rw [fmtNum_length]
  omega

theorem frac_nonneg_lt_one (q : ℚ) : 0 ≤ q - (⌊q⌋ : ℚ) ∧ q - (⌊q⌋ : ℚ) < 1 :=
  ⟨by linarith [Int.floor_le q], by linarith [Int.lt_floor_add_one q]⟩

theorem pyRound_frac_scaled (q : ℚ) (k : ℤ) (hk : 0 < k) :
    0 ≤ pyRound ((q - (⌊q⌋ : ℚ)) * (k : ℚ)) ∧ pyRound ((q - (⌊q⌋ : ℚ)) * (k : ℚ)) ≤ k := by
  obtain ⟨h0, h1⟩ := frac_nonneg_lt_one q
  have hk' : (0 : ℚ) < (k : ℚ) := by exact_mod_cast hk
  constructor
  · exact pyRound_nonneg (mul_nonneg h0 (le_of_lt hk'))
  · exact pyRound_le (by nlinarith)

theorem srt_parts_eq (q : ℚ) (hq : 0 ≤ q) :
    srt_parts q
      = ((if pyRound ((q - (⌊q⌋ : ℚ)) * 1000) = 1000 then ⌊q⌋ + 1 else ⌊q⌋).toNat / 3600,
         ((if pyRound ((q - (⌊q⌋ : ℚ)) * 1000) = 1000 then ⌊q⌋ + 1 else ⌊q⌋).toNat % 3600) / 60,
         (if pyRound ((q - (⌊q⌋ : ℚ)) * 1000) = 1000 then ⌊q⌋ + 1 else ⌊q⌋).toNat % 60,
         (if pyRound ((q - (⌊q⌋ : ℚ)) * 1000) = 1000 then 0
          else pyRound ((q - (⌊q⌋ : ℚ)) * 1000)).toNat) := by
  simp only [srt_parts, ratFloor_eq, max_eq_right hq]

theorem srt_concrete_19996 :
    format_timestamp_srt (19996 / 10000) = "00:00:02,000".toList := by
  have hq : (19996 / 10000 : ℚ) = 4999 / 2500 := by norm_num
  have h0 : (0 : ℚ) ≤ 4999 / 2500 := by norm_num
  have hfl : ⌊(4999 / 2500 : ℚ)⌋ = 1 := by
    rw [Int.floor_eq_iff]
    constructor <;> norm_num
  have h2 : ((4999 / 2500 : ℚ) - ((1 : ℤ) : ℚ)) * 1000 = 4998 / 5 := by
    push_cast
    norm_num
  have hfl2 : ⌊(4998 / 5 : ℚ)⌋ = 999 := by
    rw [Int.floor_eq_iff]
    constructor <;> norm_num
  have hr : pyRound (((4999 / 2500 : ℚ) - ((1 : ℤ) : ℚ)) * 1000) = 1000 := by
    rw [h2, pyRound_eq_high hfl2 (by push_cast; norm_num)]
    norm_num
  have hparts : srt_parts (4999 / 2500) = (0, 0, 2, 0) := by
    rw [srt_parts_eq _ h0, hfl, hr]
    decide
  rw [hq]
  simp only [format_timestamp_srt, hparts]
  decide

/-- C1: for every `seconds ≥ 0`, `SubtitleExtractor._format_timestamp_srt`
renders four zero-padded fields `HH:MM:SS,mmm` where the milliseconds are
`round((seconds - whole) * 1000)` with a one-second carry applied when the
rounding yields `1000`; the minutes, seconds and milliseconds fields are
exactly two/two/three digits and never reach `60` (seconds) or `1000`
(milliseconds); and formatting `1.9996` carries to the next whole second,
emitting `00:00:02,000`. -/
theorem C1_srt_timestamp (q : ℚ) (hq : 0 ≤ q) :
    ∃ h m s ms : Nat,
      format_timestamp_srt q
        = fmtNum 2 h ++ [':'] ++ fmtNum 2 m ++ [':'] ++ fmtNum 2 s ++ [','] ++ fmtNum 3 ms
      ∧ m ≤ 59 ∧ s ≤ 59 ∧ ms ≤ 999
      ∧ (fmtNum 2 m).length = 2 ∧ (fmtNum 2 s).length = 2 ∧ (fmtNum 3 ms).length = 3
      ∧ 2 ≤ (fmtNum 2 h).length
      ∧ ms = (if pyRound ((q - (⌊q⌋ : ℚ)) * 1000) = 1000 then 0
              else pyRound ((q - (⌊q⌋ : ℚ)) * 1000)).toNat
      ∧ (3600 * h + 60 * m + s : ℤ)
          = (if pyRound ((q - (⌊q⌋ : ℚ)) * 1000) = 1000 then ⌊q⌋ + 1 else ⌊q⌋)
      ∧ format_timestamp_srt (19996 / 10000) = "00:00:02,000".toList := by
  obtain ⟨hr0, hr1⟩ := pyRound_frac_scaled q 1000 (by norm_num)
  push_cast at hr0 hr1
  have hf0 : (0 : ℤ) ≤ ⌊q⌋ := Int.floor_nonneg.mpr hq
  have hp := srt_parts_eq q hq
  set r : ℤ := pyRound ((q - (⌊q⌋ : ℚ)) * 1000) with hrdef
  set W : ℤ := if r = 1000 then ⌊q⌋ + 1 else ⌊q⌋ with hWdef
  set MS : ℤ := if r = 1000 then 0 else r with hMSdef
  have hW0 : 0 ≤ W := by
    rw [hWdef]
    split <;> omega
  have hMSb : 0 ≤ MS ∧ MS ≤ 999 := by
    rw [hMSdef]
    split
    · omega
    · omega
  refine ⟨W.toNat / 3600, W.toNat % 3600 / 60, W.toNat % 60, MS.toNat,
    ?_, by omega, by omega, by omega, ?_, ?_, ?_, fmtNum_len_ge 2 _, by omega, by omega,
    srt_concrete_19996⟩
  · simp only [format_timestamp_srt]
    rw [hp]
  · exact fmtNum_len_exact (by norm_num) (by omega)
  · exact fmtNum_len_exact (by norm_num) (by omega)
  · exact fmtNum_len_exact (by norm_num) (by omega)

/-- Witness for C1 at the concrete input `1.9996`. -/
theorem C1_srt_timestamp_witness :
    (0 : ℚ) ≤ 19996 / 10000
    ∧ (∃ h m s ms : Nat,
        format_timestamp_srt (19996 / 10000)
          = fmtNum 2 h ++ [':'] ++ fmtNum 2 m ++ [':'] ++ fmtNum 2 s ++ [','] ++ fmtNum 3 ms
        ∧ m ≤ 59 ∧ s ≤ 59 ∧ ms ≤ 999
        ∧ (fmtNum 2 m).length = 2 ∧ (fmtNum 2 s).length = 2 ∧ (fmtNum 3 ms).length = 3
        ∧ 2 ≤ (fmtNum 2 h).length
        ∧ ms = (if pyRound (((19996 / 10000 : ℚ) - ((⌊(19996 / 10000 : ℚ)⌋ : ℤ) : ℚ)) * 1000) = 1000
                then 0
                else pyRound (((19996 / 10000 : ℚ) - ((⌊(19996 / 10000 : ℚ)⌋ : ℤ) : ℚ)) * 1000)).toNat
        ∧ (3600 * h + 60 * m + s : ℤ)
            = (if pyRound (((19996 / 10000 : ℚ) - ((⌊(19996 / 10000 : ℚ)⌋ : ℤ) : ℚ)) * 1000) = 1000
               then ⌊(19996 / 10000 : ℚ)⌋ + 1 else ⌊(19996 / 10000 : ℚ)⌋)
        ∧ format_timestamp_srt (19996 / 10000) = "00:00:02,000".toList) :=
  ⟨by norm_num, C1_srt_timestamp (19996 / 10000) (by norm_num)⟩

/-- C6: for every seconds value, `SubtitleExtractor._format_timestamp_vtt`
equals the SRT formatter's output with the comma separator replaced by a
period: the same rounding and carry arithmetic (the shared `srt_parts`
fields), differing only in the delimiter character. -/
theorem C6_vtt_is_srt_with_period (q : ℚ) : format_timestamp_vtt q = vtt_spec q := by
  simp only [format_timestamp_vtt, format_timestamp_srt, vtt_spec, List.map_append]
  rw [map_keep_of_digits (fmtNum_digits 2 _), map_keep_of_digits (fmtNum_digits 2 _),
    map_keep_of_digits (fmtNum_digits 2 _), map_keep_of_digits (fmtNum_digits 3 _)]
  simp

theorem lrc_parts_spec (q : ℚ) (hq : 0 ≤ q) :
    ∃ M S r : ℤ, M = ⌊q / 60⌋ ∧ S = ⌊q - 60 * (M : ℚ)⌋
      ∧ r = pyRound ((q - 60 * (M : ℚ) - (S : ℚ)) * 100)
      ∧ lrc_parts q
          = ((if (if r = 100 then S + 1 else S) = 60 then M + 1 else M).toNat,
             (if (if r = 100 then S + 1 else S) = 60 then 0
              else if r = 100 then S + 1 else S).toNat,
             (if r = 100 then 0 else r).toNat) := by
  refine ⟨⌊q / 60⌋, ⌊q - 60 * ((⌊q / 60⌋ : ℤ) : ℚ)⌋, _, rfl, rfl, rfl, ?_⟩
  simp only [lrc_parts, ratFloor_eq, max_eq_right hq]

theorem lrc_concrete_1199996 :
    format_timestamp_lrc (1199996 / 10000) = "02:00.00".toList := by
  have hq : (1199996 / 10000 : ℚ) = 299999 / 2500 := by norm_num
  have h0 : (0 : ℚ) ≤ 299999 / 2500 := by norm_num
  obtain ⟨M, S, r, hM, hS, hr, hp⟩ := lrc_parts_spec (299999 / 2500) h0
  have hM1 : M = 1 := by
    rw [hM, Int.floor_eq_iff]
    constructor <;> norm_num
  have hS59 : S = 59 := by
    rw [hS, hM1, Int.floor_eq_iff]
    constructor <;> push_cast <;> norm_num
  have harg : ((299999 / 2500 : ℚ) - 60 * ((1 : ℤ) : ℚ) - ((59 : ℤ) : ℚ)) * 100 = 2499 / 25 := by
    push_cast
    norm_num
  have hfl : ⌊(2499 / 25 : ℚ)⌋ = 99 := by
    rw [Int.floor_eq_iff]
    constructor <;> norm_num
  have hr100 : r = 100 := by
    rw [hr, hM1, hS59, harg, pyRound_eq_high hfl (by push_cast; norm_num)]
    norm_num
  rw [hM1, hS59, hr100] at hp
  norm_num at hp
  rw [hq]
  simp only [format_timestamp_lrc, hp]
  decide

/-- C7: for every `seconds ≥ 0`, `SubtitleExtractor._format_timestamp_lrc`
renders `MM:SS.cc` with `centiseconds = round(frac * 100)`, carrying at the
centisecond-to-second boundary (`100` becomes `0` and the seconds
increment) and then at the second-to-minute boundary (`60` seconds become
`0` and the minutes increment); the seconds field never reaches `60` and
the centiseconds field never reaches `100`; `119.9996` carries through
both boundaries to `02:00.00`. -/
theorem C7_lrc_timestamp (q : ℚ) (hq : 0 ≤ q) :
    ∃ m s c : Nat,
      format_timestamp_lrc q = fmtNum 2 m ++ [':'] ++ fmtNum 2 s ++ ['.'] ++ fmtNum 2 c
      ∧ s ≤ 59 ∧ c ≤ 99 ∧ (fmtNum 2 s).length = 2 ∧ (fmtNum 2 c).length = 2
      ∧ (∃ M S r : ℤ, M = ⌊q / 60⌋ ∧ S = ⌊q - 60 * (M : ℚ)⌋
          ∧ r = pyRound ((q - 60 * (M : ℚ) - (S : ℚ)) * 100)
          ∧ c = (if r = 100 then 0 else r).toNat
          ∧ (60 * m + s : ℤ) = 60 * M + S + (if r = 100 then 1 else 0))
      ∧ format_timestamp_lrc (1199996 / 10000) = "02:00.00".toList := by
  obtain ⟨M, S, r, hM, hS, hr, hp⟩ := lrc_parts_spec q hq
  have hM0 : 0 ≤ M := by
    rw [hM]
    exact Int.floor_nonneg.mpr (by positivity)
  have hq60 : (M : ℚ) ≤ q / 60 := by
    rw [hM]
    exact Int.floor_le (q / 60)
  have hq60' : q / 60 < (M : ℚ) + 1 := by
    rw [hM]
    exact Int.lt_floor_add_one (q / 60)
  have hsf0 : 0 ≤ q - 60 * (M : ℚ) := by
    have := (le_div_iff (by norm_num : (0 : ℚ) < 60)).mp hq60
    linarith
  have hsf60 : q - 60 * (M : ℚ) < 60 := by
    have := (div_lt_iff (by norm_num : (0 : ℚ) < 60)).mp hq60'
    linarith
  have hS0 : 0 ≤ S := by
    rw [hS]
    exact Int.floor_nonneg.mpr hsf0
  have hS59 : S ≤ 59 := by
    have : S < 60 := by
      rw [hS]
      exact Int.floor_lt.mpr (by push_cast; linarith)
    omega
  have hrb : 0 ≤ r ∧ r ≤ 100 := by
    have h := pyRound_frac_scaled (q - 60 * (M : ℚ)) 100 (by norm_num)
    push_cast at h
    rw [hr, hS]
    exact h
  set s1 : ℤ := if r = 100 then S + 1 else S with hs1def
  set Mf : ℤ := if s1 = 60 then M + 1 else M with hMfdef
  set Sf : ℤ := if s1 = 60 then 0 else s1 with hSfdef
  set Cf : ℤ := if r = 100 then 0 else r with hCfdef
  have hs1b : 0 ≤ s1 ∧ s1 ≤ 60 := by
    rw [hs1def]
    split <;> omega
  have hMf0 : 0 ≤ Mf := by
    rw [hMfdef]
    split <;> omega
  have hSfb : 0 ≤ Sf ∧ Sf ≤ 59 := by
    rw [hSfdef]
    split
    · omega
    · omega
  have hCfb : 0 ≤ Cf ∧ Cf ≤ 99 := by
    rw [hCfdef]
    split
    · omega
    · omega
  refine ⟨Mf.toNat, Sf.toNat, Cf.toNat, ?_, by omega, by omega,
    fmtNum_len_exact (by norm_num) (by omega), fmtNum_len_exact (by norm_num) (by omega),
    ⟨M, S, r, hM, hS, hr, by omega, ?_⟩, lrc_concrete_1199996⟩
  · simp only [format_timestamp_lrc]
    rw [hp]
  · rw [hMfdef, hSfdef, hs1def]
    split_ifs <;> omega

/-- Witness for C7 at the concrete input `119.9996`. -/
theorem C7_lrc_timestamp_witness :
    (0 : ℚ) ≤ 1199996 / 10000
    ∧ (∃ m s c : Nat,
        format_timestamp_lrc (1199996 / 10000)
          = fmtNum 2 m ++ [':'] ++ fmtNum 2 s ++ ['.'] ++ fmtNum 2 c
        ∧ s ≤ 59 ∧ c ≤ 99 ∧ (fmtNum 2 s).length = 2 ∧ (fmtNum 2 c).length = 2
        ∧ (∃ M S r : ℤ, M = ⌊(1199996 / 10000 : ℚ) / 60⌋
            ∧ S = ⌊(1199996 / 10000 : ℚ) - 60 * (M : ℚ)⌋
            ∧ r = pyRound (((1199996 / 10000 : ℚ) - 60 * (M : ℚ) - (S : ℚ)) * 100)
            ∧ c = (if r = 100 then 0 else r).toNat
            ∧ (60 * m + s : ℤ) = 60 * M + S + (if r = 100 then 1 else 0))
        ∧ format_timestamp_lrc (1199996 / 10000) = "02:00.00".toList) :=
  ⟨by norm_num, C7_lrc_timestamp (1199996 / 10000) (by norm_num)⟩

/-! Embedded-JSON extractor (claim C2). -/

/-- Character scan loop of
`YoutubeSubtitleAdapter._extract_json_object_by_marker`
(src/subtitle_extractor.py lines 224-248): walk the characters from the
opening brace keeping the brace depth, the in-string flag and the escape
flag; inside a string an escape consumes the next character, a backslash
sets the escape flag and an unescaped double quote closes the string;
outside a string a double quote opens a string, an opening brace increments
the depth and a closing brace decrements it, returning the current index
when the depth reaches zero.  The index argument tracks the absolute
position in the original text. -/
def scanBraces : Str → Nat → Int → Bool → Bool → Option Nat
  | [], _, _, _, _ => none
  | c :: rest, idx, depth, inString, escape =>
    if inString then
      if escape then scanBraces rest (idx + 1) depth true false
      else if c = '\\' then scanBraces rest (idx + 1) depth true true
      else if c = '"' then scanBraces rest (idx + 1) depth false escape
      else scanBraces rest (idx + 1) depth true escape
    else
      if c = '"' then scanBraces rest (idx + 1) depth true escape
      else if c = '{' then scanBraces rest (idx + 1) (depth + 1) false escape
      else if c = '}' then
        if depth - 1 = 0 then some idx
        else scanBraces rest (idx + 1) (depth - 1) false escape
      else scanBraces rest (idx + 1) depth false escape

/-- Python `text.find("{", start)`: index of the first opening brace at or
after `start`. -/
def findBraceFrom (text : Str) (start : Nat) : Option Nat :=
  ((text.drop start).findIdx? (· = '{')).map (· + start)

/-- `YoutubeSubtitleAdapter._extract_json_object_by_marker`
(src/subtitle_extractor.py lines 215-248): locate the marker, locate the
first opening brace after it, scan to the matching closing brace and
return the inclusive slice `text[brace_start : idx + 1]`. -/
def extract_json_object_by_marker (text marker : Str) : Option Str :=
  match strFind text marker with
  | none => none
  | some start_idx =>
    match findBraceFrom text start_idx with
    | none => none
    | some brace_start =>
      match scanBraces (text.drop brace_start) brace_start 0 false false with
      | none => none
      | some endIdx => some ((text.drop brace_start).take (endIdx + 1 - brace_start))

theorem strFind_none_iff (text pat : Str) : strFind text pat = none ↔ ¬ pat <:+: text := by
  induction text with
  | nil =>
    rw [strFind]
    by_cases hp : pat.isPrefixOf ([] : Str)
    · rw [List.isPrefixOf_iff_prefix] at hp
      have : pat = [] := List.prefix_nil.mp hp
      subst this
      simp
    · have hne : pat ≠ [] := by
        intro he
        subst he
        exact hp (by decide)
      simp [hp, List.infix_nil, hne]
  | cons c rest ih =>
    rw [strFind]
    by_cases hp : pat.isPrefixOf (c :: rest)
    · rw [if_pos hp]
      rw [List.isPrefixOf_iff_prefix] at hp
      simp [hp.isInfix]
    · rw [if_neg hp]
      rw [List.isPrefixOf_iff_prefix] at hp
      rw [List.infix_cons_iff]
      cases h : strFind rest pat with
      | none =>
        simp only [Option.map_none', true_iff]
        push_neg
        exact ⟨hp, (ih.mp h)⟩
      | some k =>
        simp only [Option.map_some']
        constructor
        · intro hcontra
          exact absurd hcontra (by simp)
        · intro hcontra
          exfalso
          exact hcontra (Or.inr (by
            by_contra hni
            rw [← ih] at hni
            simp [h] at hni))

/-- C2: the embedded-JSON extractor finds the first occurrence of the
marker, takes the first opening brace at or after it, and scans with a
brace-depth counter plus in-string and escape flags; on the input
`marker ++ JSON` where the JSON object carries a closing brace and an
escaped quote inside a string literal it returns exactly the outer object
span; it returns `none` when the marker does not occur in the text, when no
opening brace follows the marker's position, and when the scan ends without
the depth returning to zero (witnessed on an unterminated object). -/
theorem C2_extract_json_object (text marker : Str) :
    (extract_json_object_by_marker
        ('m' :: '=' :: ['{', '"', 'a', '"', ':', '"', '}', '\\', '"', '}', '"', '}'])
        ['m', '=']
      = some ['{', '"', 'a', '"', ':', '"', '}', '\\', '"', '}', '"', '}'])
    ∧ (¬ marker <:+: text → extract_json_object_by_marker text marker = none)
    ∧ (∀ s : Nat, strFind text marker = some s →
        (∀ c ∈ text.drop s, ¬ c = '{') →
        extract_json_object_by_marker text marker = none)
    ∧ extract_json_object_by_marker ['m', '=', '{', '"', 'a', '"', ':'] ['m', '='] = none := by
  refine ⟨by decide, ?_, ?_, by decide⟩
  · intro hni
    rw [extract_json_object_by_marker, (strFind_none_iff text marker).mpr hni]
  · intro s hs hnob
    have hfb : findBraceFrom text s = none := by
      rw [findBraceFrom]
      have : (text.drop s).findIdx? (· = '{') = none := by
        rw [List.findIdx?_eq_none_iff]
        intro c hc
        simpa using hnob c hc
      rw [this]
      rfl
    simp only [extract_json_object_by_marker, hs, hfb]

/-- Witness for C2: marker absent from the text, and a marker position with
no opening brace after it. -/
theorem C2_extract_json_object_witness :
    (¬ ['q'] <:+: ['a', 'b']
      ∧ extract_json_object_by_marker ['a', 'b'] ['q'] = none)
    ∧ (strFind ['m', '=', 'x'] ['m', '='] = some 0
      ∧ (∀ c ∈ (['m', '=', 'x'] : Str).drop 0, ¬ c = '{')
      ∧ extract_json_object_by_marker ['m', '=', 'x'] ['m', '='] = none) :=
  ⟨⟨by decide, (C2_extract_json_object ['a', 'b'] ['q']).2.1 (by decide)⟩,
   ⟨by decide, by decide,
    (C2_extract_json_object ['m', '=', 'x'] ['m', '=']).2.2.1 0 (by decide) (by decide)⟩⟩

/-! YouTube caption-track selection (claim C4). -/

/-- Caption-track fields consumed by `_pick_caption_track`: the
`languageCode` and `kind` entries of a `captionTracks` element. -/
structure CapTrack where
  languageCode : Str
  kind : Str
deriving DecidableEq

/-- Python `str.lower()` (ASCII; language codes are ASCII). -/
def lowerStr (s : Str) : Str := s.map Char.toLower

/-- The `lang_score` helper of `YoutubeSubtitleAdapter._pick_caption_track`
(src/subtitle_extractor.py lines 253-258): index of the first prefix of the
lowercased language code among `["zh", "en"]`, or `99` when none matches. -/
def lang_score (t : CapTrack) : Nat :=
  if ['z', 'h'].isPrefixOf (lowerStr t.languageCode) then 0
  else if ['e', 'n'].isPrefixOf (lowerStr t.languageCode) then 1
  else 99

/-- First component of the sort key of `_pick_caption_track`
(src/subtitle_extractor.py line 263): machine-generated tracks
(`kind == "asr"`) score `1`, others `0`. -/
def asrScore (t : CapTrack) : Nat := if t.kind = ['a', 's', 'r'] then 1 else 0

/-- The ordering induced by the two-level sort key
`(asrScore, lang_score)`; Python's stable `sorted` orders by this key. -/
def trackLE (a b : CapTrack) : Bool :=
  asrScore a < asrScore b || (asrScore a = asrScore b && lang_score a ≤ lang_score b)

/-- `YoutubeSubtitleAdapter._pick_caption_track`
(src/subtitle_extractor.py lines 250-267): stable sort by the two-level key
and take the first element; `none` for an empty list (`sorted_tracks[0] if
sorted_tracks else None`). -/
def pick_caption_track (tracks : List CapTrack) : Option CapTrack :=
  match tracks.mergeSort trackLE with
  | [] => none
  | t :: _ => some t

theorem trackLE_trans (a b c : CapTrack) :
    trackLE a b = true → trackLE b c = true → trackLE a c = true := by
  simp only [trackLE, Bool.or_eq_true, Bool.and_eq_true, decide_eq_true_eq]
  omega

theorem trackLE_total (a b : CapTrack) : (trackLE a b || trackLE b a) = true := by
  simp only [trackLE, Bool.or_eq_true, Bool.and_eq_true, decide_eq_true_eq]
  omega

/-- C4: for every non-empty track list, `_pick_caption_track` returns an
element of the list that is minimal for the two-level key (machine
generated after human-authored, then the zh-before-en-before-others
language preference). It is the head of the stable sort, so on
`[{ja, asr}, {en, human}, {zh, human}]` it selects the zh track. -/
theorem C4_pick_caption_track (tracks : List CapTrack) (hne : tracks ≠ []) :
    (∃ t, pick_caption_track tracks = some t
      ∧ t ∈ tracks
      ∧ ∀ u ∈ tracks, trackLE t u = true)
    ∧ pick_caption_track
        [⟨['j', 'a'], ['a', 's', 'r']⟩, ⟨['e', 'n'], []⟩, ⟨['z', 'h'], []⟩]
      = some ⟨['z', 'h'], []⟩ := by
  constructor
  · cases hms : tracks.mergeSort trackLE with
    | nil =>
      exfalso
      have hperm := List.mergeSort_perm tracks trackLE
      rw [hms] at hperm
      exact hne hperm.symm.eq_nil
    | cons t rest =>
      have hperm := List.mergeSort_perm tracks trackLE
      rw [hms] at hperm
      refine ⟨t, by simp [pick_caption_track, hms], hperm.subset (by simp), ?_⟩
      intro u hu
      rcases List.mem_cons.mp (hperm.mem_iff.mpr hu) with rfl | hmem
      · simpa using trackLE_total u u
      · have hp := List.sorted_mergeSort trackLE_trans trackLE_total tracks
        rw [hms] at hp
        exact (List.pairwise_cons.mp hp).1 u hmem
  · simp [pick_caption_track, List.mergeSort, trackLE, asrScore, lang_score, lowerStr]

/-- Witness for C4 on the three-track example list. -/
theorem C4_pick_caption_track_witness :
    ([(⟨['j', 'a'], ['a', 's', 'r']⟩ : CapTrack), ⟨['e', 'n'], []⟩, ⟨['z', 'h'], []⟩] ≠ [])
    ∧ ((∃ t, pick_caption_track
          [⟨['j', 'a'], ['a', 's', 'r']⟩, ⟨['e', 'n'], []⟩, ⟨['z', 'h'], []⟩] = some t
        ∧ t ∈ [(⟨['j', 'a'], ['a', 's', 'r']⟩ : CapTrack), ⟨['e', 'n'], []⟩, ⟨['z', 'h'], []⟩]
        ∧ ∀ u ∈ [(⟨['j', 'a'], ['a', 's', 'r']⟩ : CapTrack), ⟨['e', 'n'], []⟩, ⟨['z', 'h'], []⟩],
            trackLE t u = true)
      ∧ pick_caption_track
          [⟨['j', 'a'], ['a', 's', 'r']⟩, ⟨['e', 'n'], []⟩, ⟨['z', 'h'], []⟩]
        = some ⟨['z', 'h'], []⟩) :=
  ⟨by decide,
   C4_pick_caption_track
     [⟨['j', 'a'], ['a', 's', 'r']⟩, ⟨['e', 'n'], []⟩, ⟨['z', 'h'], []⟩] (by decide)⟩

/-! Adapter URL matching and orchestrator dispatch (claim C10). -/

/-- The character class `[a-zA-Z0-9]`. -/
def isAlnumAscii (c : Char) : Bool := c.isAlpha || c.isDigit

/-- Existence of a match of the regex `(BV[a-zA-Z0-9]+|av\d+)` anywhere in
the text — the `bool(re.search(...))` test in
`BilibiliSubtitleAdapter.matches` (src/subtitle_extractor.py line 38): some
position starts `BV` followed by at least one alphanumeric, or `av`
followed by at least one digit. -/
def hasBVorAv : Str → Bool
  | c1 :: c2 :: c3 :: rest =>
    (c1 = 'B' && c2 = 'V' && isAlnumAscii c3)
      || (c1 = 'a' && c2 = 'v' && c3.isDigit)
      || hasBVorAv (c2 :: c3 :: rest)
  | _ => false

/-- `BilibiliSubtitleAdapter.matches` (src/subtitle_extractor.py lines
34-39). -/
def bilibili_matches (url : Str) : Bool :=
  hasSub url "bilibili.com/video/".toList
    || hasSub url "aisubtitle.hdslb.com/bfs/ai_subtitle/".toList
    || hasBVorAv url

/-- `YoutubeSubtitleAdapter.matches` (src/subtitle_extractor.py lines
120-121). -/
def youtube_matches (url : Str) : Bool :=
  hasSub url "youtube.com/watch".toList
    || hasSub url "youtu.be/".toList
    || hasSub url "youtube.com/shorts/".toList

/-- Tags for the two registered adapters. -/
inductive AdapterTag
  | bilibili
  | youtube
deriving DecidableEq

/-- Per-adapter `matches` dispatch. -/
def adapter_matches : AdapterTag → Str → Bool
  | .bilibili, url => bilibili_matches url
  | .youtube, url => youtube_matches url

/-- `SubtitleExtractor._pick_adapter` over the registration order of
`_ensure_adapters` (src/subtitle_extractor.py lines 324-330 and 373-377):
the Bilibili adapter is registered first, the YouTube adapter second, and
the first adapter whose `matches` accepts the URL is selected. -/
def pick_adapter (url : Str) : Option AdapterTag :=
  [AdapterTag.bilibili, AdapterTag.youtube].find? (fun a => adapter_matches a url)

/-- C10: there are URLs accepted by `YoutubeSubtitleAdapter.matches` — for
example a youtube.com watch URL whose video id starts with `BV` and an
alphanumeric — on which `BilibiliSubtitleAdapter.matches` also returns true
through its bare-identifier regex; and for every URL the Bilibili adapter
accepts, `_pick_adapter` selects the Bilibili adapter because it precedes
the YouTube adapter in registration order. -/
theorem C10_adapter_shadowing (url : Str) (hb : bilibili_matches url = true) :
    pick_adapter url = some AdapterTag.bilibili
    ∧ youtube_matches "https://www.youtube.com/watch?v=BV1GJ411x7h7".toList = true
    ∧ bilibili_matches "https://www.youtube.com/watch?v=BV1GJ411x7h7".toList = true
    ∧ pick_adapter "https://www.youtube.com/watch?v=BV1GJ411x7h7".toList
        = some AdapterTag.bilibili := by
  refine ⟨?_, by decide, by decide, by decide⟩
  simp [pick_adapter, adapter_matches, hb]

/-- Witness for C10 at the shadowed watch URL. -/
theorem C10_adapter_shadowing_witness :
    bilibili_matches "https://www.youtube.com/watch?v=BV1GJ411x7h7".toList = true
    ∧ (pick_adapter "https://www.youtube.com/watch?v=BV1GJ411x7h7".toList
        = some AdapterTag.bilibili
      ∧ youtube_matches "https://www.youtube.com/watch?v=BV1GJ411x7h7".toList = true
      ∧ bilibili_matches "https://www.youtube.com/watch?v=BV1GJ411x7h7".toList = true
      ∧ pick_adapter "https://www.youtube.com/watch?v=BV1GJ411x7h7".toList
          = some AdapterTag.bilibili) :=
  ⟨by decide, C10_adapter_shadowing "https://www.youtube.com/watch?v=BV1GJ411x7h7".toList
    (by decide)⟩

/-! Bilibili caption-track list fallback chain (claim C3). -/

/-- One element of `data.subtitle.subtitles` as used by
`BilibiliAPI.get_subtitle_list`: only `subtitle_url` drives the logic
(`s.get("subtitle_url")` is truthy iff it is a non-empty string). -/
structure SubTrack where
  subtitle_url : Str
deriving DecidableEq

/-- The parts of a player-endpoint JSON response that `get_subtitle_list`
inspects: the top-level `code` and `data.subtitle.subtitles` (an absent
`code` key or absent subtitle branch is represented by a non-zero code or
an empty track list; a failed or falsy response is `none` at the oracle). -/
structure PlayerResp where
  code : ℤ
  subtitles : List SubTrack
deriving DecidableEq

/-- A request parameter value: the `aid`/`cid` integers or the `bvid`
string. -/
inductive ParamV
  | pInt (n : ℤ)
  | pStr (s : Str)
deriving DecidableEq, Inhabited

/-- The four endpoint/parameter candidates of `BilibiliAPI.get_subtitle_list`
(src/bilibili_api.py lines 84-89), in source order; `none` stands for a
Python `None` parameter value. -/
def endpoint_candidates (aid : Option ℤ) (cid : Option ℤ) (bvid : Option Str) :
    List (Str × List (Str × Option ParamV)) :=
  [("https://api.bilibili.com/x/player/wbi/v2".toList,
    [("aid".toList, aid.map ParamV.pInt), ("cid".toList, cid.map ParamV.pInt)]),
   ("https://api.bilibili.com/x/player/wbi/v2".toList,
    [("bvid".toList, bvid.map ParamV.pStr), ("cid".toList, cid.map ParamV.pInt)]),
   ("https://api.bilibili.com/x/player/v2".toList,
    [("aid".toList, aid.map ParamV.pInt), ("cid".toList, cid.map ParamV.pInt)]),
   ("https://api.bilibili.com/x/player/v2".toList,
    [("bvid".toList, bvid.map ParamV.pStr), ("cid".toList, cid.map ParamV.pInt)])]

/-- The comprehension `{k: v for k, v in params.items() if v is not None}`
(src/bilibili_api.py line 92). -/
def cleanParams (ps : List (Str × Option ParamV)) : List (Str × ParamV) :=
  ps.filterMap (fun kv => kv.2.map (fun v => (kv.1, v)))

/-- Loop of `BilibiliAPI.get_subtitle_list` (src/bilibili_api.py lines
91-106), instrumented with the trace of requests actually performed: a
candidate whose cleaned parameters carry no `cid` is skipped without a
request; a failed request (`none`), a non-zero `code`, or the absence of a
track with a non-empty `subtitle_url` moves on to the next candidate; the
first usable candidate returns its filtered track list at once. -/
def try_candidates (fetch : Str → List (Str × ParamV) → Option PlayerResp) :
    List (Str × List (Str × Option ParamV)) →
      Option (List SubTrack) × List (Str × List (Str × ParamV))
  | [] => (none, [])
  | (url, params) :: rest =>
    let cp := cleanParams params
    if ¬ cp.any (fun kv => kv.1 = "cid".toList) then try_candidates fetch rest
    else
      match fetch url cp with
      | none =>
        ((try_candidates fetch rest).1, (url, cp) :: (try_candidates fetch rest).2)
      | some data =>
        if data.code ≠ 0 then
          ((try_candidates fetch rest).1, (url, cp) :: (try_candidates fetch rest).2)
        else
          if data.subtitles.filter (fun t => ¬ t.subtitle_url = []) = [] then
            ((try_candidates fetch rest).1, (url, cp) :: (try_candidates fetch rest).2)
          else (some (data.subtitles.filter (fun t => ¬ t.subtitle_url = [])), [(url, cp)])

/-- `BilibiliAPI.get_subtitle_list` (src/bilibili_api.py lines 71-106):
the chain result paired with the trace of requests performed. -/
def get_subtitle_list (fetch : Str → List (Str × ParamV) → Option PlayerResp)
    (aid : Option ℤ) (cid : Option ℤ) (bvid : Option Str) :
    Option (List SubTrack) × List (Str × List (Str × ParamV)) :=
  try_candidates fetch (endpoint_candidates aid cid bvid)

/-- The request each candidate performs when `cid` is present: the URL
paired with the cleaned parameters. -/
def candidate_requests (aid : Option ℤ) (cid : ℤ) (bvid : Option Str) :
    List (Str × List (Str × ParamV)) :=
  (endpoint_candidates aid (some cid) bvid).map (fun cand => (cand.1, cleanParams cand.2))

/-- Outcome of one candidate's request: `some` of the filtered track list
when the response has success code `0` and at least one track with a
non-empty download URL, `none` otherwise. -/
def usable (fetch : Str → List (Str × ParamV) → Option PlayerResp)
    (req : Str × List (Str × ParamV)) : Option (List SubTrack) :=
  match fetch req.1 req.2 with
  | none => none
  | some data =>
    if data.code ≠ 0 then none
    else
      if data.subtitles.filter (fun t => ¬ t.subtitle_url = []) = [] then none
      else some (data.subtitles.filter (fun t => ¬ t.subtitle_url = []))

theorem try_candidates_cons_skip (fetch : Str → List (Str × ParamV) → Option PlayerResp)
    (url : Str) (params : List (Str × Option ParamV))
    (rest : List (Str × List (Str × Option ParamV)))
    (h : (cleanParams params).any (fun kv => kv.1 = "cid".toList) = false) :
    try_candidates fetch ((url, params) :: rest) = try_candidates fetch rest := by
  simp only [try_candidates]
  rw [if_pos (by rw [h]; simp)]

theorem try_candidates_cons_fail (fetch : Str → List (Str × ParamV) → Option PlayerResp)
    (url : Str) (params : List (Str × Option ParamV))
    (rest : List (Str × List (Str × Option ParamV)))
    (hc : (cleanParams params).any (fun kv => kv.1 = "cid".toList) = true)
    (h : usable fetch (url, cleanParams params) = none) :
    try_candidates fetch ((url, params) :: rest)
      = ((try_candidates fetch rest).1,
         (url, cleanParams params) :: (try_candidates fetch rest).2) := by
  simp only [try_candidates]
  rw [if_neg (by rw [hc]; simp)]
  unfold usable at h
  rcases hu : fetch url (cleanParams params) with _ | data
  · simp only [hu]
  · rw [hu] at h
    simp only [hu]
    simp only at h
    by_cases hcode : data.code ≠ 0
    · rw [if_pos hcode]
    · rw [if_neg hcode] at h ⊢
      by_cases hav : data.subtitles.filter (fun t => ¬ t.subtitle_url = []) = []
      · rw [if_pos hav]
      · rw [if_neg hav] at h
        exact absurd h (by simp)

theorem try_candidates_cons_good (fetch : Str → List (Str × ParamV) → Option PlayerResp)
    (url : Str) (params : List (Str × Option ParamV))
    (rest : List (Str × List (Str × Option ParamV))) (av : List SubTrack)
    (hc : (cleanParams params).any (fun kv => kv.1 = "cid".toList) = true)
    (h : usable fetch (url, cleanParams params) = some av) :
    try_candidates fetch ((url, params) :: rest) = (some av, [(url, cleanParams params)]) := by
  simp only [try_candidates]
  rw [if_neg (by rw [hc]; simp)]
  unfold usable at h
  rcases hu : fetch url (cleanParams params) with _ | data
  · rw [hu] at h
    exact absurd h (by simp)
  · rw [hu] at h
    simp only [hu]
    simp only at h
    by_cases hcode : data.code ≠ 0
    · rw [if_pos hcode] at h
      exact absurd h (by simp)
    · rw [if_neg hcode] at h ⊢
      by_cases hav : data.subtitles.filter (fun t => ¬ t.subtitle_url = []) = []
      · rw [if_pos hav] at h
        exact absurd h (by simp)
      · rw [if_neg hav] at h ⊢
        rw [Option.some_inj] at h
        rw [h]

theorem cid_present_aid (aid : Option ℤ) (c : ℤ) :
    (cleanParams [("aid".toList, aid.map ParamV.pInt),
                  ("cid".toList, some (ParamV.pInt c))]).any
      (fun kv => kv.1 = "cid".toList) = true := by
  cases aid <;> rfl

theorem cid_present_bvid (bvid : Option Str) (c : ℤ) :
    (cleanParams [("bvid".toList, bvid.map ParamV.pStr),
                  ("cid".toList, some (ParamV.pInt c))]).any
      (fun kv => kv.1 = "cid".toList) = true := by
  cases bvid <;> rfl

theorem cid_absent_aid (aid : Option ℤ) :
    (cleanParams [("aid".toList, aid.map ParamV.pInt),
                  ("cid".toList, (none : Option ParamV))]).any
      (fun kv => kv.1 = "cid".toList) = false := by
  cases aid <;> rfl

theorem cid_absent_bvid (bvid : Option Str) :
    (cleanParams [("bvid".toList, bvid.map ParamV.pStr),
                  ("cid".toList, (none : Option ParamV))]).any
      (fun kv => kv.1 = "cid".toList) = false := by
  cases bvid <;> rfl

/-- C3: `BilibiliAPI.get_subtitle_list` walks its four endpoint/parameter
candidates in their fixed order.  With `cid` present: if the first usable
candidate (success code `0` and at least one track with a non-empty
`subtitle_url`) is at position `j`, the filtered track list of that
candidate is returned, exactly the requests `0..j` were performed and no
later candidate was tried; an earlier candidate failing only moves the
chain on; only exhaustion of all four candidates yields not-available.
With `cid` absent every candidate is skipped without any request. -/
theorem C3_subtitle_list_chain (fetch : Str → List (Str × ParamV) → Option PlayerResp)
    (aid : Option ℤ) (c : ℤ) (bvid : Option Str) (av : List SubTrack) :
    ∃ q0 q1 q2 q3 : Str × List (Str × ParamV),
      candidate_requests aid c bvid = [q0, q1, q2, q3]
      ∧ (usable fetch q0 = some av →
          get_subtitle_list fetch aid (some c) bvid = (some av, [q0]))
      ∧ (usable fetch q0 = none → usable fetch q1 = some av →
          get_subtitle_list fetch aid (some c) bvid = (some av, [q0, q1]))
      ∧ (usable fetch q0 = none → usable fetch q1 = none → usable fetch q2 = some av →
          get_subtitle_list fetch aid (some c) bvid = (some av, [q0, q1, q2]))
      ∧ (usable fetch q0 = none → usable fetch q1 = none → usable fetch q2 = none →
          usable fetch q3 = some av →
          get_subtitle_list fetch aid (some c) bvid = (some av, [q0, q1, q2, q3]))
      ∧ (usable fetch q0 = none → usable fetch q1 = none → usable fetch q2 = none →
          usable fetch q3 = none →
          get_subtitle_list fetch aid (some c) bvid = (none, [q0, q1, q2, q3]))
      ∧ get_subtitle_list fetch aid none bvid = (none, []) := by
  refine ⟨("https://api.bilibili.com/x/player/wbi/v2".toList,
      cleanParams [("aid".toList, aid.map ParamV.pInt), ("cid".toList, some (ParamV.pInt c))]),
    ("https://api.bilibili.com/x/player/wbi/v2".toList,
      cleanParams [("bvid".toList, bvid.map ParamV.pStr), ("cid".toList, some (ParamV.pInt c))]),
    ("https://api.bilibili.com/x/player/v2".toList,
      cleanParams [("aid".toList, aid.map ParamV.pInt), ("cid".toList, some (ParamV.pInt c))]),
    ("https://api.bilibili.com/x/player/v2".toList,
      cleanParams [("bvid".toList, bvid.map ParamV.pStr), ("cid".toList, some (ParamV.pInt c))]),
    rfl, ?_, ?_, ?_, ?_, ?_, ?_⟩
  · intro h0
    rw [get_subtitle_list, endpoint_candidates]
    simp only [Option.map_some']
    rw [try_candidates_cons_good fetch _ _ _ av (cid_present_aid aid c) h0]
  · intro h0 h1
    rw [get_subtitle_list, endpoint_candidates]
    simp only [Option.map_some']
    rw [try_candidates_cons_fail fetch _ _ _ (cid_present_aid aid c) h0,
      try_candidates_cons_good fetch _ _ _ av (cid_present_bvid bvid c) h1]
  · intro h0 h1 h2
    rw [get_subtitle_list, endpoint_candidates]
    simp only [Option.map_some']
    rw [try_candidates_cons_fail fetch _ _ _ (cid_present_aid aid c) h0,
      try_candidates_cons_fail fetch _ _ _ (cid_present_bvid bvid c) h1,
      try_candidates_cons_good fetch _ _ _ av (cid_present_aid aid c) h2]
  · intro h0 h1 h2 h3
    rw [get_subtitle_list, endpoint_candidates]
    simp only [Option.map_some']
    rw [try_candidates_cons_fail fetch _ _ _ (cid_present_aid aid c) h0,
      try_candidates_cons_fail fetch _ _ _ (cid_present_bvid bvid c) h1,
      try_candidates_cons_fail fetch _ _ _ (cid_present_aid aid c) h2,
      try_candidates_cons_good fetch _ _ _ av (cid_present_bvid bvid c) h3]
  · intro h0 h1 h2 h3
    rw [get_subtitle_list, endpoint_candidates]
    simp only [Option.map_some']
    rw [try_candidates_cons_fail fetch _ _ _ (cid_present_aid aid c) h0,
      try_candidates_cons_fail fetch _ _ _ (cid_present_bvid bvid c) h1,
      try_candidates_cons_fail fetch _ _ _ (cid_present_aid aid c) h2,
      try_candidates_cons_fail fetch _ _ _ (cid_present_bvid bvid c) h3]
    rfl
  · rw [get_subtitle_list, endpoint_candidates]
    simp only [Option.map_none']
    rw [try_candidates_cons_skip fetch _ _ _ (cid_absent_aid aid),
      try_candidates_cons_skip fetch _ _ _ (cid_absent_bvid bvid),
      try_candidates_cons_skip fetch _ _ _ (cid_absent_aid aid),
      try_candidates_cons_skip fetch _ _ _ (cid_absent_bvid bvid)]
    rfl

/-- Demonstration oracle for the C3 witness: any request whose cleaned
parameters carry `aid` answers with a non-zero status code, the others
answer success with one downloadable track. -/
def demo_fetch (url : Str) (ps : List (Str × ParamV)) : Option PlayerResp :=
  if ps.any (fun kv => kv.1 = "aid".toList) then some ⟨-352, []⟩
  else some ⟨0, [⟨"https://sub".toList⟩]⟩

/-- Witness for C3: the first candidate reports a non-zero code, the chain
moves to the second candidate and returns its track list after exactly two
requests. -/
theorem C3_subtitle_list_chain_witness :
    get_subtitle_list demo_fetch (some 1) (some 2) (some "BVdemo".toList)
      = (some [⟨"https://sub".toList⟩],
         [("https://api.bilibili.com/x/player/wbi/v2".toList,
           [("aid".toList, ParamV.pInt 1), ("cid".toList, ParamV.pInt 2)]),
          ("https://api.bilibili.com/x/player/wbi/v2".toList,
           [("bvid".toList, ParamV.pStr "BVdemo".toList), ("cid".toList, ParamV.pInt 2)])]) := by
  obtain ⟨q0, q1, q2, q3, heq, himps⟩ :=
    C3_subtitle_list_chain demo_fetch (some 1) 2 (some "BVdemo".toList)
      [⟨"https://sub".toList⟩]
  have e : [("https://api.bilibili.com/x/player/wbi/v2".toList,
             [("aid".toList, ParamV.pInt 1), ("cid".toList, ParamV.pInt 2)]),
            ("https://api.bilibili.com/x/player/wbi/v2".toList,
             [("bvid".toList, ParamV.pStr "BVdemo".toList), ("cid".toList, ParamV.pInt 2)]),
            ("https://api.bilibili.com/x/player/v2".toList,
             [("aid".toList, ParamV.pInt 1), ("cid".toList, ParamV.pInt 2)]),
            ("https://api.bilibili.com/x/player/v2".toList,
             [("bvid".toList, ParamV.pStr "BVdemo".toList), ("cid".toList, ParamV.pInt 2)])]
      = [q0, q1, q2, q3] := by
    rw [← heq]
    rfl
  injection e with e0 e
  injection e with e1 e
  subst e0
  subst e1
  exact himps.2.1 (by decide) (by decide)

/-! SRT rendering and the markdown fallback cleaner (claim C9). -/

/-- A caption event as consumed by the renderer: the `from`/`to` seconds
and the `content` text of one body item. -/
structure CaptionItem where
  fromTime : ℚ
  toTime : ℚ
  content : Str

/-- The four lines the SRT branch of `_format_subtitle_body` appends per
event (src/subtitle_extractor.py line 404): the 1-based index, the
timestamp range, the content, and a blank separator. -/
def srt_block (idx : Nat) (it : CaptionItem) : List Str :=
  [decDigits idx,
   format_timestamp_srt it.fromTime ++ " --> ".toList ++ format_timestamp_srt it.toTime,
   it.content,
   []]

/-- The line list built by the `enumerate(body, start=1)` loop of the SRT
branch (src/subtitle_extractor.py lines 398-404). -/
def srt_lines : Nat → List CaptionItem → List Str
  | _, [] => []
  | idx, it :: rest => srt_block idx it ++ srt_lines (idx + 1) rest

/-- The SRT branch of `SubtitleExtractor._format_subtitle_body`
(src/subtitle_extractor.py lines 397-405): `"\n".join(lines).strip()`. -/
def format_subtitle_body_srt (body : List CaptionItem) : Str :=
  stripChars (joinNl (srt_lines 1 body))

/-- Test for the cleaner's first regex `^\d+\s*$`
(src/subtitle_extractor.py line 578): one or more digits then optional
whitespace, spanning the whole line. -/
def isIndexLine (s : Str) : Bool :=
  !(s.takeWhile Char.isDigit).isEmpty && (s.dropWhile Char.isDigit).all pyIsSpace

/-- Consume exactly `n` decimal digits, returning the remainder. -/
def chompDigits : Nat → Str → Option Str
  | 0, s => some s
  | n + 1, c :: s => if c.isDigit then chompDigits n s else none
  | _ + 1, [] => none

/-- Consume one `\d\x7b2\x7d:\d\x7b2\x7d:\d\x7b2\x7d[,.]\d\x7b3\x7d`
timestamp, returning the remainder. -/
def chompTs (s : Str) : Option Str := do
  let s ← chompDigits 2 s
  let s ← match s with
          | ':' :: t => some t
          | _ => none
  let s ← chompDigits 2 s
  let s ← match s with
          | ':' :: t => some t
          | _ => none
  let s ← chompDigits 2 s
  let s ← match s with
          | ',' :: t => some t
          | '.' :: t => some t
          | _ => none
  chompDigits 3 s

/-- Remainder after matching the body of the cleaner's timestamp-range
regex (src/subtitle_extractor.py lines 579-583): timestamp, optional
whitespace, the arrow, optional whitespace, timestamp, optional trailing
whitespace. -/
def matchTsRange (s : Str) : Option Str := do
  let s ← chompTs s
  let s := s.dropWhile pyIsSpace
  let s ← match s with
          | '-' :: '-' :: '>' :: t => some t
          | _ => none
  let s := s.dropWhile pyIsSpace
  let s ← chompTs s
  pure (s.dropWhile pyIsSpace)

/-- Test for the cleaner's anchored timestamp-range regex: the match must
span the whole line. -/
def isTsRangeLine (s : Str) : Bool :=
  match matchTsRange s with
  | some [] => true
  | _ => false

/-- One iteration of the fallback cleaning loop of
`SubtitleExtractor.save_subtitles_to_markdown`
(src/subtitle_extractor.py lines 575-585): strip the line and drop it when
empty; blank a pure-index line via the first anchored regex, strip; blank a
timestamp-range line via the second anchored regex, strip; emit what
remains prefixed with a bullet. -/
def clean_fallback_line (line : Str) : Option Str :=
  let c0 := stripChars line
  if c0 = [] then none
  else
    let c1 := stripChars (if isIndexLine c0 then [] else c0)
    let c2 := stripChars (if isTsRangeLine c1 then [] else c1)
    if c2 = [] then none else some ("- ".toList ++ c2)

/-- The fallback cleaning pass over a rendered subtitle text: split into
lines and clean each, keeping the emitted bullet lines. -/
def clean_fallback (text : Str) : List Str :=
  (splitNl text).filterMap clean_fallback_line

theorem stripChars_all_ws {s : Str} (h : ∀ c ∈ s, pyIsSpace c = true) : stripChars s = [] := by
  unfold stripChars
  rw [List.dropWhile_eq_nil_iff.mpr h]
  rfl

theorem stripChars_cons_ws {c : Char} {s : Str} (h : pyIsSpace c = true) :
    stripChars (c :: s) = stripChars s := by
  unfold stripChars
  rw [List.dropWhile_cons, if_pos h]

theorem stripChars_append_ws {s u : Str} (hu : ∀ c ∈ u, pyIsSpace c = true) :
    stripChars (s ++ u) = stripChars s := by
  unfold stripChars
  rw [List.dropWhile_append]
  by_cases hs : (s.dropWhile pyIsSpace).isEmpty
  · rw [if_pos hs, List.dropWhile_eq_nil_iff.mpr hu]
    have h0 : s.dropWhile pyIsSpace = [] := by simpa using hs
    rw [h0]
  · rw [if_neg hs, List.reverse_append, List.dropWhile_append,
      List.dropWhile_eq_nil_iff.mpr (by simpa using hu)]
    simp

theorem lstrip_decomp (s : Str) :
    ∃ u, (∀ c ∈ u, pyIsSpace c = true) ∧ s.dropWhile pyIsSpace = stripChars s ++ u := by
  refine ⟨((s.dropWhile pyIsSpace).reverse.takeWhile pyIsSpace).reverse, ?_, ?_⟩
  · intro c hc
    rw [List.mem_reverse] at hc
    exact List.mem_takeWhile_imp hc
  · show s.dropWhile pyIsSpace
      = ((s.dropWhile pyIsSpace).reverse.dropWhile pyIsSpace).reverse
        ++ ((s.dropWhile pyIsSpace).reverse.takeWhile pyIsSpace).reverse
    rw [← List.reverse_append, List.takeWhile_append_dropWhile, List.reverse_reverse]

theorem stripChars_eq_self {s : Str}
    (h1 : ∀ c, s.head? = some c → pyIsSpace c = false)
    (h2 : ∀ c, s.getLast? = some c → pyIsSpace c = false) : stripChars s = s := by
  have hd : s.dropWhile pyIsSpace = s := by
    cases s with
    | nil => rfl
    | cons c s' =>
      rw [List.dropWhile_cons, if_neg]
      simp [h1 c rfl]
  unfold stripChars
  rw [hd]
  rcases List.eq_nil_or_concat s with rfl | ⟨L, b, rfl⟩
  · rfl
  · rw [List.concat_eq_append] at h2 ⊢
    rw [List.reverse_append, List.reverse_singleton, List.singleton_append,
      List.dropWhile_cons, if_neg (by simp [h2 b (List.getLast?_concat L)])]
    rw [List.reverse_cons, List.reverse_reverse]

theorem splitNl_nl (rest : Str) : splitNl ('\n' :: rest) = [] :: splitNl rest := by
  simp [splitNl]

theorem splitNl_ne_nil (s : Str) : splitNl s ≠ [] := by
  cases s with
  | nil => simp [splitNl]
  | cons c rest =>
    by_cases h : c = '\n'
    · simp [splitNl, h]
    · cases hs : splitNl rest <;> simp [splitNl, h, hs]

theorem splitNl_cons_ne {c : Char} (h : ¬ c = '\n') {rest : Str} {l : Str} {ls : List Str}
    (hs : splitNl rest = l :: ls) : splitNl (c :: rest) = (c :: l) :: ls := by
  simp [splitNl, h, hs]

/-- Apply a function to the last element of a list. -/
def modLast (f : Str → Str) : List Str → List Str
  | [] => []
  | [x] => [f x]
  | x :: xs => x :: modLast f xs

theorem modLast_cons {f : Str → Str} {x : Str} {xs : List Str} (h : xs ≠ []) :
    modLast f (x :: xs) = x :: modLast f xs := by
  cases xs with
  | nil => exact absurd rfl h
  | cons b bs => rfl

theorem splitNl_append (t u : Str) {hu : Str} {tu : List Str} (h : splitNl u = hu :: tu) :
    splitNl (t ++ u) = modLast (· ++ hu) (splitNl t) ++ tu := by
  induction t with
  | nil =>
    simp only [List.nil_append, h, splitNl, modLast]
    rfl
  | cons c t' ih =>
    by_cases hc : c = '\n'
    · subst hc
      rw [List.cons_append, splitNl_nl, splitNl_nl, ih,
        modLast_cons (splitNl_ne_nil t'), List.cons_append]
    · cases hs : splitNl t' with
      | nil => exact absurd hs (splitNl_ne_nil t')
      | cons a as =>
        rw [splitNl_cons_ne hc hs]
        cases as with
        | nil =>
          rw [hs] at ih
          have hta : splitNl (t' ++ u) = (a ++ hu) :: tu := by
            rw [ih]
            rfl
          rw [List.cons_append, splitNl_cons_ne hc hta]
          rfl
        | cons b bs =>
          rw [hs] at ih
          have hta : splitNl (t' ++ u) = a :: (modLast (· ++ hu) (b :: bs) ++ tu) := by
            rw [ih, modLast_cons (by simp), List.cons_append]
          rw [List.cons_append, splitNl_cons_ne hc hta]
          conv_rhs => rw [modLast_cons (by simp)]
          rw [List.cons_append]

theorem clean_fallback_line_congr {l1 l2 : Str} (h : stripChars l1 = stripChars l2) :
    clean_fallback_line l1 = clean_fallback_line l2 := by
  unfold clean_fallback_line
  rw [h]

theorem cfl_nil : clean_fallback_line [] = none := by rfl

theorem cfl_ws_none {l : Str} (h : ∀ c ∈ l, pyIsSpace c = true) :
    clean_fallback_line l = none := by
  unfold clean_fallback_line
  rw [stripChars_all_ws h]
  rfl

theorem splitNl_all_ws {u : Str} (h : ∀ c ∈ u, pyIsSpace c = true) :
    ∀ l ∈ splitNl u, ∀ c ∈ l, pyIsSpace c = true := by
  induction u with
  | nil =>
    intro l hl
    simp only [splitNl, List.mem_singleton] at hl
    subst hl
    simp
  | cons c u' ih =>
    intro l hl
    have hrest : ∀ x ∈ u', pyIsSpace x = true := fun x hx => h x (List.mem_cons_of_mem _ hx)
    by_cases hc : c = '\n'
    · subst hc
      rw [splitNl_nl] at hl
      rcases List.mem_cons.mp hl with rfl | hmem
      · simp
      · exact ih hrest l hmem
    · cases hs : splitNl u' with
      | nil => exact absurd hs (splitNl_ne_nil u')
      | cons a as =>
        rw [splitNl_cons_ne hc hs] at hl
        rcases List.mem_cons.mp hl with rfl | hmem
        · intro d hd
          rcases List.mem_cons.mp hd with rfl | hd'
          · exact h d (List.mem_cons_self _ _)
          · exact ih hrest a (hs ▸ List.mem_cons_self _ _) d hd'
        · exact ih hrest l (hs ▸ List.mem_cons_of_mem _ hmem)

theorem cf_all_ws {u : Str} (h : ∀ c ∈ u, pyIsSpace c = true) : clean_fallback u = [] := by
  unfold clean_fallback
  rw [List.filterMap_eq_nil]
  intro l hl
  exact cfl_ws_none (splitNl_all_ws h l hl)

theorem filterMap_modLast {f : Str → Str}
    (hf : ∀ x, clean_fallback_line (f x) = clean_fallback_line x) (xs : List Str) :
    (modLast f xs).filterMap clean_fallback_line = xs.filterMap clean_fallback_line := by
  induction xs with
  | nil => rfl
  | cons a as ih =>
    cases as with
    | nil => simp [modLast, List.filterMap_cons, hf a]
    | cons b bs =>
      rw [modLast_cons (by simp), List.filterMap_cons, List.filterMap_cons, ih]

theorem cf_append_ws {t u : Str} (hu : ∀ c ∈ u, pyIsSpace c = true) :
    clean_fallback (t ++ u) = clean_fallback t := by
  cases hsu : splitNl u with
  | nil => exact absurd hsu (splitNl_ne_nil u)
  | cons hu0 tu =>
    unfold clean_fallback
    rw [splitNl_append t u hsu, List.filterMap_append]
    have hu0ws : ∀ c ∈ hu0, pyIsSpace c = true :=
      splitNl_all_ws hu hu0 (hsu ▸ List.mem_cons_self _ _)
    have h1 : tu.filterMap clean_fallback_line = [] := by
      have hall := cf_all_ws hu
      unfold clean_fallback at hall
      rw [hsu, List.filterMap_cons] at hall
      cases hfl : clean_fallback_line hu0 with
      | none => rw [hfl] at hall; exact hall
      | some v => rw [hfl] at hall; exact absurd hall (by simp)
    rw [h1, List.append_nil]
    apply filterMap_modLast
    intro x
    exact clean_fallback_line_congr (stripChars_append_ws hu0ws)

theorem cf_lstrip (t : Str) : clean_fallback (t.dropWhile pyIsSpace) = clean_fallback t := by
  induction t with
  | nil => rfl
  | cons c t' ih =>
    by_cases hc : pyIsSpace c = true
    · rw [List.dropWhile_cons, if_pos hc, ih]
      by_cases hnl : c = '\n'
      · subst hnl
        unfold clean_fallback
        rw [splitNl_nl, List.filterMap_cons, cfl_nil]
      · cases hs : splitNl t' with
        | nil => exact absurd hs (splitNl_ne_nil t')
        | cons a as =>
          unfold clean_fallback
          rw [splitNl_cons_ne hnl hs, hs, List.filterMap_cons, List.filterMap_cons,
            clean_fallback_line_congr (stripChars_cons_ws hc)]
    · rw [List.dropWhile_cons, if_neg hc]

theorem cf_strip (t : Str) : clean_fallback (stripChars t) = clean_fallback t := by
  obtain ⟨u, hu, hdec⟩ := lstrip_decomp t
  calc clean_fallback (stripChars t)
      = clean_fallback (stripChars t ++ u) := (cf_append_ws hu).symm
    _ = clean_fallback (t.dropWhile pyIsSpace) := by rw [hdec]
    _ = clean_fallback t := cf_lstrip t

theorem splitNl_no_nl {l : Str} (h : ∀ c ∈ l, ¬ c = '\n') : splitNl l = [l] := by
  induction l with
  | nil => rfl
  | cons c l' ih =>
    have hc : ¬ c = '\n' := h c (List.mem_cons_self _ _)
    exact splitNl_cons_ne hc (ih (fun d hd => h d (List.mem_cons_of_mem _ hd)))

theorem splitNl_append_nl {l : Str} (h : ∀ c ∈ l, ¬ c = '\n') (t : Str) :
    splitNl (l ++ '\n' :: t) = l :: splitNl t := by
  induction l with
  | nil => exact splitNl_nl t
  | cons c l' ih =>
    have hc : ¬ c = '\n' := h c (List.mem_cons_self _ _)
    rw [List.cons_append]
    exact splitNl_cons_ne hc (ih (fun d hd => h d (List.mem_cons_of_mem _ hd)))

theorem splitNl_joinNl : ∀ {L : List Str}, L ≠ [] →
    (∀ l ∈ L, ∀ c ∈ l, ¬ c = '\n') → splitNl (joinNl L) = L := by
  intro L
  induction L with
  | nil => intro h; exact absurd rfl h
  | cons l rest ih =>
    intro _ h
    cases rest with
    | nil =>
      show splitNl (joinNl [l]) = [l]
      rw [joinNl]
      exact splitNl_no_nl (h l (List.mem_cons_self _ _))
    | cons l2 rest' =>
      show splitNl (l ++ '\n' :: joinNl (l2 :: rest')) = l :: l2 :: rest'
      rw [splitNl_append_nl (h l (List.mem_cons_self _ _)),
        ih (by simp) (fun x hx => h x (List.mem_cons_of_mem _ hx))]

theorem digit_not_ws {c : Char} (h : c.isDigit = true) : pyIsSpace c = false := by
  by_contra hc
  rw [Bool.not_eq_false] at hc
  simp only [pyIsSpace, Bool.or_eq_true, decide_eq_true_eq] at hc
  rcases hc with ((((h1 | h1) | h1) | h1) | h1) | h1 <;> subst h1 <;> exact absurd h (by decide)

theorem digit_ne_nl {c : Char} (h : c.isDigit = true) : ¬ c = '\n' := by
  intro e
  subst e
  exact absurd h (by decide)

theorem chompDigits_exact : ∀ {s : Str} {n : Nat}, s.length = n →
    (∀ c ∈ s, c.isDigit = true) → ∀ rest : Str, chompDigits n (s ++ rest) = some rest := by
  intro s
  induction s with
  | nil =>
    intro n hlen _ rest
    subst hlen
    rfl
  | cons c s' ih =>
    intro n hlen hdig rest
    subst hlen
    show chompDigits (s'.length + 1) (c :: (s' ++ rest)) = some rest
    rw [chompDigits, if_pos (hdig c (List.mem_cons_self _ _))]
    exact ih rfl (fun d hd => hdig d (List.mem_cons_of_mem _ hd)) rest

theorem dropWhile_append_all {p : Char → Bool} : ∀ {d : Str}, (∀ c ∈ d, p c = true) →
    ∀ x : Str, List.dropWhile p (d ++ x) = List.dropWhile p x := by
  intro d
  induction d with
  | nil => intro _ x; rfl
  | cons c d' ih =>
    intro h x
    rw [List.cons_append, List.dropWhile_cons, if_pos (h c (List.mem_cons_self _ _))]
    exact ih (fun e he => h e (List.mem_cons_of_mem _ he)) x

theorem dropWhile_ws_of_digits {d : Str} (hd : ∀ c ∈ d, c.isDigit = true) (hne : d ≠ [])
    (x : Str) : List.dropWhile pyIsSpace (d ++ x) = d ++ x := by
  cases d with
  | nil => exact absurd rfl hne
  | cons c d' =>
    rw [List.cons_append, List.dropWhile_cons,
      if_neg (by simp [digit_not_ws (hd c (List.mem_cons_self _ _))])]

theorem chompTs_build {d1 d2 d3 d4 : Str} (rest : Str)
    (h1 : d1.length = 2) (h2 : d2.length = 2) (h3 : d3.length = 2) (h4 : d4.length = 3)
    (g1 : ∀ c ∈ d1, c.isDigit = true) (g2 : ∀ c ∈ d2, c.isDigit = true)
    (g3 : ∀ c ∈ d3, c.isDigit = true) (g4 : ∀ c ∈ d4, c.isDigit = true) :
    chompTs (d1 ++ ':' :: (d2 ++ ':' :: (d3 ++ ',' :: (d4 ++ rest)))) = some rest := by
  unfold chompTs
  rw [chompDigits_exact h1 g1]
  simp only [Option.bind_eq_bind, Option.some_bind]
  rw [chompDigits_exact h2 g2]
  simp only [Option.some_bind]
  rw [chompDigits_exact h3 g3]
  simp only [Option.some_bind]
  rw [chompDigits_exact h4 g4]

theorem fmtNum_ne_nil (w n : Nat) : fmtNum w n ≠ [] := by
  unfold fmtNum
  intro h
  rcases List.append_eq_nil.mp h with ⟨_, h2⟩
  exact decDigits_ne_nil n h2

theorem stripChars_sandwich {d e : Str} (hd : ∀ c ∈ d, pyIsSpace c = false)
    (he : ∀ c ∈ e, pyIsSpace c = false) (hdne : d ≠ []) (hene : e ≠ []) (m : Str) :
    stripChars (d ++ m ++ e) = d ++ m ++ e := by
  unfold stripChars
  have h1 : List.dropWhile pyIsSpace (d ++ m ++ e) = d ++ m ++ e := by
    cases d with
    | nil => exact absurd rfl hdne
    | cons c cs =>
      rw [List.cons_append, List.cons_append, List.dropWhile_cons,
        if_neg (by simp [hd c (List.mem_cons_self _ _)])]
  rw [h1]
  have h2 : (d ++ m ++ e).reverse = e.reverse ++ (m.reverse ++ d.reverse) := by
    simp [List.reverse_append, List.append_assoc]
  rw [h2]
  cases hrev : e.reverse with
  | nil =>
    exact absurd (by simpa using congrArg List.reverse hrev) hene
  | cons c cs =>
    have hc : c ∈ e := by
      rw [← List.mem_reverse, hrev]
      exact List.mem_cons_self _ _
    rw [List.cons_append, List.dropWhile_cons, if_neg (by simp [he c hc]),
      ← List.cons_append, ← hrev]
    simp [List.reverse_append, List.append_assoc]

/-- Right-nested shape of the SRT timestamp string. -/
theorem srt_shape (q : ℚ) :
    format_timestamp_srt q
      = fmtNum 2 (srt_parts q).1
        ++ ':' :: (fmtNum 2 (srt_parts q).2.1
        ++ ':' :: (fmtNum 2 (srt_parts q).2.2.1
        ++ ',' :: fmtNum 3 (srt_parts q).2.2.2)) := by
  simp [format_timestamp_srt, List.append_assoc]

theorem srt_parts_bounds (q : ℚ) :
    (srt_parts q).2.1 ≤ 59 ∧ (srt_parts q).2.2.1 ≤ 59 ∧ (srt_parts q).2.2.2 ≤ 999 := by
  have hq : (0 : ℚ) ≤ max 0 q := le_max_left 0 q
  have hclamp : srt_parts q = srt_parts (max 0 q) := by
    simp only [srt_parts]
    rw [show max 0 (max 0 q) = max 0 q from max_eq_right (le_max_left 0 q)]
  obtain ⟨hr0, hr1⟩ := pyRound_frac_scaled (max 0 q) 1000 (by norm_num)
  push_cast at hr0 hr1
  rw [hclamp, srt_parts_eq _ hq]
  dsimp only
  refine ⟨by omega, by omega, ?_⟩
  by_cases hc : pyRound ((max 0 q - (⌊max 0 q⌋ : ℚ)) * 1000) = 1000
  · rw [if_pos hc]
    omega
  · rw [if_neg hc]
    omega

theorem chompTs_srt (q : ℚ) (hH : (srt_parts q).1 ≤ 99) (rest : Str) :
    chompTs (format_timestamp_srt q ++ rest) = some rest := by
  obtain ⟨hm, hs, hms⟩ := srt_parts_bounds q
  have e : format_timestamp_srt q ++ rest
      = fmtNum 2 (srt_parts q).1
        ++ ':' :: (fmtNum 2 (srt_parts q).2.1
        ++ ':' :: (fmtNum 2 (srt_parts q).2.2.1
        ++ ',' :: (fmtNum 3 (srt_parts q).2.2.2 ++ rest))) := by
    rw [srt_shape]
    simp [List.append_assoc]
  rw [e]
  exact chompTs_build rest
    (fmtNum_len_exact (by norm_num) (by omega))
    (fmtNum_len_exact (by norm_num) (by omega))
    (fmtNum_len_exact (by norm_num) (by omega))
    (fmtNum_len_exact (by norm_num) (by omega))
    (fmtNum_digits _ _) (fmtNum_digits _ _) (fmtNum_digits _ _) (fmtNum_digits _ _)

section TsLineLemmas

attribute [local irreducible] format_timestamp_srt

theorem matchTsRange_srt (a b : ℚ) (ha : (srt_parts a).1 ≤ 99) (hb : (srt_parts b).1 ≤ 99) :
    matchTsRange
      (format_timestamp_srt a ++ " --> ".toList ++ format_timestamp_srt b) = some [] := by
  have h1 := chompTs_srt a ha
  have hb' : chompTs (format_timestamp_srt b) = some [] := by
    have := chompTs_srt b hb []
    rwa [List.append_nil] at this
  have h3 : List.dropWhile pyIsSpace (format_timestamp_srt b) = format_timestamp_srt b := by
    rw [srt_shape b]
    exact dropWhile_ws_of_digits (fmtNum_digits _ _) (fmtNum_ne_nil _ _) _
  unfold matchTsRange
  rw [List.append_assoc, h1]
  simp only [Option.bind_eq_bind, Option.some_bind]
  have harr : " --> ".toList = [' ', '-', '-', '>', ' '] := rfl
  rw [harr]
  simp only [List.cons_append, List.nil_append]
  rw [List.dropWhile_cons, if_pos (show pyIsSpace ' ' = true by decide),
    List.dropWhile_cons, if_neg (show ¬ pyIsSpace '-' = true by decide)]
  simp only [Option.some_bind]
  rw [List.dropWhile_cons, if_pos (show pyIsSpace ' ' = true by decide), h3, hb']
  simp only [Option.some_bind]
  rw [List.dropWhile_nil]
  rfl

theorem isTsRangeLine_srt (a b : ℚ) (ha : (srt_parts a).1 ≤ 99) (hb : (srt_parts b).1 ≤ 99) :
    isTsRangeLine
      (format_timestamp_srt a ++ " --> ".toList ++ format_timestamp_srt b) = true := by
  unfold isTsRangeLine
  rw [matchTsRange_srt a b ha hb]

theorem isIndexLine_srtline (a b : ℚ) :
    isIndexLine
      (format_timestamp_srt a ++ " --> ".toList ++ format_timestamp_srt b) = false := by
  unfold isIndexLine
  have e : format_timestamp_srt a ++ " --> ".toList ++ format_timestamp_srt b
      = fmtNum 2 (srt_parts a).1
        ++ (':' :: (fmtNum 2 (srt_parts a).2.1
            ++ ':' :: (fmtNum 2 (srt_parts a).2.2.1
            ++ ',' :: fmtNum 3 (srt_parts a).2.2.2))
          ++ " --> ".toList ++ format_timestamp_srt b) := by
    rw [srt_shape a]
    simp [List.append_assoc]
  rw [e, dropWhile_append_all (fmtNum_digits _ _)]
  rw [List.cons_append, List.cons_append, List.dropWhile_cons,
    if_neg (show ¬ Char.isDigit ':' = true by decide)]
  simp [pyIsSpace]

theorem stripChars_srtline (a b : ℚ) :
    stripChars (format_timestamp_srt a ++ " --> ".toList ++ format_timestamp_srt b)
      = format_timestamp_srt a ++ " --> ".toList ++ format_timestamp_srt b := by
  have e : format_timestamp_srt a ++ " --> ".toList ++ format_timestamp_srt b
      = fmtNum 2 (srt_parts a).1
        ++ (':' :: (fmtNum 2 (srt_parts a).2.1
            ++ ':' :: (fmtNum 2 (srt_parts a).2.2.1 ++ ',' :: fmtNum 3 (srt_parts a).2.2.2))
          ++ " --> ".toList
          ++ (fmtNum 2 (srt_parts b).1
            ++ ':' :: (fmtNum 2 (srt_parts b).2.1 ++ ':' :: fmtNum 2 (srt_parts b).2.2.1))
          ++ [','])
        ++ fmtNum 3 (srt_parts b).2.2.2 := by
    rw [srt_shape a, srt_shape b]
    simp [List.append_assoc, List.cons_append, List.singleton_append]
  rw [e]
  exact stripChars_sandwich
    (fun c hc => digit_not_ws (fmtNum_digits _ _ c hc))
    (fun c hc => digit_not_ws (fmtNum_digits _ _ c hc))
    (fmtNum_ne_nil _ _) (fmtNum_ne_nil _ _) _

end TsLineLemmas

theorem takeWhile_all {p : Char → Bool} : ∀ {l : Str}, (∀ c ∈ l, p c = true) →
    l.takeWhile p = l := by
  intro l
  induction l with
  | nil => intro _; rfl
  | cons c l' ih =>
    intro h
    rw [List.takeWhile_cons, if_pos (h c (List.mem_cons_self _ _)),
      ih (fun d hd => h d (List.mem_cons_of_mem _ hd))]

theorem mem_of_getLast?_eq {l : Str} {c : Char} (h : l.getLast? = some c) : c ∈ l := by
  rcases List.eq_nil_or_concat l with rfl | ⟨L, b, rfl⟩
  · simp at h
  · rw [List.concat_eq_append] at h ⊢
    rw [List.getLast?_concat] at h
    simp only [Option.some.injEq] at h
    subst h
    simp

theorem stripChars_digits {d : Str} (hd : ∀ c ∈ d, c.isDigit = true) : stripChars d = d := by
  apply stripChars_eq_self
  · intro c hc
    exact digit_not_ws (hd c (List.mem_of_mem_head? (by simp [hc])))
  · intro c hc
    exact digit_not_ws (hd c (mem_of_getLast?_eq hc))

theorem cfl_index (idx : Nat) : clean_fallback_line (decDigits idx) = none := by
  simp only [clean_fallback_line]
  rw [stripChars_digits (decDigits_digits idx), if_neg (decDigits_ne_nil idx)]
  have hidx : isIndexLine (decDigits idx) = true := by
    unfold isIndexLine
    rw [takeWhile_all (decDigits_digits idx),
      List.dropWhile_eq_nil_iff.mpr (decDigits_digits idx)]
    cases hd : decDigits idx with
    | nil => exact absurd hd (decDigits_ne_nil idx)
    | cons x xs => rfl
  rw [hidx, if_pos rfl]
  decide

theorem format_timestamp_srt_ne_nil (q : ℚ) : format_timestamp_srt q ≠ [] := by
  rw [srt_shape q]
  intro h
  rcases List.append_eq_nil.mp h with ⟨h1, _⟩
  exact fmtNum_ne_nil _ _ h1

theorem noNl_srt (q : ℚ) : ∀ c ∈ format_timestamp_srt q, ¬ c = '\n' := by
  intro c hc
  rw [srt_shape q] at hc
  simp only [List.mem_append, List.mem_cons, List.mem_singleton] at hc
  rcases hc with h | h | h | h | h | h | h
  · exact digit_ne_nl (fmtNum_digits _ _ c h)
  · subst h; decide
  · exact digit_ne_nl (fmtNum_digits _ _ c h)
  · subst h; decide
  · exact digit_ne_nl (fmtNum_digits _ _ c h)
  · subst h; decide
  · exact digit_ne_nl (fmtNum_digits _ _ c h)

theorem noNl_srtline (a b : ℚ) :
    ∀ c ∈ format_timestamp_srt a ++ " --> ".toList ++ format_timestamp_srt b, ¬ c = '\n' := by
  intro c hc
  simp only [List.mem_append] at hc
  rcases hc with (h | h) | h
  · exact noNl_srt a c h
  · have : c ∈ [' ', '-', '-', '>', ' '] := h
    simp only [List.mem_cons, List.not_mem_nil, or_false] at this
    rcases this with h1 | h1 | h1 | h1 | h1
    all_goals (subst h1; decide)
  · exact noNl_srt b c h

section CflTsLine

attribute [local irreducible] format_timestamp_srt

theorem cfl_tsline (a b : ℚ) (ha : (srt_parts a).1 ≤ 99) (hb : (srt_parts b).1 ≤ 99) :
    clean_fallback_line
      (format_timestamp_srt a ++ " --> ".toList ++ format_timestamp_srt b) = none := by
  have hne : ¬ format_timestamp_srt a ++ " --> ".toList ++ format_timestamp_srt b = [] := by
    intro h
    rcases List.append_eq_nil.mp h with ⟨h1, _⟩
    rcases List.append_eq_nil.mp h1 with ⟨h2, _⟩
    exact format_timestamp_srt_ne_nil a h2
  simp only [clean_fallback_line]
  rw [stripChars_srtline a b]
  rw [if_neg hne]
  rw [isIndexLine_srtline a b]
  rw [if_neg (show ¬ (false = true) by simp)]
  rw [stripChars_srtline a b]
  rw [isTsRangeLine_srt a b ha hb]
  rw [if_pos rfl]
  decide

end CflTsLine

theorem pyRound_zero : pyRound 0 = 0 :=
  pyRound_eq_low (by norm_num) (by norm_num)

theorem srt_parts_natCast (n : ℕ) :
    srt_parts ((n : ℚ)) = (n / 3600, n % 3600 / 60, n % 60, 0) := by
  have hmax : max 0 ((n : ℚ)) = (n : ℚ) := max_eq_right (Nat.cast_nonneg n)
  have hfl : Rat.floor ((n : ℚ)) = (n : ℤ) := by
    rw [ratFloor_eq]
    exact_mod_cast Int.floor_natCast n
  have hzero : ((n : ℚ) - ((n : ℤ) : ℚ)) * 1000 = 0 := by push_cast; ring
  simp only [srt_parts, hmax, hfl, hzero, pyRound_zero]
  norm_num

theorem srt_lines_ne_nil {body : List CaptionItem} (h : body ≠ []) (idx : Nat) :
    srt_lines idx body ≠ [] := by
  cases body with
  | nil => exact absurd rfl h
  | cons it rest => simp [srt_lines, srt_block]

theorem srt_lines_no_nl {body : List CaptionItem}
    (h : ∀ it ∈ body, ∀ c ∈ it.content, ¬ c = '\n') :
    ∀ idx, ∀ l ∈ srt_lines idx body, ∀ c ∈ l, ¬ c = '\n' := by
  induction body with
  | nil => intro idx l hl; simp [srt_lines] at hl
  | cons it rest ih =>
    intro idx l hl
    rw [srt_lines] at hl
    rcases List.mem_append.mp hl with hb | hr
    · simp only [srt_block, List.mem_cons, List.not_mem_nil, or_false] at hb
      rcases hb with rfl | rfl | rfl | rfl
      · intro c hc; exact digit_ne_nl (decDigits_digits idx c hc)
      · exact noNl_srtline it.fromTime it.toTime
      · exact h it (List.mem_cons_self _ _)
      · intro c hc; simp at hc
    · exact ih (fun x hx => h x (List.mem_cons_of_mem _ hx)) (idx + 1) l hr

section FilterMapSrtLines

attribute [local irreducible] format_timestamp_srt

theorem filterMap_srt_lines {body : List CaptionItem}
    (hH : ∀ it ∈ body, (srt_parts it.fromTime).1 ≤ 99 ∧ (srt_parts it.toTime).1 ≤ 99) :
    ∀ idx, (srt_lines idx body).filterMap clean_fallback_line
      = body.filterMap (fun it => clean_fallback_line it.content) := by
  induction body with
  | nil => intro idx; rfl
  | cons it rest ih =>
    intro idx
    obtain ⟨h1, h2⟩ := hH it (List.mem_cons_self _ _)
    have hts := cfl_tsline it.fromTime it.toTime h1 h2
    have hts2 : clean_fallback_line (format_timestamp_srt it.fromTime
        ++ ' ' :: '-' :: '-' :: '>' :: ' ' :: format_timestamp_srt it.toTime) = none := by
      have e : format_timestamp_srt it.fromTime ++ " --> ".toList
            ++ format_timestamp_srt it.toTime
          = format_timestamp_srt it.fromTime
            ++ ' ' :: '-' :: '-' :: '>' :: ' ' :: format_timestamp_srt it.toTime := by
        simp
      rwa [e] at hts
    have hidx := cfl_index idx
    have hrest := ih (fun x hx => hH x (List.mem_cons_of_mem _ hx)) (idx + 1)
    rw [srt_lines, List.filterMap_append, hrest]
    cases hc : clean_fallback_line it.content with
    | none => simp [srt_block, List.filterMap_cons, hidx, hts2, hc, cfl_nil]
    | some v => simp [srt_block, List.filterMap_cons, hidx, hts2, hc, cfl_nil]

end FilterMapSrtLines

/-- C9 counterexample: the claim promises removal of every arrow line for
EVERY non-empty event list, but the cleaner's timestamp regex
(src/subtitle_extractor.py line 580) anchors each timestamp at exactly two
hour digits, while the SRT renderer emits three hour digits once the start
time reaches 100 hours (360000 s).  For the one-event body starting at
360000 s the cleaned output still contains an arrow line. -/
theorem C9_counterexample_hours :
    ∃ line ∈ clean_fallback
        (format_subtitle_body_srt [⟨(360000 : ℚ), (360001 : ℚ), ['h', 'i']⟩]),
      hasSub line " --> ".toList = true := by
  have hp1 : srt_parts (360000 : ℚ) = (100, 0, 0, 0) := by
    rw [show (360000 : ℚ) = ((360000 : ℕ) : ℚ) by norm_num, srt_parts_natCast]
  have hp2 : srt_parts (360001 : ℚ) = (100, 0, 1, 0) := by
    rw [show (360001 : ℚ) = ((360001 : ℕ) : ℚ) by norm_num, srt_parts_natCast]
  have hts1 : format_timestamp_srt (360000 : ℚ) = "100:00:00,000".toList := by
    simp only [format_timestamp_srt, hp1]
    rfl
  have hts2 : format_timestamp_srt (360001 : ℚ) = "100:00:01,000".toList := by
    simp only [format_timestamp_srt, hp2]
    rfl
  have hbody : format_subtitle_body_srt [⟨(360000 : ℚ), (360001 : ℚ), ['h', 'i']⟩]
      = "1\n100:00:00,000 --> 100:00:01,000\nhi".toList := by
    simp only [format_subtitle_body_srt, srt_lines, srt_block, joinNl, hts1, hts2]
    rfl
  rw [hbody]
  refine ⟨"- 100:00:00,000 --> 100:00:01,000".toList, ?_, ?_⟩ <;> decide

/-- C9 (amended): for every non-empty event list whose contents are single
lines and whose clamped timestamps stay below 100 hours, rendering to SRT
via `_format_subtitle_body` and applying the fallback cleaner of
`save_subtitles_to_markdown` removes every index line and every arrow
timestamp-range line, leaving exactly the events' text lines (each passed
through the per-line cleaning step). -/
theorem C9_srt_clean_roundtrip (body : List CaptionItem)
    (hne : body ≠ [])
    (hnl : ∀ it ∈ body, ∀ c ∈ it.content, ¬ c = '\n')
    (hH : ∀ it ∈ body, (srt_parts it.fromTime).1 ≤ 99 ∧ (srt_parts it.toTime).1 ≤ 99) :
    clean_fallback (format_subtitle_body_srt body)
      = body.filterMap (fun it => clean_fallback_line it.content) := by
  unfold format_subtitle_body_srt
  rw [cf_strip]
  unfold clean_fallback
  rw [splitNl_joinNl (srt_lines_ne_nil hne 1) (srt_lines_no_nl hnl 1)]
  exact filterMap_srt_lines hH 1

/-- Witness for the amended round-trip theorem at the one-event body
`[(1 s, 2 s, "hi")]`. -/
theorem C9_srt_clean_roundtrip_witness :
    (([⟨(1 : ℚ), (2 : ℚ), ['h', 'i']⟩] : List CaptionItem) ≠ []
      ∧ (∀ it ∈ ([⟨(1 : ℚ), (2 : ℚ), ['h', 'i']⟩] : List CaptionItem),
          ∀ c ∈ it.content, ¬ c = '\n')
      ∧ (∀ it : CaptionItem, it ∈ ([⟨(1 : ℚ), (2 : ℚ), ['h', 'i']⟩] : List CaptionItem) →
          (srt_parts it.fromTime).1 ≤ 99 ∧ (srt_parts it.toTime).1 ≤ 99))
    ∧ clean_fallback (format_subtitle_body_srt [⟨(1 : ℚ), (2 : ℚ), ['h', 'i']⟩])
      = List.filterMap (fun it : CaptionItem => clean_fallback_line it.content)
          [⟨(1 : ℚ), (2 : ℚ), ['h', 'i']⟩] := by
  have hp1 : srt_parts (1 : ℚ) = (0, 0, 1, 0) := by
    rw [show (1 : ℚ) = ((1 : ℕ) : ℚ) by norm_num, srt_parts_natCast]
  have hp2 : srt_parts (2 : ℚ) = (0, 0, 2, 0) := by
    rw [show (2 : ℚ) = ((2 : ℕ) : ℚ) by norm_num, srt_parts_natCast]
  have hne : ([⟨(1 : ℚ), (2 : ℚ), ['h', 'i']⟩] : List CaptionItem) ≠ [] := by simp
  have hnl : ∀ it ∈ ([⟨(1 : ℚ), (2 : ℚ), ['h', 'i']⟩] : List CaptionItem),
      ∀ c ∈ it.content, ¬ c = '\n' := by
    intro it hit
    simp only [List.mem_singleton] at hit
    subst hit
    decide
  have hH : ∀ it : CaptionItem, it ∈ ([⟨(1 : ℚ), (2 : ℚ), ['h', 'i']⟩] : List CaptionItem) →
      (srt_parts it.fromTime).1 ≤ 99 ∧ (srt_parts it.toTime).1 ≤ 99 := by
    intro it hit
    simp only [List.mem_singleton] at hit
    subst hit
    show (srt_parts (1 : ℚ)).1 ≤ 99 ∧ (srt_parts (2 : ℚ)).1 ≤ 99
    rw [hp1, hp2]
    exact ⟨by norm_num, by norm_num⟩
  exact ⟨⟨hne, hnl, hH⟩, C9_srt_clean_roundtrip _ hne hnl hH⟩

/-! C8: `YoutubeSubtitleAdapter._ensure_json3_url`
(src/subtitle_extractor.py lines 269-275).  The embedding models the
Python standard-library collaborators (`str.replace`, `html.unescape`,
`urlparse`/`urlunparse`, `parse_qs`, `urlencode`) on the URL class the
adapter feeds them: ASCII caption-track URLs without `#` fragments or `;`
path parameters, whose query keys and values need no percent-quoting, so
that `unquote_plus`/`quote_plus` are the identity. -/

/-- `base_url.replace("\\u0026", "&")` (src/subtitle_extractor.py line
270): single left-to-right pass replacing the literal six-character
sequence backslash-u-0-0-2-6 by an ampersand, continuing after each
replacement.  Fuel-based so the kernel can evaluate it; the fuel `s.length`
is always sufficient because every step consumes at least one character. -/
def replaceU0026Aux : Nat → Str → Str
  | 0, s => s
  | _ + 1, [] => []
  | fuel + 1, c :: rest =>
    if c = '\\' ∧ rest.take 5 = "u0026".toList
    then '&' :: replaceU0026Aux fuel (rest.drop 5)
    else c :: replaceU0026Aux fuel rest

def replaceU0026 (s : Str) : Str := replaceU0026Aux s.length s

/-- `html.unescape` (src/subtitle_extractor.py line 270) restricted to the
entity forms that can occur in the adapter's URLs: the ampersand escape
`&amp;` (and its semicolon-less variant `&amp`, which Python also accepts)
maps to `&`; every other character is copied verbatim.  A single
left-to-right pass that does not rescan replacements, as in CPython. -/
def htmlUnescapeAux : Nat → Str → Str
  | 0, s => s
  | _ + 1, [] => []
  | fuel + 1, c :: rest =>
    if c = '&' ∧ rest.take 4 = "amp;".toList
    then '&' :: htmlUnescapeAux fuel (rest.drop 4)
    else if c = '&' ∧ rest.take 3 = "amp".toList
    then '&' :: htmlUnescapeAux fuel (rest.drop 3)
    else c :: htmlUnescapeAux fuel rest

def htmlUnescape (s : Str) : Str := htmlUnescapeAux s.length s

/-- The `urlparse`/`urlunparse` pair of `_ensure_json3_url`
(src/subtitle_extractor.py lines 271 and 275) restricted to URLs without
`#` or `;`: `urlparse` splits at the first `?` into the
scheme/netloc/path prefix and the query (empty fragment and params), and
`urlunparse` re-concatenates the same prefix with the rewritten query. -/
def splitQuery : Str → Str × Str
  | [] => ([], [])
  | c :: rest =>
    if c = '?' then ([], rest)
    else ((c :: (splitQuery rest).1), (splitQuery rest).2)

/-- Python `query_string.split("&")`, the field splitter of `parse_qsl`. -/
def splitAmp : Str → List Str
  | [] => [[]]
  | c :: rest =>
    if c = '&' then [] :: splitAmp rest
    else
      match splitAmp rest with
      | [] => [[c]]
      | l :: ls => (c :: l) :: ls

/-- Python `"&".join(parts)`, used by `urlencode`. -/
def joinAmp : List Str → Str
  | [] => []
  | [l] => l
  | l :: rest => l ++ '&' :: joinAmp rest

/-- Split a query field at its first `=` (Python `name_value.split("=", 1)`
inside `parse_qsl`); `none` when the field contains no `=`. -/
def splitFirstEq : Str → Option (Str × Str)
  | [] => none
  | c :: rest =>
    if c = '=' then some ([], rest)
    else
      match splitFirstEq rest with
      | none => none
      | some p => some (c :: p.1, p.2)

/-- `urllib.parse.parse_qsl` with its defaults
(`keep_blank_values=False`, `strict_parsing=False`): split the query on
`&`, skip fields without `=` (including empty fields) and fields whose
value is blank, and keep the remaining name/value pairs in order
(`unquote_plus` is the identity on the URL class modelled here). -/
def parse_qsl_model (qs : Str) : List (Str × Str) :=
  (splitAmp qs).filterMap (fun field =>
    match splitFirstEq field with
    | none => none
    | some p => if p.2 = [] then none else some p)

/-- Insertion step of `parse_qs`'s dict building: append the value to an
existing key's list, else append a new single-value entry at the end
(Python dicts preserve insertion order). -/
def qsInsert (k : Str) (v : Str) : List (Str × List Str) → List (Str × List Str)
  | [] => [(k, [v])]
  | (k0, vs) :: rest =>
    if k0 = k then (k0, vs ++ [v]) :: rest else (k0, vs) :: qsInsert k v rest

/-- `urllib.parse.parse_qs` (src/subtitle_extractor.py line 272): group
the `parse_qsl` pairs into an insertion-ordered dict of value lists. -/
def parse_qs_model (qs : Str) : List (Str × List Str) :=
  (parse_qsl_model qs).foldl (fun d kv => qsInsert kv.1 kv.2 d) []

/-- Python dict assignment `query["fmt"] = ["json3"]`
(src/subtitle_extractor.py line 273): replace the value in place when the
key exists, else append the entry at the end. -/
def dictSet (k : Str) (v : List Str) : List (Str × List Str) → List (Str × List Str)
  | [] => [(k, v)]
  | (k0, vs) :: rest =>
    if k0 = k then (k0, v) :: rest else (k0, vs) :: dictSet k v rest

/-- `urllib.parse.urlencode(query, doseq=True)`
(src/subtitle_extractor.py line 274): one `key=value` field per list
element, in dict order, joined with `&` (`quote_plus` is the identity on
the URL class modelled here). -/
def urlencode_model (d : List (Str × List Str)) : Str :=
  joinAmp (d.flatMap (fun kv => kv.2.map (fun v => kv.1 ++ '=' :: v)))

/-- `YoutubeSubtitleAdapter._ensure_json3_url`
(src/subtitle_extractor.py lines 269-275): unescape, parse the query,
force `fmt=json3`, re-encode, reassemble. -/
def ensure_json3_url (base_url : Str) : Str :=
  let unescaped := htmlUnescape (replaceU0026 base_url)
  let hq := splitQuery unescaped
  let query := dictSet "fmt".toList ["json3".toList] (parse_qs_model hq.2)
  hq.1 ++ '?' :: urlencode_model query

/-- The query string encoding a list of name/value pairs, used to state
the amended C8 theorem. -/
def qstr (ps : List (Str × Str)) : Str :=
  joinAmp (ps.map (fun p => p.1 ++ '=' :: p.2))

theorem digit_ne_char {c d : Char} (h : c.isDigit = true) (hd : d.isDigit = false) :
    ¬ c = d := by
  intro e
  subst e
  rw [h] at hd
  exact Bool.noConfusion hd

theorem replaceU0026Aux_id : ∀ (fuel : Nat) (s : Str), (∀ c ∈ s, ¬ c = '\\') →
    replaceU0026Aux fuel s = s := by
  intro fuel
  induction fuel with
  | zero => intro s _; rfl
  | succ n ih =>
    intro s h
    cases s with
    | nil => rfl
    | cons c rest =>
      rw [replaceU0026Aux, if_neg (fun hc => h c (List.mem_cons_self _ _) hc.1),
        ih rest (fun d hd => h d (List.mem_cons_of_mem _ hd))]

/-- Strings on which the restricted `html.unescape` is the identity: every
ampersand is immediately followed by a decimal digit. -/
inductive AmpSafe : Str → Prop
  | nil : AmpSafe []
  | cons (c : Char) (s : Str) (h : ¬ c = '&') (hs : AmpSafe s) : AmpSafe (c :: s)
  | amp (c : Char) (s : Str) (h : c.isDigit = true) (hs : AmpSafe (c :: s)) :
      AmpSafe ('&' :: c :: s)

theorem htmlUnescapeAux_id {s : Str} (hs : AmpSafe s) : ∀ fuel : Nat,
    htmlUnescapeAux fuel s = s := by
  induction hs with
  | nil => intro fuel; cases fuel <;> rfl
  | cons c s h _ ih =>
    intro fuel
    cases fuel with
    | zero => rfl
    | succ n =>
      rw [htmlUnescapeAux, if_neg (fun hc => h hc.1), if_neg (fun hc => h hc.1), ih n]
  | amp c s h _ ih =>
    intro fuel
    cases fuel with
    | zero => rfl
    | succ n =>
      have h4 : ¬ (c :: s).take 4 = "amp;".toList := by
        intro he
        rw [show (4 : ℕ) = 3 + 1 from rfl, List.take_succ_cons,
          show "amp;".toList = 'a' :: "mp;".toList from rfl] at he
        exact digit_ne_char h (by decide) ((List.cons.injEq _ _ _ _).mp he).1
      have h3 : ¬ (c :: s).take 3 = "amp".toList := by
        intro he
        rw [show (3 : ℕ) = 2 + 1 from rfl, List.take_succ_cons,
          show "amp".toList = 'a' :: "mp".toList from rfl] at he
        exact digit_ne_char h (by decide) ((List.cons.injEq _ _ _ _).mp he).1
      rw [htmlUnescapeAux, if_neg (fun hc => h4 hc.2), if_neg (fun hc => h3 hc.2), ih n]

theorem ampSafe_of_noAmp : ∀ {a : Str}, (∀ c ∈ a, ¬ c = '&') → AmpSafe a := by
  intro a
  induction a with
  | nil => intro _; exact AmpSafe.nil
  | cons c s ih =>
    intro h
    exact AmpSafe.cons c s (h c (List.mem_cons_self _ _))
      (ih (fun d hd => h d (List.mem_cons_of_mem _ hd)))

theorem ampSafe_append : ∀ {a : Str}, (∀ c ∈ a, ¬ c = '&') → ∀ {b : Str}, AmpSafe b →
    AmpSafe (a ++ b) := by
  intro a
  induction a with
  | nil => intro _ b hb; exact hb
  | cons c s ih =>
    intro h b hb
    exact AmpSafe.cons c (s ++ b) (h c (List.mem_cons_self _ _))
      (ih (fun d hd => h d (List.mem_cons_of_mem _ hd)) hb)

theorem qstr_cons_cons (p q : Str × Str) (ps : List (Str × Str)) :
    qstr (p :: q :: ps) = (p.1 ++ '=' :: p.2) ++ '&' :: qstr (q :: ps) := rfl

theorem qstr_singleton (p : Str × Str) : qstr [p] = p.1 ++ '=' :: p.2 := rfl

theorem field_chars {k v : Str} (hk : ∀ c ∈ k, c.isDigit = true)
    (hv : ∀ c ∈ v, c.isDigit = true) :
    ∀ c ∈ k ++ '=' :: v, c.isDigit = true ∨ c = '=' := by
  intro c hc
  rcases List.mem_append.mp hc with h | h
  · exact Or.inl (hk c h)
  · rcases List.mem_cons.mp h with rfl | h
    · exact Or.inr rfl
    · exact Or.inl (hv c h)

theorem qstr_chars : ∀ {ps : List (Str × Str)},
    (∀ p ∈ ps, ∀ c ∈ p.1, c.isDigit = true) → (∀ p ∈ ps, ∀ c ∈ p.2, c.isDigit = true) →
    ∀ c ∈ qstr ps, c.isDigit = true ∨ c = '=' ∨ c = '&' := by
  intro ps
  induction ps with
  | nil => intro _ _ c hc; exact absurd hc (List.not_mem_nil c)
  | cons p rest ih =>
    intro hk hv c hc
    have hf := field_chars (hk p (List.mem_cons_self _ _)) (hv p (List.mem_cons_self _ _))
    cases rest with
    | nil =>
      rw [qstr_singleton] at hc
      rcases hf c hc with h | h
      · exact Or.inl h
      · exact Or.inr (Or.inl h)
    | cons q rest' =>
      rw [qstr_cons_cons] at hc
      rcases List.mem_append.mp hc with h | h
      · rcases hf c h with h1 | h1
        · exact Or.inl h1
        · exact Or.inr (Or.inl h1)
      · rcases List.mem_cons.mp h with rfl | h
        · exact Or.inr (Or.inr rfl)
        · exact ih (fun x hx => hk x (List.mem_cons_of_mem _ hx))
            (fun x hx => hv x (List.mem_cons_of_mem _ hx)) c h

theorem noAmp_of_field {k v : Str} (hk : ∀ c ∈ k, c.isDigit = true)
    (hv : ∀ c ∈ v, c.isDigit = true) : ∀ c ∈ k ++ '=' :: v, ¬ c = '&' := by
  intro c hc
  rcases field_chars hk hv c hc with h | h
  · exact digit_ne_char h (by decide)
  · subst h; decide

theorem ampSafe_qstr : ∀ {ps : List (Str × Str)},
    (∀ p ∈ ps, p.1 ≠ [] ∧ ∀ c ∈ p.1, c.isDigit = true) →
    (∀ p ∈ ps, ∀ c ∈ p.2, c.isDigit = true) → AmpSafe (qstr ps) := by
  intro ps
  induction ps with
  | nil => intro _ _; exact AmpSafe.nil
  | cons p rest ih =>
    intro hk hv
    have hk1 := (hk p (List.mem_cons_self _ _)).2
    have hv1 := hv p (List.mem_cons_self _ _)
    cases rest with
    | nil =>
      rw [qstr_singleton]
      exact ampSafe_of_noAmp (noAmp_of_field hk1 hv1)
    | cons q rest' =>
      rw [qstr_cons_cons]
      have htail : AmpSafe (qstr (q :: rest')) :=
        ih (fun x hx => hk x (List.mem_cons_of_mem _ hx))
          (fun x hx => hv x (List.mem_cons_of_mem _ hx))
      have hq1 := hk q (List.mem_cons_of_mem _ (List.mem_cons_self _ _))
      have hamp : AmpSafe ('&' :: qstr (q :: rest')) := by
        obtain ⟨c, k', hq⟩ : ∃ c k', q.1 = c :: k' := by
          cases hqq : q.1 with
          | nil => exact absurd hqq hq1.1
          | cons c k' => exact ⟨c, k', rfl⟩
        have hcdig : c.isDigit = true := hq1.2 c (by rw [hq]; exact List.mem_cons_self _ _)
        cases rest' with
        | nil =>
          have e : qstr [q] = c :: (k' ++ '=' :: q.2) := by
            rw [qstr_singleton, hq]
            simp
          rw [e] at htail
          rw [e]
          exact AmpSafe.amp c _ hcdig htail
        | cons r rs =>
          have e : qstr (q :: r :: rs)
              = c :: ((k' ++ '=' :: q.2) ++ '&' :: qstr (r :: rs)) := by
            rw [qstr_cons_cons, hq]
            simp
          rw [e] at htail
          rw [e]
          exact AmpSafe.amp c _ hcdig htail
      exact ampSafe_append (noAmp_of_field hk1 hv1) hamp

theorem splitQuery_append {head : Str} (h : ∀ c ∈ head, ¬ c = '?') (q : Str) :
    splitQuery (head ++ '?' :: q) = (head, q) := by
  induction head with
  | nil => simp [splitQuery]
  | cons c rest ih =>
    rw [List.cons_append, splitQuery, if_neg (h c (List.mem_cons_self _ _)),
      ih (fun d hd => h d (List.mem_cons_of_mem _ hd))]

theorem splitAmp_amp (rest : Str) : splitAmp ('&' :: rest) = [] :: splitAmp rest := by
  simp [splitAmp]

theorem splitAmp_ne_nil (s : Str) : splitAmp s ≠ [] := by
  cases s with
  | nil => simp [splitAmp]
  | cons c rest =>
    by_cases h : c = '&'
    · simp [splitAmp, h]
    · cases hs : splitAmp rest <;> simp [splitAmp, h, hs]

theorem splitAmp_cons_ne {c : Char} (h : ¬ c = '&') {rest : Str} {l : Str} {ls : List Str}
    (hs : splitAmp rest = l :: ls) : splitAmp (c :: rest) = (c :: l) :: ls := by
  simp [splitAmp, h, hs]

theorem splitAmp_no_amp {l : Str} (h : ∀ c ∈ l, ¬ c = '&') : splitAmp l = [l] := by
  induction l with
  | nil => rfl
  | cons c l' ih =>
    exact splitAmp_cons_ne (h c (List.mem_cons_self _ _))
      (ih (fun d hd => h d (List.mem_cons_of_mem _ hd)))

theorem splitAmp_append_amp {l : Str} (h : ∀ c ∈ l, ¬ c = '&') (t : Str) :
    splitAmp (l ++ '&' :: t) = l :: splitAmp t := by
  induction l with
  | nil => exact splitAmp_amp t
  | cons c l' ih =>
    rw [List.cons_append]
    exact splitAmp_cons_ne (h c (List.mem_cons_self _ _))
      (ih (fun d hd => h d (List.mem_cons_of_mem _ hd)))

theorem splitAmp_qstr : ∀ {ps : List (Str × Str)}, ps ≠ [] →
    (∀ p ∈ ps, ∀ c ∈ p.1, c.isDigit = true) → (∀ p ∈ ps, ∀ c ∈ p.2, c.isDigit = true) →
    splitAmp (qstr ps) = ps.map (fun p => p.1 ++ '=' :: p.2) := by
  intro ps
  induction ps with
  | nil => intro h; exact absurd rfl h
  | cons p rest ih =>
    intro _ hk hv
    have hf := noAmp_of_field (hk p (List.mem_cons_self _ _)) (hv p (List.mem_cons_self _ _))
    cases rest with
    | nil => rw [qstr_singleton, splitAmp_no_amp hf]; rfl
    | cons q rest' =>
      rw [qstr_cons_cons, splitAmp_append_amp hf,
        ih (by simp) (fun x hx => hk x (List.mem_cons_of_mem _ hx))
          (fun x hx => hv x (List.mem_cons_of_mem _ hx))]
      rfl

theorem splitFirstEq_build {k : Str} (hk : ∀ c ∈ k, ¬ c = '=') (v : Str) :
    splitFirstEq (k ++ '=' :: v) = some (k, v) := by
  induction k with
  | nil => simp [splitFirstEq]
  | cons c k' ih =>
    rw [List.cons_append, splitFirstEq, if_neg (hk c (List.mem_cons_self _ _)),
      ih (fun d hd => hk d (List.mem_cons_of_mem _ hd))]

theorem parse_qsl_qstr {ps : List (Str × Str)} (hne : ps ≠ [])
    (hk : ∀ p ∈ ps, ∀ c ∈ p.1, c.isDigit = true)
    (hv : ∀ p ∈ ps, p.2 ≠ [] ∧ ∀ c ∈ p.2, c.isDigit = true) :
    parse_qsl_model (qstr ps) = ps := by
  unfold parse_qsl_model
  rw [splitAmp_qstr hne hk (fun p hp => (hv p hp).2)]
  induction ps with
  | nil => rfl
  | cons p rest ih =>
    rw [List.map_cons, List.filterMap_cons]
    have hkeq : ∀ c ∈ p.1, ¬ c = '=' :=
      fun c hc => digit_ne_char (hk p (List.mem_cons_self _ _) c hc) (by decide)
    rw [splitFirstEq_build hkeq]
    simp only [if_neg (hv p (List.mem_cons_self _ _)).1]
    by_cases hr : rest = []
    · subst hr; rfl
    · rw [ih hr (fun x hx => hk x (List.mem_cons_of_mem _ hx))
        (fun x hx => hv x (List.mem_cons_of_mem _ hx))]

theorem qsInsert_not_mem {k : Str} (v : Str) : ∀ {acc : List (Str × List Str)},
    k ∉ acc.map Prod.fst → qsInsert k v acc = acc ++ [(k, [v])] := by
  intro acc
  induction acc with
  | nil => intro _; rfl
  | cons e rest ih =>
    intro h
    obtain ⟨k0, vs⟩ := e
    have h1 : ¬ k0 = k := by
      intro he
      exact h (by rw [List.map_cons, he]; exact List.mem_cons_self _ _)
    rw [qsInsert, if_neg h1, ih (fun hm => h (List.mem_cons_of_mem _ hm))]
    rfl

theorem parse_qs_fold : ∀ (ps : List (Str × Str)) (acc : List (Str × List Str)),
    (acc.map Prod.fst ++ ps.map Prod.fst).Nodup →
    ps.foldl (fun d kv => qsInsert kv.1 kv.2 d) acc
      = acc ++ ps.map (fun p => (p.1, [p.2])) := by
  intro ps
  induction ps with
  | nil => intro acc _; simp
  | cons p rest ih =>
    intro acc hnd
    have hnotin : p.1 ∉ acc.map Prod.fst := by
      intro hm
      rw [List.map_cons] at hnd
      exact (List.disjoint_of_nodup_append hnd) hm (List.mem_cons_self _ _)
    rw [List.foldl_cons, qsInsert_not_mem _ hnotin,
      ih (acc ++ [(p.1, [p.2])]) (by
        rw [List.map_cons] at hnd
        rw [List.map_append, List.append_assoc]
        simpa using hnd)]
    simp

theorem parse_qs_qstr {ps : List (Str × Str)}
    (hnd : (ps.map Prod.fst).Nodup)
    (hk : ∀ p ∈ ps, ∀ c ∈ p.1, c.isDigit = true)
    (hv : ∀ p ∈ ps, p.2 ≠ [] ∧ ∀ c ∈ p.2, c.isDigit = true) :
    parse_qs_model (qstr ps) = ps.map (fun p => (p.1, [p.2])) := by
  by_cases hne : ps = []
  · subst hne; rfl
  · unfold parse_qs_model
    rw [parse_qsl_qstr hne hk hv, parse_qs_fold ps [] (by simpa using hnd)]
    rfl

theorem dictSet_not_mem {k : Str} (v : List Str) : ∀ {d : List (Str × List Str)},
    k ∉ d.map Prod.fst → dictSet k v d = d ++ [(k, v)] := by
  intro d
  induction d with
  | nil => intro _; rfl
  | cons e rest ih =>
    intro h
    obtain ⟨k0, vs⟩ := e
    have h1 : ¬ k0 = k := by
      intro he
      exact h (by rw [List.map_cons, he]; exact List.mem_cons_self _ _)
    rw [dictSet, if_neg h1, ih (fun hm => h (List.mem_cons_of_mem _ hm))]
    rfl

theorem bind_singleton_fields (ps : List (Str × Str)) :
    (ps.map (fun p => (p.1, [p.2]))).flatMap
        (fun kv => kv.2.map (fun v => kv.1 ++ '=' :: v))
      = ps.map (fun p => p.1 ++ '=' :: p.2) := by
  induction ps with
  | nil => rfl
  | cons p rest ih => simp only [List.map_cons, List.flatMap_cons, ih]; rfl

theorem urlencode_append_fmt (ps : List (Str × Str)) :
    urlencode_model (ps.map (fun p => (p.1, [p.2])) ++ [("fmt".toList, ["json3".toList])])
      = qstr (ps ++ [("fmt".toList, "json3".toList)]) := by
  unfold urlencode_model qstr
  rw [List.flatMap_append, bind_singleton_fields, List.map_append]
  rfl

/-- C8 counterexample: `parse_qs` is called with its default
`keep_blank_values=False` (src/subtitle_extractor.py line 272), so a query
parameter with a blank value is silently dropped from the rewritten URL —
the claim that all other existing query parameters and their values are
preserved fails.  Here the parameter `3=` of the input survives neither as
a key nor as a value. -/
theorem C8_counterexample_blank_param :
    ensure_json3_url "https://s/p?1=2&3=&fmt=srv3".toList
        = "https://s/p?1=2&fmt=json3".toList
      ∧ hasSub "https://s/p?1=2&3=&fmt=srv3".toList "3=".toList = true
      ∧ hasSub (ensure_json3_url "https://s/p?1=2&3=&fmt=srv3".toList) "3=".toList
        = false := by
  refine ⟨?_, ?_, ?_⟩ <;> decide

/-- C8 (amended): on URLs whose prefix holds no `?`, `&` or backslash and
whose query is a sequence of distinct nonempty digit-only parameters with
nonempty digit-only values, `_ensure_json3_url` preserves every parameter
with its value and appends `fmt=json3`; when a `fmt` parameter already
exists it is overridden in place, and both the literal `&` sequence
and the `&amp;` HTML entity are unescaped into parameter separators. -/
theorem C8_ensure_json3 (head : Str) (ps : List (Str × Str))
    (hhead : ∀ c ∈ head, ¬ c = '?' ∧ ¬ c = '&' ∧ ¬ c = '\\')
    (hnd : (ps.map Prod.fst).Nodup)
    (hk : ∀ p ∈ ps, p.1 ≠ [] ∧ ∀ c ∈ p.1, c.isDigit = true)
    (hv : ∀ p ∈ ps, p.2 ≠ [] ∧ ∀ c ∈ p.2, c.isDigit = true) :
    (ensure_json3_url (head ++ '?' :: qstr ps)
        = head ++ '?' :: qstr (ps ++ [("fmt".toList, "json3".toList)]))
      ∧ ensure_json3_url "https://s/p?7=8&fmt=srv3&9=10".toList
        = "https://s/p?7=8&fmt=json3&9=10".toList
      ∧ ensure_json3_url "https://s/p?1=2\\u00263=4&amp;5=6".toList
        = "https://s/p?1=2&3=4&5=6&fmt=json3".toList := by
  refine ⟨?_, by decide, by decide⟩
  have hkd : ∀ p ∈ ps, ∀ c ∈ p.1, c.isDigit = true := fun p hp => (hk p hp).2
  have hvd : ∀ p ∈ ps, ∀ c ∈ p.2, c.isDigit = true := fun p hp => (hv p hp).2
  have hchars := qstr_chars hkd hvd
  have hnb : ∀ c ∈ head ++ '?' :: qstr ps, ¬ c = '\\' := by
    intro c hc
    rcases List.mem_append.mp hc with h | h
    · exact (hhead c h).2.2
    · rcases List.mem_cons.mp h with rfl | h
      · decide
      · rcases hchars c h with hd | rfl | rfl
        · exact digit_ne_char hd (by decide)
        · decide
        · decide
  have h1 : replaceU0026 (head ++ '?' :: qstr ps) = head ++ '?' :: qstr ps :=
    replaceU0026Aux_id _ _ hnb
  have hsafe : AmpSafe (head ++ '?' :: qstr ps) :=
    ampSafe_append (fun c hc => (hhead c hc).2.1)
      (AmpSafe.cons '?' _ (by decide) (ampSafe_qstr hk hvd))
  have h2 : htmlUnescape (head ++ '?' :: qstr ps) = head ++ '?' :: qstr ps :=
    htmlUnescapeAux_id hsafe _
  have h3 : splitQuery (head ++ '?' :: qstr ps) = (head, qstr ps) :=
    splitQuery_append (fun c hc => (hhead c hc).1) _
  have hfmt : "fmt".toList ∉ (ps.map (fun p => (p.1, [p.2]))).map Prod.fst := by
    intro hm
    rw [List.map_map] at hm
    obtain ⟨p, hp, he⟩ := List.mem_map.mp hm
    have : ('f' : Char).isDigit = true := by
      have := hkd p hp 'f' (by rw [show (Prod.fst ∘ fun p : Str × Str => (p.1, [p.2])) p
          = p.1 from rfl] at he; rw [he]; decide)
      exact this
    exact absurd this (by decide)
  show (splitQuery (htmlUnescape (replaceU0026 (head ++ '?' :: qstr ps)))).1
      ++ '?' :: urlencode_model (dictSet "fmt".toList ["json3".toList]
        (parse_qs_model (splitQuery (htmlUnescape
          (replaceU0026 (head ++ '?' :: qstr ps)))).2)) = _
  rw [h1, h2, h3]
  show head ++ '?' :: urlencode_model (dictSet "fmt".toList ["json3".toList]
    (parse_qs_model (qstr ps))) = _
  rw [parse_qs_qstr hnd hkd hv, dictSet_not_mem _ hfmt, urlencode_append_fmt]

/-- Witness for the amended C8 theorem at the prefix `https://s/p` and the
single query parameter `1=2`. -/
theorem C8_ensure_json3_witness :
    ((∀ c ∈ "https://s/p".toList, ¬ c = '?' ∧ ¬ c = '&' ∧ ¬ c = '\\')
      ∧ (([(['1'], ['2'])] : List (Str × Str)).map Prod.fst).Nodup
      ∧ (∀ p ∈ ([(['1'], ['2'])] : List (Str × Str)),
          p.1 ≠ [] ∧ ∀ c ∈ p.1, c.isDigit = true)
      ∧ (∀ p ∈ ([(['1'], ['2'])] : List (Str × Str)),
          p.2 ≠ [] ∧ ∀ c ∈ p.2, c.isDigit = true))
    ∧ ensure_json3_url ("https://s/p".toList ++ '?' :: qstr [(['1'], ['2'])])
      = "https://s/p".toList
        ++ '?' :: qstr ([(['1'], ['2'])] ++ [("fmt".toList, "json3".toList)]) :=
  ⟨⟨by decide, by decide, by decide, by decide⟩,
    (C8_ensure_json3 "https://s/p".toList [(['1'], ['2'])]
      (by decide) (by decide) (by decide) (by decide)).1⟩

/-! C5: exception behaviour of `BilibiliSubtitleAdapter.fetch_subtitle_bundle`
(src/subtitle_extractor.py lines 41-97) and the `BilibiliAPI` calls it
makes (src/bilibili_api.py).  JSON values are embedded as `PyVal`;
Python-level exceptions are the `Except PyErr` error channel; the HTTP
layer (`requests.get` plus the `.json()` decode inside the `_request`
helpers, which catch their own exceptions) is an oracle giving each
request either a decoded JSON document or `none` for a caught transport
error. -/

namespace PyB

/-- The exception classes the modelled code can raise. -/
inductive PyErr where
  | attributeError
  | typeError
  | valueError
  | indexError
  | keyError
deriving DecidableEq

/-- A decoded JSON document / Python value. -/
inductive PyVal where
  | vNone
  | vBool (b : Bool)
  | vInt (n : ℤ)
  | vStr (s : Str)
  | vList (xs : List PyVal)
  | vDict (entries : List (Str × PyVal))

/-- Python truthiness (`if x:`): `None` and `False` are falsy, numbers are
truthy unless zero, containers unless empty. -/
def truthy : PyVal → Bool
  | .vNone => false
  | .vBool b => b
  | .vInt n => !(n == 0)
  | .vStr s => !s.isEmpty
  | .vList xs => !xs.isEmpty
  | .vDict es => !es.isEmpty

/-- First-match association lookup (Python dict keys are unique, so this
is dict access). -/
def dictLookup : List (Str × PyVal) → Str → Option PyVal
  | [], _ => none
  | (k0, v) :: rest, k => if k0 = k then some v else dictLookup rest k

/-- Python `x.get(key, default)`: only dicts have `.get`; on any other
value the attribute lookup raises `AttributeError`. -/
def pyGet (v : PyVal) (k : Str) (dflt : PyVal) : Except PyErr PyVal :=
  match v with
  | .vDict es => .ok ((dictLookup es k).getD dflt)
  | _ => .error .attributeError

/-- Python `x == 0` for a JSON value: integer zero and `False` compare
equal to `0`; everything else does not. -/
def pyEqZero : PyVal → Bool
  | .vInt n => n == 0
  | .vBool b => !b
  | _ => false

/-- Python `x[0]`: head of a list or string, `IndexError` when empty,
`KeyError` for a dict (integer key absent), `TypeError` otherwise. -/
def pyIndex0 : PyVal → Except PyErr PyVal
  | .vList (x :: _) => .ok x
  | .vList [] => .error .indexError
  | .vStr (c :: _) => .ok (.vStr [c])
  | .vStr [] => .error .indexError
  | .vDict _ => .error .keyError
  | _ => .error .typeError

/-- ASCII lower-casing of one character. -/
def charLower (c : Char) : Char :=
  if 'A' ≤ c ∧ c ≤ 'Z' then Char.ofNat (c.toNat + 32) else c

/-- Python `x.lower()`: strings only; any other value raises
`AttributeError`. -/
def pyLower : PyVal → Except PyErr Str
  | .vStr s => .ok (s.map charLower)
  | _ => .error .attributeError

/-- Numeric value of a digit string. -/
def digitsVal (s : Str) : ℕ :=
  s.foldl (fun acc c => acc * 10 + (c.toNat - 48)) 0

/-- Python `int(s)` restricted to the unsigned decimal literals the
adapter can produce: defined on nonempty all-digit strings, `ValueError`
(`none`) otherwise. -/
def strToInt (s : Str) : Option ℤ :=
  if s ≠ [] ∧ s.all Char.isDigit then some (digitsVal s : ℤ) else none

/-- Tag-removal pass of `clean_text` (src/utils.py line 208):
`re.sub(r'<[^>]+>', '', text)` — at each `<`, a nonempty run of
non-`>` characters followed by `>` is deleted; otherwise the character is
kept. -/
def removeTagsAux : Nat → Str → Str
  | 0, s => s
  | _ + 1, [] => []
  | fuel + 1, c :: rest =>
    if c = '<' then
      if (rest.takeWhile (fun d => !(d == '>'))) ≠ [] ∧
          (rest.dropWhile (fun d => !(d == '>'))) ≠ []
      then removeTagsAux fuel ((rest.dropWhile (fun d => !(d == '>'))).drop 1)
      else c :: removeTagsAux fuel rest
    else c :: removeTagsAux fuel rest

def removeTags (s : Str) : Str := removeTagsAux s.length s

/-- Whitespace-collapsing pass of `clean_text` (src/utils.py line 210):
`re.sub(r'\s+', ' ', text)` — every maximal whitespace run becomes one
space. -/
def collapseWsAux : Nat → Str → Str
  | 0, s => s
  | _ + 1, [] => []
  | fuel + 1, c :: rest =>
    if pyIsSpace c then ' ' :: collapseWsAux fuel (rest.dropWhile pyIsSpace)
    else c :: collapseWsAux fuel rest

def collapseWs (s : Str) : Str := collapseWsAux s.length s

/-- `utils.clean_text` (src/utils.py lines 203-211) applied to a JSON
value: falsy input yields the empty string before any regex runs; a
truthy non-string reaches `re.sub`, which raises `TypeError`. -/
def clean_text (v : PyVal) : Except PyErr Str :=
  if truthy v then
    match v with
    | .vStr s => .ok (stripChars (collapseWs (removeTags s)))
    | _ => .error .typeError
  else .ok []

/-- The fields `VideoInfo.__init__` (src/bilibili_api.py lines 257-267)
computes, in source order. -/
structure VideoInfo where
  aid : PyVal
  bvid : PyVal
  title : Str
  description : Str
  duration : PyVal
  owner : PyVal
  pic : PyVal
  pubdate : PyVal
  copyrightv : PyVal
  pages : PyVal

/-- `VideoInfo(video_data)` (src/bilibili_api.py lines 257-267): each
field access in constructor order, propagating the first exception. -/
def mkVideoInfo (video_data : PyVal) : Except PyErr VideoInfo := do
  let aid ← pyGet video_data "aid".toList .vNone
  let bvid ← pyGet video_data "bvid".toList .vNone
  let t0 ← pyGet video_data "title".toList (.vStr [])
  let title ← clean_text t0
  let d0 ← pyGet video_data "desc".toList (.vStr [])
  let description ← clean_text d0
  let duration ← pyGet video_data "duration".toList (.vInt 0)
  let o0 ← pyGet video_data "owner".toList (.vDict [])
  let owner ← pyGet o0 "name".toList (.vStr [])
  let pic ← pyGet video_data "pic".toList (.vStr [])
  let pubdate ← pyGet video_data "pubdate".toList (.vInt 0)
  let cpy ← pyGet video_data "copyright".toList (.vInt 1)
  let pages ← pyGet video_data "pages".toList (.vList [])
  return ⟨aid, bvid, title, description, duration, owner, pic, pubdate, cpy, pages⟩

/-- The HTTP layer: `_request` (keyed by URL), `_request_with_headers`
(keyed by URL and cleaned params) and the raw `requests.get` of
`get_subtitle_content` (keyed by URL and the index of the header
strategy).  `none` is a transport/decode failure that the Python helper
catches itself; `some v` is a decoded JSON document. -/
structure HttpOracle where
  view : Str → Option PyVal
  player : Str → List (Str × PyVal) → Option PyVal
  content : Str → Nat → Option PyVal

/-- `BilibiliAPI.get_video_info` (src/bilibili_api.py lines 57-69):
build the view URL from the id, ask the oracle, demand `code == 0`, and
return the `data` member (the function returns `None` — `vNone` — on a
missing response, a non-dict falsy response, or a non-zero code; a truthy
non-dict response raises at `data.get("code")`). -/
def view_url (video_id : Str) : Str :=
  if "BV".toList.isPrefixOf video_id
  then "https://api.bilibili.com/x/web-interface/view?bvid=".toList ++ video_id
  else "https://api.bilibili.com/x/web-interface/view?aid=".toList ++ video_id.drop 2

def get_video_info (o : HttpOracle) (video_id : Str) : Except PyErr PyVal :=
  match o.view (view_url video_id) with
  | none => .ok .vNone
  | some data =>
    if truthy data then
      match pyGet data "code".toList .vNone with
      | .error e => .error e
      | .ok code =>
        if pyEqZero code then pyGet data "data".toList .vNone
        else
          match pyGet data "message".toList (.vStr "未知错误".toList) with
          | .error e => .error e
          | .ok _ => .ok .vNone
    else .ok .vNone

/-- The relative-URL normalisation at the top of
`BilibiliAPI.get_subtitle_content` (src/bilibili_api.py lines 115-118). -/
def content_url (u : Str) : Str :=
  if "//".toList.isPrefixOf u then "https:".toList ++ u
  else if "/".toList.isPrefixOf u then "https://aisubtitle.hdslb.com".toList ++ u
  else u

/-- `BilibiliAPI.get_subtitle_content` (src/bilibili_api.py lines
107-160): normalise relative URLs (`x.startswith` raises on a non-string
argument), then try the three header strategies in order, returning the
first decoded document; every per-strategy exception is caught and the
function returns `None` when all fail. -/
def get_subtitle_content (o : HttpOracle) (subtitle_url : PyVal) :
    Except PyErr PyVal :=
  match subtitle_url with
  | .vStr u =>
    match o.content (content_url u) 0 with
    | some v => .ok v
    | none =>
      match o.content (content_url u) 1 with
      | some v => .ok v
      | none =>
        match o.content (content_url u) 2 with
        | some v => .ok v
        | none => .ok .vNone
  | _ => .error .attributeError

end PyB

namespace PyB

/-- The list comprehension
`[s for s in subtitles if s.get("subtitle_url")]`
(src/bilibili_api.py line 102) over a decoded list: each element's
`.get` may raise; otherwise keep the elements with a truthy URL. -/
def availableOf : List PyVal → Except PyErr (List PyVal)
  | [] => .ok []
  | s :: rest => do
    let u ← pyGet s "subtitle_url".toList .vNone
    let tail ← availableOf rest
    if truthy u then return (s :: tail) else return tail

/-- The same comprehension applied to an arbitrary `subtitles` value:
iterating a string or dict yields strings (whose `.get` raises) unless
empty, and iterating a scalar raises `TypeError`. -/
def filterAvailable : PyVal → Except PyErr (List PyVal)
  | .vList xs => availableOf xs
  | .vStr [] => .ok []
  | .vDict [] => .ok []
  | .vStr (_ :: _) => .error .attributeError
  | .vDict (_ :: _) => .error .attributeError
  | _ => .error .typeError

/-- Python `x is None`. -/
def isVNone : PyVal → Bool
  | .vNone => true
  | _ => false

/-- The dict comprehension dropping `None`-valued params
(src/bilibili_api.py line 92). -/
def clean_params (ps : List (Str × PyVal)) : List (Str × PyVal) :=
  ps.filter (fun kv => !(isVNone kv.2))

/-- The candidate loop of `BilibiliAPI.get_subtitle_list`
(src/bilibili_api.py lines 91-106): drop `None`-valued params, skip the
candidate when `cid` is absent, ask the oracle, skip on a missing/falsy
response or non-zero code, unwrap `data.subtitle.subtitles` with `{}`/`[]`
defaults, and return the first non-empty filtered track list. -/
def try_subtitle_candidates (o : HttpOracle) :
    List (Str × List (Str × PyVal)) → Except PyErr PyVal
  | [] => .ok .vNone
  | (url, params) :: rest =>
    if (clean_params params).any (fun kv => decide (kv.1 = "cid".toList)) then
      match o.player url (clean_params params) with
      | none => try_subtitle_candidates o rest
      | some data =>
        if truthy data then
          match pyGet data "code".toList .vNone with
          | .error e => .error e
          | .ok code =>
            if pyEqZero code then
              match pyGet data "data".toList (.vDict []) with
              | .error e => .error e
              | .ok d =>
                match pyGet d "subtitle".toList (.vDict []) with
                | .error e => .error e
                | .ok sub =>
                  match pyGet sub "subtitles".toList (.vList []) with
                  | .error e => .error e
                  | .ok subtitles =>
                    match filterAvailable subtitles with
                    | .error e => .error e
                    | .ok avail =>
                      if avail.isEmpty then try_subtitle_candidates o rest
                      else .ok (.vList avail)
            else try_subtitle_candidates o rest
        else try_subtitle_candidates o rest
    else try_subtitle_candidates o rest

/-- `BilibiliAPI.get_subtitle_list` (src/bilibili_api.py lines 71-106):
the four endpoint/param candidates in source order. -/
def get_subtitle_list (o : HttpOracle) (aid cid bvid : PyVal) :
    Except PyErr PyVal :=
  try_subtitle_candidates o [
    ("https://api.bilibili.com/x/player/wbi/v2".toList,
      [("aid".toList, aid), ("cid".toList, cid)]),
    ("https://api.bilibili.com/x/player/wbi/v2".toList,
      [("bvid".toList, bvid), ("cid".toList, cid)]),
    ("https://api.bilibili.com/x/player/v2".toList,
      [("aid".toList, aid), ("cid".toList, cid)]),
    ("https://api.bilibili.com/x/player/v2".toList,
      [("bvid".toList, bvid), ("cid".toList, cid)])]

/-- The AI-subtitle scan of `get_ai_subtitle_data`
(src/bilibili_api.py lines 189-194): first track whose lower-cased `lan`
contains "ai"; `.get`/`.lower` may raise per element. -/
def findAi : List PyVal → Except PyErr (Option PyVal)
  | [] => .ok none
  | s :: rest => do
    let lan0 ← pyGet s "lan".toList (.vStr [])
    let lan ← pyLower lan0
    if hasSub lan "ai".toList then return (some s)
    else findAi rest

/-- The aid/bvid resolution block at the top of `get_ai_subtitle_data`
(src/bilibili_api.py lines 171-180): re-query the view API for BV ids
(propagating its exceptions and early `return None`), or `int(...)`-parse
an av/raw id (raising `ValueError` on a non-numeric literal). -/
def resolve_ids (o : HttpOracle) (video_id : Str) :
    Except PyErr (Option (PyVal × PyVal)) :=
  if "BV".toList.isPrefixOf video_id then
    match get_video_info o video_id with
    | .error e => .error e
    | .ok video_data =>
      if truthy video_data then
        match pyGet video_data "aid".toList .vNone with
        | .error e => .error e
        | .ok aid =>
          match pyGet video_data "bvid".toList .vNone with
          | .error e => .error e
          | .ok bvid0 =>
            .ok (some (aid, if truthy bvid0 then bvid0 else .vStr video_id))
      else .ok none
  else
    match (if "av".toList.isPrefixOf video_id
           then strToInt (video_id.drop 2) else strToInt video_id) with
    | some n => .ok (some (.vInt n, .vNone))
    | none => .error .valueError

/-- `BilibiliAPI.get_ai_subtitle_data` (src/bilibili_api.py lines
162-213): resolve `aid`/`bvid`, fetch the track list, prefer an AI track
(falling back to the first track, whose `lan_doc` the fallback print
reads), demand a truthy `subtitle_url`, download it, and wrap the result. -/
def get_ai_subtitle_data (o : HttpOracle) (video_id : Str) (cid : PyVal) :
    Except PyErr PyVal :=
  match resolve_ids o video_id with
  | .error e => .error e
  | .ok none => .ok .vNone
  | .ok (some av) =>
    match get_subtitle_list o av.1 cid av.2 with
    | .error e => .error e
    | .ok subsV =>
      if truthy subsV then
        match subsV with
        | .vList subs =>
          (match findAi subs with
           | .error e => .error e
           | .ok ai? =>
             (match (match ai? with
                     | some s => (.ok s : Except PyErr PyVal)
                     | none =>
                       match pyGet (subs.headD .vNone) "lan_doc".toList
                           (.vStr "未知".toList) with
                       | .error e => .error e
                       | .ok _ => .ok (subs.headD .vNone)) with
              | .error e => .error e
              | .ok ai =>
                match pyGet ai "subtitle_url".toList .vNone with
                | .error e => .error e
                | .ok su =>
                  if truthy su then
                    match get_subtitle_content o su with
                    | .error e => .error e
                    | .ok sd =>
                      if truthy sd then
                        .ok (.vDict [("subtitle_meta".toList, ai),
                          ("subtitle_data".toList, sd)])
                      else .ok .vNone
                  else .ok .vNone))
        | _ => .error .typeError
      else .ok .vNone

/-- Match `BV[a-zA-Z0-9]+` at the head of the string (greedy group). -/
def matchBVAt : Str → Option Str
  | c1 :: c2 :: rest =>
    if c1 = 'B' ∧ c2 = 'V' then
      match rest.takeWhile isAlnumAscii with
      | [] => none
      | run => some ('B' :: 'V' :: run)
    else none
  | _ => none

/-- Match `av\d+` at the head of the string (greedy group). -/
def matchAvAt : Str → Option Str
  | c1 :: c2 :: rest =>
    if c1 = 'a' ∧ c2 = 'v' then
      match rest.takeWhile Char.isDigit with
      | [] => none
      | run => some ('a' :: 'v' :: run)
    else none
  | _ => none

/-- `re.search`: try the head matcher at each position left to right. -/
def searchWith (m : Str → Option Str) : Str → Option Str
  | [] => none
  | c :: rest =>
    match m (c :: rest) with
    | some r => some r
    | none => searchWith m rest

/-- Match the full-URL pattern
`https://www\.bilibili\.com/video/(BV[a-zA-Z0-9]+)` at the head,
returning the group. -/
def matchUrlBVAt (s : Str) : Option Str :=
  if "https://www.bilibili.com/video/".toList.isPrefixOf s
  then matchBVAt (s.drop "https://www.bilibili.com/video/".toList.length)
  else none

/-- Match the full-URL pattern
`https://www\.bilibili\.com/video/(av\d+)` at the head, returning the
group. -/
def matchUrlAvAt (s : Str) : Option Str :=
  if "https://www.bilibili.com/video/".toList.isPrefixOf s
  then matchAvAt (s.drop "https://www.bilibili.com/video/".toList.length)
  else none

/-- `BilibiliSubtitleAdapter._extract_video_id`
(src/subtitle_extractor.py lines 99-111): the four regex patterns in
order, first match wins. -/
def extract_video_id (url : Str) : Option Str :=
  match searchWith matchUrlBVAt url with
  | some r => some r
  | none =>
    match searchWith matchUrlAvAt url with
    | some r => some r
    | none =>
      match searchWith matchBVAt url with
      | some r => some r
      | none => searchWith matchAvAt url

/-- `BilibiliSubtitleAdapter.fetch_subtitle_bundle`
(src/subtitle_extractor.py lines 41-97).  There is no `try/except`
anywhere in this function: every exception raised below it propagates to
the caller as an `Except.error`. -/
def fetch_subtitle_bundle (o : HttpOracle) (video_url : Str) :
    Except PyErr PyVal :=
  if hasSub video_url "aisubtitle.hdslb.com/bfs/ai_subtitle/".toList then
    match get_subtitle_content o (.vStr video_url) with
    | .error e => .error e
    | .ok sd =>
      if truthy sd then
        match pyGet sd "lang".toList (.vStr []) with
        | .error e => .error e
        | .ok lang =>
          .ok (.vDict [
            ("platform".toList, .vStr "bilibili".toList),
            ("video_info".toList, .vDict [
              ("title".toList, .vStr "Bilibili AI Subtitle".toList),
              ("owner".toList, .vStr []),
              ("duration".toList, .vInt 0),
              ("description".toList, .vStr "字幕直链导入".toList)]),
            ("subtitle_meta".toList, .vDict [
              ("lan".toList, lang),
              ("lan_doc".toList, .vStr "AI字幕直链".toList)]),
            ("subtitle_data".toList, sd),
            ("source".toList, .vStr "subtitle".toList)])
      else .ok .vNone
  else
    match extract_video_id video_url with
    | none => .ok .vNone
    | some video_id =>
      match get_video_info o video_id with
      | .error e => .error e
      | .ok video_data =>
        if truthy video_data then
          match mkVideoInfo video_data with
          | .error e => .error e
          | .ok vi =>
            match (if truthy vi.pages then (.ok vi.pages : Except PyErr PyVal)
                   else
                     match pyGet video_data "cid".toList .vNone with
                     | .error e => .error e
                     | .ok c => .ok (.vList [.vDict [("cid".toList, c)]])) with
            | .error e => .error e
            | .ok pages =>
              match pyIndex0 pages with
              | .error e => .error e
              | .ok p0 =>
                match pyGet p0 "cid".toList .vNone with
                | .error e => .error e
                | .ok cid =>
                  if truthy cid then
                    match get_ai_subtitle_data o video_id cid with
                    | .error e => .error e
                    | .ok bundle =>
                      if truthy bundle then
                        match pyGet bundle "subtitle_meta".toList (.vDict []) with
                        | .error e => .error e
                        | .ok meta =>
                          match pyGet bundle "subtitle_data".toList (.vDict []) with
                          | .error e => .error e
                          | .ok sdata =>
                            .ok (.vDict [
                              ("platform".toList, .vStr "bilibili".toList),
                              ("video_info".toList, .vDict [
                                ("title".toList, .vStr vi.title),
                                ("owner".toList, vi.owner),
                                ("duration".toList, vi.duration),
                                ("description".toList, .vStr vi.description)]),
                              ("subtitle_meta".toList, meta),
                              ("subtitle_data".toList, sdata),
                              ("source".toList, .vStr "subtitle".toList)])
                      else .ok .vNone
                  else .ok .vNone
        else .ok .vNone

end PyB

/-- An HTTP layer whose view endpoint answers with the JSON array `[1]`
(a well-formed HTTP response whose body is a JSON document of an
unexpected shape). -/
def badOracle : PyB.HttpOracle :=
  { view := fun _ => some (.vList [.vInt 1]),
    player := fun _ _ => none,
    content := fun _ _ => none }

/-- C5 counterexample: `BilibiliSubtitleAdapter.fetch_subtitle_bundle`
holds no `try/except`, so when the view API answers with a JSON array the
expression `data.get("code")` inside `get_video_info`
(src/bilibili_api.py line 66) raises `AttributeError`, which escapes
`fetch_subtitle_bundle` to its caller instead of becoming the
not-available signal. -/
theorem C5_counterexample_raises :
    PyB.fetch_subtitle_bundle badOracle "av12".toList
      = .error PyB.PyErr.attributeError := by rfl

namespace PyB

/-- A caption-track object the track-handling code consumes without
raising: a dict whose `lan` and `subtitle_url` members, when present,
are strings. -/
def GoodTrack : PyVal → Prop
  | .vDict es =>
    (∀ x, dictLookup es "lan".toList = some x → ∃ s, x = .vStr s) ∧
    (∀ x, dictLookup es "subtitle_url".toList = some x → ∃ s, x = .vStr s)
  | _ => False

/-- A `pages` value the fetch can index safely: falsy, or a non-empty
list whose first element is a dict. -/
def GoodPages (p : PyVal) : Prop :=
  truthy p = false ∨ ∃ h t, p = .vList (h :: t) ∧ ∃ es, h = .vDict es

/-- A value `clean_text` accepts: a string, or falsy. -/
def GoodStrOrFalsy (v : PyVal) : Prop :=
  (∃ s, v = .vStr s) ∨ truthy v = false

/-- A `data` member of the view response that `VideoInfo.__init__` and
the page/cid extraction consume without raising. -/
def GoodVideoData (v : PyVal) : Prop :=
  truthy v = false ∨ ∃ es, v = .vDict es ∧
    (∀ x, dictLookup es "title".toList = some x → GoodStrOrFalsy x) ∧
    (∀ x, dictLookup es "desc".toList = some x → GoodStrOrFalsy x) ∧
    (∀ x, dictLookup es "owner".toList = some x → ∃ d, x = .vDict d) ∧
    (∀ x, dictLookup es "pages".toList = some x → GoodPages x)

/-- A view-endpoint response that the chain consumes without raising:
falsy, or a dict whose `data` member (if present) is good video data. -/
def GoodViewResp (data : PyVal) : Prop :=
  truthy data = false ∨ ∃ es, data = .vDict es ∧
    (∀ x, dictLookup es "data".toList = some x → GoodVideoData x)

/-- A player-endpoint response that `get_subtitle_list` consumes without
raising: falsy, or a dict whose `data` / `data.subtitle` /
`data.subtitle.subtitles` members, when present, are a dict, a dict,
and a list of good tracks respectively. -/
def GoodPlayerResp (data : PyVal) : Prop :=
  truthy data = false ∨ ∃ es, data = .vDict es ∧
    (∀ x, dictLookup es "data".toList = some x → ∃ d, x = .vDict d ∧
      (∀ y, dictLookup d "subtitle".toList = some y → ∃ d2, y = .vDict d2 ∧
        (∀ z, dictLookup d2 "subtitles".toList = some z →
          ∃ l, z = .vList l ∧ ∀ s ∈ l, GoodTrack s)))

/-- A subtitle-content response consumable without raising: falsy or a
dict. -/
def GoodContentResp (v : PyVal) : Prop :=
  truthy v = false ∨ ∃ es, v = .vDict es

/-- Responses of the HTTP layer under which the adapter's JSON handling
never raises. -/
structure WellFormed (o : HttpOracle) : Prop where
  view : ∀ url data, o.view url = some data → GoodViewResp data
  player : ∀ url ps data, o.player url ps = some data → GoodPlayerResp data
  content : ∀ url i v, o.content url i = some v → GoodContentResp v

theorem truthy_vNone_false : truthy .vNone = false := rfl

theorem goodVideoData_vNone : GoodVideoData .vNone := Or.inl rfl

end PyB

namespace PyB

theorem get_video_info_eq_some {o : HttpOracle} {video_id : Str} {data : PyVal}
    (hv : o.view (view_url video_id) = some data) :
    get_video_info o video_id
      = if truthy data = true then
          match pyGet data "code".toList .vNone with
          | .error e => .error e
          | .ok code =>
            if pyEqZero code = true then pyGet data "data".toList .vNone
            else match pyGet data "message".toList (.vStr "未知错误".toList) with
              | .error e => .error e
              | .ok _ => .ok .vNone
        else .ok .vNone := by
  unfold get_video_info
  rw [hv]

theorem get_video_info_ok {o : HttpOracle} (hwf : WellFormed o) (video_id : Str) :
    ∃ v, get_video_info o video_id = .ok v ∧ GoodVideoData v := by
  cases hv : o.view (view_url video_id) with
  | none =>
    refine ⟨.vNone, ?_, goodVideoData_vNone⟩
    unfold get_video_info
    rw [hv]
  | some data =>
    have hg := hwf.view _ data hv
    rw [get_video_info_eq_some hv]
    cases ht : truthy data with
    | false => exact ⟨.vNone, by rw [if_neg (by simp)], goodVideoData_vNone⟩
    | true =>
      rcases hg with hf | ⟨es, rfl, hd⟩
      · rw [ht] at hf; exact absurd hf Bool.noConfusion
      · rw [if_pos rfl]
        show ∃ v, (if pyEqZero ((dictLookup es "code".toList).getD .vNone) = true
            then pyGet (.vDict es) "data".toList .vNone
            else match pyGet (.vDict es) "message".toList (.vStr "未知错误".toList) with
              | .error e => .error e
              | .ok _ => .ok .vNone) = .ok v ∧ GoodVideoData v
        cases hz : pyEqZero ((dictLookup es "code".toList).getD .vNone) with
        | true =>
          rw [if_pos rfl]
          refine ⟨(dictLookup es "data".toList).getD .vNone, rfl, ?_⟩
          cases hl : dictLookup es "data".toList with
          | none => exact goodVideoData_vNone
          | some x => exact hd x hl
        | false =>
          rw [if_neg (by simp)]
          exact ⟨.vNone, rfl, goodVideoData_vNone⟩

theorem clean_text_ok {v : PyVal} (hg : GoodStrOrFalsy v) :
    ∃ t, clean_text v = .ok t := by
  rcases hg with ⟨s, rfl⟩ | hf
  · unfold clean_text
    cases truthy (PyVal.vStr s) <;> exact ⟨_, rfl⟩
  · unfold clean_text
    rw [if_neg (by rw [hf]; exact Bool.noConfusion)]
    exact ⟨[], rfl⟩

theorem get_subtitle_content_ok {o : HttpOracle} (hwf : WellFormed o) (u : Str) :
    ∃ v, get_subtitle_content o (.vStr u) = .ok v ∧ GoodContentResp v := by
  have he : get_subtitle_content o (.vStr u)
      = match o.content (content_url u) 0 with
        | some v => .ok v
        | none =>
          match o.content (content_url u) 1 with
          | some v => .ok v
          | none =>
            match o.content (content_url u) 2 with
            | some v => .ok v
            | none => .ok .vNone := rfl
  rw [he]
  cases h0 : o.content (content_url u) 0 with
  | some v => exact ⟨v, rfl, hwf.content _ 0 v h0⟩
  | none =>
    cases h1 : o.content (content_url u) 1 with
    | some v => exact ⟨v, rfl, hwf.content _ 1 v h1⟩
    | none =>
      cases h2 : o.content (content_url u) 2 with
      | some v => exact ⟨v, rfl, hwf.content _ 2 v h2⟩
      | none => exact ⟨.vNone, rfl, Or.inl rfl⟩

theorem availableOf_cons_dict (es : List (Str × PyVal)) {rest : List PyVal}
    {r : List PyVal} (hr : availableOf rest = .ok r) :
    availableOf (.vDict es :: rest)
      = .ok (if truthy ((dictLookup es "subtitle_url".toList).getD .vNone)
             then .vDict es :: r else r) := by
  show Except.bind (availableOf rest) _ = _
  rw [hr]
  show (if truthy ((dictLookup es "subtitle_url".toList).getD .vNone) = true
      then pure (PyVal.vDict es :: r) else pure r : Except PyErr (List PyVal)) = _
  cases truthy ((dictLookup es "subtitle_url".toList).getD .vNone) <;> rfl

theorem availableOf_ok : ∀ {l : List PyVal}, (∀ s ∈ l, GoodTrack s) →
    ∃ r, availableOf l = .ok r ∧ ∀ x ∈ r, x ∈ l := by
  intro l
  induction l with
  | nil => intro _; exact ⟨[], rfl, by simp⟩
  | cons s rest ih =>
    intro h
    obtain ⟨r, hr, hmem⟩ := ih (fun x hx => h x (List.mem_cons_of_mem _ hx))
    have hs := h s (List.mem_cons_self _ _)
    cases s with
    | vNone => simp [GoodTrack] at hs
    | vBool b => simp [GoodTrack] at hs
    | vInt n => simp [GoodTrack] at hs
    | vStr s2 => simp [GoodTrack] at hs
    | vList xs => simp [GoodTrack] at hs
    | vDict es =>
      refine ⟨if truthy ((dictLookup es "subtitle_url".toList).getD .vNone)
          then (.vDict es) :: r else r, availableOf_cons_dict es hr, ?_⟩
      intro x hx
      by_cases hc : truthy ((dictLookup es "subtitle_url".toList).getD .vNone) = true
      · rw [if_pos hc] at hx
        rcases List.mem_cons.mp hx with rfl | hx
        · exact List.mem_cons_self _ _
        · exact List.mem_cons_of_mem _ (hmem x hx)
      · rw [if_neg hc] at hx
        exact List.mem_cons_of_mem _ (hmem x hx)

end PyB

namespace PyB

/-- Result shape of a successful `get_subtitle_list`: `None` or a
non-empty list of good tracks. -/
def GoodSubsResult (v : PyVal) : Prop :=
  v = .vNone ∨ ∃ l, v = .vList l ∧ l ≠ [] ∧ ∀ s ∈ l, GoodTrack s

theorem payload_ok {es : List (Str × PyVal)}
    (hd : ∀ x, dictLookup es "data".toList = some x → ∃ d, x = .vDict d ∧
      (∀ y, dictLookup d "subtitle".toList = some y → ∃ d2, y = .vDict d2 ∧
        (∀ z, dictLookup d2 "subtitles".toList = some z →
          ∃ l, z = .vList l ∧ ∀ s ∈ l, GoodTrack s)))
    {alt : Except PyErr PyVal} {va : PyVal}
    (halt : alt = .ok va) (hga : GoodSubsResult va) :
    ∃ v, (match pyGet (.vDict es) "data".toList (.vDict []) with
      | Except.error e => Except.error e
      | Except.ok d =>
        match pyGet d "subtitle".toList (.vDict []) with
        | Except.error e => Except.error e
        | Except.ok sub =>
          match pyGet sub "subtitles".toList (.vList []) with
          | Except.error e => Except.error e
          | Except.ok subtitles =>
            match filterAvailable subtitles with
            | Except.error e => Except.error e
            | Except.ok avail =>
              if avail.isEmpty then alt else Except.ok (PyVal.vList avail))
      = Except.ok v ∧ GoodSubsResult v := by
  obtain ⟨d2, hdd, hsub⟩ : ∃ d2, (dictLookup es "data".toList).getD (.vDict [])
      = .vDict d2 ∧ (∀ y, dictLookup d2 "subtitle".toList = some y →
        ∃ d3, y = .vDict d3 ∧ (∀ z, dictLookup d3 "subtitles".toList = some z →
          ∃ l, z = .vList l ∧ ∀ s ∈ l, GoodTrack s)) := by
    cases hl : dictLookup es "data".toList with
    | none => exact ⟨[], rfl, fun y hy => Option.noConfusion hy⟩
    | some x =>
      obtain ⟨d2, rfl, h2⟩ := hd x hl
      exact ⟨d2, rfl, h2⟩
  show ∃ v, (match pyGet ((dictLookup es "data".toList).getD (.vDict []))
      "subtitle".toList (.vDict []) with
    | Except.error e => Except.error e
    | Except.ok sub =>
      match pyGet sub "subtitles".toList (.vList []) with
      | Except.error e => Except.error e
      | Except.ok subtitles =>
        match filterAvailable subtitles with
        | Except.error e => Except.error e
        | Except.ok avail =>
          if avail.isEmpty then alt else Except.ok (PyVal.vList avail))
    = Except.ok v ∧ GoodSubsResult v
  rw [hdd]
  obtain ⟨d3, hss, hsubs⟩ : ∃ d3, (dictLookup d2 "subtitle".toList).getD (.vDict [])
      = .vDict d3 ∧ (∀ z, dictLookup d3 "subtitles".toList = some z →
        ∃ l, z = .vList l ∧ ∀ s ∈ l, GoodTrack s) := by
    cases hl : dictLookup d2 "subtitle".toList with
    | none => exact ⟨[], rfl, fun z hz => Option.noConfusion hz⟩
    | some y =>
      obtain ⟨d3, rfl, h3⟩ := hsub y hl
      exact ⟨d3, rfl, h3⟩
  show ∃ v, (match pyGet ((dictLookup d2 "subtitle".toList).getD (.vDict []))
      "subtitles".toList (.vList []) with
    | Except.error e => Except.error e
    | Except.ok subtitles =>
      match filterAvailable subtitles with
      | Except.error e => Except.error e
      | Except.ok avail =>
        if avail.isEmpty then alt else Except.ok (PyVal.vList avail))
    = Except.ok v ∧ GoodSubsResult v
  rw [hss]
  obtain ⟨l, hll, htr⟩ : ∃ l, (dictLookup d3 "subtitles".toList).getD (.vList [])
      = .vList l ∧ ∀ s ∈ l, GoodTrack s := by
    cases hl : dictLookup d3 "subtitles".toList with
    | none => exact ⟨[], rfl, fun s hs => absurd hs (List.not_mem_nil s)⟩
    | some z =>
      obtain ⟨l, rfl, h4⟩ := hsubs z hl
      exact ⟨l, rfl, h4⟩
  show ∃ v, (match filterAvailable ((dictLookup d3 "subtitles".toList).getD (.vList []))
      with
    | Except.error e => Except.error e
    | Except.ok avail =>
      if avail.isEmpty then alt else Except.ok (PyVal.vList avail))
    = Except.ok v ∧ GoodSubsResult v
  rw [hll]
  obtain ⟨r, hr, hmem⟩ := availableOf_ok htr
  have hfa : filterAvailable (.vList l) = .ok r := hr
  rw [hfa]
  show ∃ v, (if r.isEmpty then alt else .ok (.vList r)) = Except.ok v ∧ GoodSubsResult v
  cases hre : r.isEmpty with
  | true => rw [if_pos rfl, halt]; exact ⟨va, rfl, hga⟩
  | false =>
    rw [if_neg (by simp)]
    refine ⟨.vList r, rfl, Or.inr ⟨r, rfl, ?_, fun s hs => htr s (hmem s hs)⟩⟩
    intro hrn
    rw [hrn] at hre
    exact Bool.noConfusion hre

theorem try_subtitle_candidates_ok {o : HttpOracle} (hwf : WellFormed o) :
    ∀ cands : List (Str × List (Str × PyVal)),
    ∃ v, try_subtitle_candidates o cands = Except.ok v ∧ GoodSubsResult v := by
  intro cands
  induction cands with
  | nil => exact ⟨.vNone, rfl, Or.inl rfl⟩
  | cons cand rest ih =>
    obtain ⟨vr, hvr, hgr⟩ := ih
    obtain ⟨url, params⟩ := cand
    by_cases hcid : ((clean_params params).any
        (fun kv => decide (kv.1 = "cid".toList))) = true
    · cases hp : o.player url (clean_params params) with
      | none =>
        refine ⟨vr, ?_, hgr⟩
        show (if (clean_params params).any (fun kv => decide (kv.1 = "cid".toList))
            then match o.player url (clean_params params) with
              | none => try_subtitle_candidates o rest
              | some data =>
                if truthy data = true then
                  match pyGet data "code".toList .vNone with
                  | Except.error e => Except.error e
                  | Except.ok code =>
                    if pyEqZero code = true then
                      match pyGet data "data".toList (.vDict []) with
                      | Except.error e => Except.error e
                      | Except.ok d =>
                        match pyGet d "subtitle".toList (.vDict []) with
                        | Except.error e => Except.error e
                        | Except.ok sub =>
                          match pyGet sub "subtitles".toList (.vList []) with
                          | Except.error e => Except.error e
                          | Except.ok subtitles =>
                            match filterAvailable subtitles with
                            | Except.error e => Except.error e
                            | Except.ok avail =>
                              if avail.isEmpty then try_subtitle_candidates o rest
                              else Except.ok (PyVal.vList avail)
                    else try_subtitle_candidates o rest
                else try_subtitle_candidates o rest
            else try_subtitle_candidates o rest) = Except.ok vr
        rw [if_pos hcid, hp, hvr]
      | some data =>
        have hg := hwf.player url (clean_params params) data hp
        have hstep : try_subtitle_candidates o ((url, params) :: rest)
            = if truthy data = true then
                match pyGet data "code".toList .vNone with
                | Except.error e => Except.error e
                | Except.ok code =>
                  if pyEqZero code = true then
                    match pyGet data "data".toList (.vDict []) with
                    | Except.error e => Except.error e
                    | Except.ok d =>
                      match pyGet d "subtitle".toList (.vDict []) with
                      | Except.error e => Except.error e
                      | Except.ok sub =>
                        match pyGet sub "subtitles".toList (.vList []) with
                        | Except.error e => Except.error e
                        | Except.ok subtitles =>
                          match filterAvailable subtitles with
                          | Except.error e => Except.error e
                          | Except.ok avail =>
                            if avail.isEmpty then try_subtitle_candidates o rest
                            else Except.ok (PyVal.vList avail)
                  else try_subtitle_candidates o rest
              else try_subtitle_candidates o rest := by
          show (if (clean_params params).any (fun kv => decide (kv.1 = "cid".toList))
              then match o.player url (clean_params params) with
                | none => try_subtitle_candidates o rest
                | some data =>
                  if truthy data = true then
                    match pyGet data "code".toList .vNone with
                    | Except.error e => Except.error e
                    | Except.ok code =>
                      if pyEqZero code = true then
                        match pyGet data "data".toList (.vDict []) with
                        | Except.error e => Except.error e
                        | Except.ok d =>
                          match pyGet d "subtitle".toList (.vDict []) with
                          | Except.error e => Except.error e
                          | Except.ok sub =>
                            match pyGet sub "subtitles".toList (.vList []) with
                            | Except.error e => Except.error e
                            | Except.ok subtitles =>
                              match filterAvailable subtitles with
                              | Except.error e => Except.error e
                              | Except.ok avail =>
                                if avail.isEmpty then try_subtitle_candidates o rest
                                else Except.ok (PyVal.vList avail)
                      else try_subtitle_candidates o rest
                  else try_subtitle_candidates o rest
              else try_subtitle_candidates o rest) = _
          rw [if_pos hcid, hp]
        rw [hstep]
        cases ht : truthy data with
        | false => rw [if_neg (by simp), hvr]; exact ⟨vr, rfl, hgr⟩
        | true =>
          rw [if_pos rfl]
          rcases hg with hf | ⟨es, rfl, hd⟩
          · rw [ht] at hf; exact absurd hf Bool.noConfusion
          · show ∃ v, (if pyEqZero ((dictLookup es "code".toList).getD .vNone) = true
                then
                  match pyGet (.vDict es) "data".toList (.vDict []) with
                  | Except.error e => Except.error e
                  | Except.ok d =>
                    match pyGet d "subtitle".toList (.vDict []) with
                    | Except.error e => Except.error e
                    | Except.ok sub =>
                      match pyGet sub "subtitles".toList (.vList []) with
                      | Except.error e => Except.error e
                      | Except.ok subtitles =>
                        match filterAvailable subtitles with
                        | Except.error e => Except.error e
                        | Except.ok avail =>
                          if avail.isEmpty then try_subtitle_candidates o rest
                          else Except.ok (PyVal.vList avail)
                else try_subtitle_candidates o rest) = Except.ok v ∧ GoodSubsResult v
            cases hz : pyEqZero ((dictLookup es "code".toList).getD .vNone) with
            | false => rw [if_neg (by simp), hvr]; exact ⟨vr, rfl, hgr⟩
            | true =>
              rw [if_pos rfl]
              exact payload_ok hd hvr hgr
    · refine ⟨vr, ?_, hgr⟩
      show (if (clean_params params).any (fun kv => decide (kv.1 = "cid".toList))
          then _ else try_subtitle_candidates o rest) = Except.ok vr
      rw [if_neg hcid, hvr]

end PyB

namespace PyB

theorem findAi_ok : ∀ {l : List PyVal}, (∀ s ∈ l, GoodTrack s) →
    ∃ r, findAi l = .ok r ∧ ∀ s, r = some s → s ∈ l := by
  intro l
  induction l with
  | nil => exact fun _ => ⟨none, rfl, fun s hs => Option.noConfusion hs⟩
  | cons s rest ih =>
    intro h
    obtain ⟨r, hr, hmem⟩ := ih (fun x hx => h x (List.mem_cons_of_mem _ hx))
    have hs := h s (List.mem_cons_self _ _)
    cases s with
    | vNone => simp [GoodTrack] at hs
    | vBool b => simp [GoodTrack] at hs
    | vInt n => simp [GoodTrack] at hs
    | vStr s2 => simp [GoodTrack] at hs
    | vList xs => simp [GoodTrack] at hs
    | vDict es =>
      obtain ⟨ls, hls⟩ : ∃ ls, (dictLookup es "lan".toList).getD (.vStr [])
          = .vStr ls := by
        cases hl : dictLookup es "lan".toList with
        | none => exact ⟨[], rfl⟩
        | some x => obtain ⟨s2, rfl⟩ := hs.1 x hl; exact ⟨s2, rfl⟩
      show ∃ r, Except.bind (pyLower ((dictLookup es "lan".toList).getD (.vStr [])))
          (fun lan => if hasSub lan "ai".toList
            then pure (some (PyVal.vDict es)) else findAi rest)
          = Except.ok r ∧ ∀ s, r = some s → s ∈ PyVal.vDict es :: rest
      rw [hls]
      show ∃ r, (if hasSub (List.map charLower ls) "ai".toList = true
          then pure (some (PyVal.vDict es)) else findAi rest)
          = Except.ok r ∧ ∀ s, r = some s → s ∈ PyVal.vDict es :: rest
      cases hha : hasSub (List.map charLower ls) "ai".toList with
      | true =>
        rw [if_pos rfl]
        refine ⟨some (.vDict es), rfl, ?_⟩
        intro x hx
        rw [Option.some.injEq] at hx
        rw [← hx]
        exact List.mem_cons_self _ _
      | false =>
        rw [if_neg (by simp), hr]
        exact ⟨r, rfl, fun x hx => List.mem_cons_of_mem _ (hmem x hx)⟩

theorem resolve_ids_ok {o : HttpOracle} (hwf : WellFormed o) {video_id : Str}
    (hid : "BV".toList.isPrefixOf video_id = true ∨
      ∃ ds, video_id = 'a' :: 'v' :: ds ∧ ds ≠ [] ∧ ∀ c ∈ ds, c.isDigit = true) :
    ∃ res, resolve_ids o video_id = .ok res := by
  unfold resolve_ids
  rcases hid with hbv | ⟨ds, rfl, hne, hdig⟩
  · rw [if_pos hbv]
    obtain ⟨vd, hvd, hgood⟩ := get_video_info_ok hwf video_id
    rw [hvd]
    show ∃ res, (if truthy vd = true then
        match pyGet vd "aid".toList PyVal.vNone with
        | Except.error e => Except.error e
        | Except.ok aid =>
          match pyGet vd "bvid".toList PyVal.vNone with
          | Except.error e => Except.error e
          | Except.ok bvid0 =>
            Except.ok (some (aid, if truthy bvid0 = true then bvid0
              else PyVal.vStr video_id))
      else Except.ok none) = Except.ok res
    cases ht : truthy vd with
    | false =>
      refine ⟨none, ?_⟩
      rw [if_neg (by simp)]
    | true =>
      rcases hgood with hf | ⟨es, rfl, -, -, -, -⟩
      · rw [ht] at hf; exact absurd hf Bool.noConfusion
      · rw [if_pos rfl]
        exact ⟨_, rfl⟩
  · rw [if_neg (fun h => Bool.noConfusion h)]
    have hsi : strToInt ds = some ((digitsVal ds : ℤ)) := by
      unfold strToInt
      rw [if_pos ⟨hne, List.all_eq_true.mpr (fun c hc => hdig c hc)⟩]
    show ∃ res, (match (if "av".toList.isPrefixOf ('a' :: 'v' :: ds) = true
        then strToInt (('a' :: 'v' :: ds).drop 2)
        else strToInt ('a' :: 'v' :: ds)) with
      | some n => Except.ok (some (PyVal.vInt n, PyVal.vNone))
      | none => Except.error PyErr.valueError) = Except.ok res
    rw [if_pos (show "av".toList.isPrefixOf ('a' :: 'v' :: ds) = true by simp)]
    rw [show List.drop 2 ('a' :: 'v' :: ds) = ds from rfl, hsi]
    exact ⟨_, rfl⟩

/-- Result shape of `get_ai_subtitle_data`: `None` or the bundle dict. -/
def GoodBundle (v : PyVal) : Prop := v = .vNone ∨ ∃ es, v = .vDict es

theorem ai_url_tail_ok {o : HttpOracle} (hwf : WellFormed o) {ai : PyVal}
    (hai : GoodTrack ai) :
    ∃ v, (match pyGet ai "subtitle_url".toList .vNone with
      | Except.error e => Except.error e
      | Except.ok su =>
        if truthy su = true then
          match get_subtitle_content o su with
          | Except.error e => Except.error e
          | Except.ok sd =>
            if truthy sd = true then
              Except.ok (PyVal.vDict [("subtitle_meta".toList, ai),
                ("subtitle_data".toList, sd)])
            else Except.ok PyVal.vNone
        else Except.ok PyVal.vNone) = Except.ok v ∧ GoodBundle v := by
  cases ai with
  | vNone => simp [GoodTrack] at hai
  | vBool b => simp [GoodTrack] at hai
  | vInt n => simp [GoodTrack] at hai
  | vStr s2 => simp [GoodTrack] at hai
  | vList xs => simp [GoodTrack] at hai
  | vDict es =>
    show ∃ v, (if truthy ((dictLookup es "subtitle_url".toList).getD .vNone) = true
        then match get_subtitle_content o
            ((dictLookup es "subtitle_url".toList).getD .vNone) with
          | Except.error e => Except.error e
          | Except.ok sd =>
            if truthy sd = true then
              Except.ok (PyVal.vDict [("subtitle_meta".toList, .vDict es),
                ("subtitle_data".toList, sd)])
            else Except.ok PyVal.vNone
        else Except.ok PyVal.vNone) = Except.ok v ∧ GoodBundle v
    cases htu : truthy ((dictLookup es "subtitle_url".toList).getD .vNone) with
    | false =>
      rw [if_neg (by simp)]
      exact ⟨.vNone, rfl, Or.inl rfl⟩
    | true =>
      obtain ⟨us, hus⟩ : ∃ us, (dictLookup es "subtitle_url".toList).getD .vNone
          = .vStr us := by
        cases hl : dictLookup es "subtitle_url".toList with
        | none =>
          rw [hl] at htu
          exact absurd htu Bool.noConfusion
        | some x => obtain ⟨us, rfl⟩ := hai.2 x hl; exact ⟨us, rfl⟩
      rw [if_pos rfl, hus]
      obtain ⟨sd, hsd, hgc⟩ := get_subtitle_content_ok hwf us
      rw [hsd]
      show ∃ v, (if truthy sd = true then
          Except.ok (PyVal.vDict [("subtitle_meta".toList, PyVal.vDict es),
            ("subtitle_data".toList, sd)])
        else Except.ok PyVal.vNone) = Except.ok v ∧ GoodBundle v
      cases hts : truthy sd with
      | false =>
        rw [if_neg (by simp)]
        exact ⟨.vNone, rfl, Or.inl rfl⟩
      | true =>
        rw [if_pos rfl]
        exact ⟨_, rfl, Or.inr ⟨_, rfl⟩⟩

end PyB

namespace PyB

theorem track_tail_ok {o : HttpOracle} (hwf : WellFormed o) {subs : List PyVal}
    (hne : subs ≠ []) (htr : ∀ s ∈ subs, GoodTrack s) :
    ∃ v, (match findAi subs with
      | Except.error e => Except.error e
      | Except.ok ai? =>
        (match (match ai? with
                | some s => (Except.ok s : Except PyErr PyVal)
                | none =>
                  match pyGet (subs.headD .vNone) "lan_doc".toList
                      (.vStr "未知".toList) with
                  | Except.error e => Except.error e
                  | Except.ok _ => Except.ok (subs.headD .vNone)) with
         | Except.error e => Except.error e
         | Except.ok ai =>
           match pyGet ai "subtitle_url".toList .vNone with
           | Except.error e => Except.error e
           | Except.ok su =>
             if truthy su = true then
               match get_subtitle_content o su with
               | Except.error e => Except.error e
               | Except.ok sd =>
                 if truthy sd = true then
                   Except.ok (PyVal.vDict [("subtitle_meta".toList, ai),
                     ("subtitle_data".toList, sd)])
                 else Except.ok PyVal.vNone
             else Except.ok PyVal.vNone))
      = Except.ok v ∧ GoodBundle v := by
  obtain ⟨r, hfa, hfm⟩ := findAi_ok htr
  rw [hfa]
  cases r with
  | some aitrack => exact ai_url_tail_ok hwf (htr aitrack (hfm aitrack rfl))
  | none =>
    obtain ⟨h0, t0, rfl⟩ : ∃ h0 t0, subs = h0 :: t0 := by
      cases subs with
      | nil => exact absurd rfl hne
      | cons a b => exact ⟨a, b, rfl⟩
    have hh := htr h0 (List.mem_cons_self _ _)
    cases h0 with
    | vNone => simp [GoodTrack] at hh
    | vBool b => simp [GoodTrack] at hh
    | vInt n => simp [GoodTrack] at hh
    | vStr s2 => simp [GoodTrack] at hh
    | vList xs => simp [GoodTrack] at hh
    | vDict es0 => exact ai_url_tail_ok hwf hh

theorem get_ai_subtitle_data_ok {o : HttpOracle} (hwf : WellFormed o)
    {video_id : Str}
    (hid : "BV".toList.isPrefixOf video_id = true ∨
      ∃ ds, video_id = 'a' :: 'v' :: ds ∧ ds ≠ [] ∧ ∀ c ∈ ds, c.isDigit = true)
    (cid : PyVal) :
    ∃ v, get_ai_subtitle_data o video_id cid = .ok v ∧ GoodBundle v := by
  obtain ⟨res, hres⟩ := resolve_ids_ok hwf hid
  unfold get_ai_subtitle_data
  rw [hres]
  cases res with
  | none => exact ⟨.vNone, rfl, Or.inl rfl⟩
  | some av =>
    obtain ⟨sv, hsv, hgs⟩ := try_subtitle_candidates_ok hwf [
      ("https://api.bilibili.com/x/player/wbi/v2".toList,
        [("aid".toList, av.1), ("cid".toList, cid)]),
      ("https://api.bilibili.com/x/player/wbi/v2".toList,
        [("bvid".toList, av.2), ("cid".toList, cid)]),
      ("https://api.bilibili.com/x/player/v2".toList,
        [("aid".toList, av.1), ("cid".toList, cid)]),
      ("https://api.bilibili.com/x/player/v2".toList,
        [("bvid".toList, av.2), ("cid".toList, cid)])]
    have hgl : get_subtitle_list o av.1 cid av.2 = .ok sv := hsv
    show ∃ v, (match get_subtitle_list o av.1 cid av.2 with
      | Except.error e => Except.error e
      | Except.ok subsV =>
        if truthy subsV = true then
          match subsV with
          | PyVal.vList subs =>
            (match findAi subs with
             | Except.error e => Except.error e
             | Except.ok ai? =>
               (match (match ai? with
                       | some s => (Except.ok s : Except PyErr PyVal)
                       | none =>
                         match pyGet (subs.headD .vNone) "lan_doc".toList
                             (.vStr "未知".toList) with
                         | Except.error e => Except.error e
                         | Except.ok _ => Except.ok (subs.headD .vNone)) with
                | Except.error e => Except.error e
                | Except.ok ai =>
                  match pyGet ai "subtitle_url".toList .vNone with
                  | Except.error e => Except.error e
                  | Except.ok su =>
                    if truthy su = true then
                      match get_subtitle_content o su with
                      | Except.error e => Except.error e
                      | Except.ok sd =>
                        if truthy sd = true then
                          Except.ok (PyVal.vDict [("subtitle_meta".toList, ai),
                            ("subtitle_data".toList, sd)])
                        else Except.ok PyVal.vNone
                    else Except.ok PyVal.vNone))
          | _ => Except.error PyErr.typeError
        else Except.ok PyVal.vNone) = Except.ok v ∧ GoodBundle v
    rw [hgl]
    cases ht : truthy sv with
    | false =>
      show ∃ v, (if truthy sv = true then _ else Except.ok PyVal.vNone)
          = Except.ok v ∧ GoodBundle v
      rw [if_neg (by rw [ht]; exact Bool.noConfusion)]
      exact ⟨.vNone, rfl, Or.inl rfl⟩
    | true =>
      rcases hgs with rfl | ⟨l, rfl, hlne, htr⟩
      · exact absurd ht Bool.noConfusion
      · show ∃ v, (if truthy (PyVal.vList l) = true then _
            else Except.ok PyVal.vNone) = Except.ok v ∧ GoodBundle v
        rw [if_pos ht]
        exact track_tail_ok hwf hlne htr

end PyB

namespace PyB

theorem mkVideoInfo_ok {v : PyVal} (hg : GoodVideoData v) (ht : truthy v = true) :
    ∃ vi, mkVideoInfo v = .ok vi ∧ GoodPages vi.pages := by
  rcases hg with hf | ⟨es, rfl, htitle, hdesc, howner, hpages⟩
  · rw [ht] at hf; exact absurd hf Bool.noConfusion
  obtain ⟨t, hT⟩ := clean_text_ok (v := (dictLookup es "title".toList).getD (.vStr []))
    (by
      cases hl : dictLookup es "title".toList with
      | none => exact Or.inl ⟨[], rfl⟩
      | some x => exact htitle x hl)
  obtain ⟨d, hD⟩ := clean_text_ok (v := (dictLookup es "desc".toList).getD (.vStr []))
    (by
      cases hl : dictLookup es "desc".toList with
      | none => exact Or.inl ⟨[], rfl⟩
      | some x => exact hdesc x hl)
  obtain ⟨ow, hown⟩ : ∃ ow, pyGet ((dictLookup es "owner".toList).getD (.vDict []))
      "name".toList (.vStr []) = .ok ow := by
    cases hl : dictLookup es "owner".toList with
    | none => exact ⟨_, rfl⟩
    | some x =>
      obtain ⟨dd, rfl⟩ := howner x hl
      exact ⟨_, rfl⟩
  have heq : mkVideoInfo (.vDict es)
      = Except.bind (clean_text ((dictLookup es "title".toList).getD (.vStr [])))
          (fun title =>
            Except.bind (clean_text ((dictLookup es "desc".toList).getD (.vStr [])))
              (fun description =>
                Except.bind (pyGet ((dictLookup es "owner".toList).getD (.vDict []))
                    "name".toList (.vStr []))
                  (fun owner => Except.ok
                    ⟨(dictLookup es "aid".toList).getD .vNone,
                     (dictLookup es "bvid".toList).getD .vNone,
                     title, description,
                     (dictLookup es "duration".toList).getD (.vInt 0),
                     owner,
                     (dictLookup es "pic".toList).getD (.vStr []),
                     (dictLookup es "pubdate".toList).getD (.vInt 0),
                     (dictLookup es "copyright".toList).getD (.vInt 1),
                     (dictLookup es "pages".toList).getD (.vList [])⟩))) := rfl
  rw [heq, hT, hD, hown]
  refine ⟨_, rfl, ?_⟩
  show GoodPages ((dictLookup es "pages".toList).getD (.vList []))
  cases hl : dictLookup es "pages".toList with
  | none => exact Or.inl rfl
  | some x => exact hpages x hl

/-- Shape of every id the four regex patterns can produce. -/
def GoodId (r : Str) : Prop :=
  "BV".toList.isPrefixOf r = true ∨
    ∃ ds, r = 'a' :: 'v' :: ds ∧ ds ≠ [] ∧ ∀ c ∈ ds, c.isDigit = true

theorem matchBVAt_shape : ∀ {s r : Str}, matchBVAt s = some r → GoodId r := by
  intro s r h
  cases s with
  | nil => exact Option.noConfusion h
  | cons c1 s1 =>
    cases s1 with
    | nil => exact Option.noConfusion h
    | cons c2 rest =>
      by_cases hc : c1 = 'B' ∧ c2 = 'V'
      · rw [matchBVAt, if_pos hc] at h
        cases htw : rest.takeWhile isAlnumAscii with
        | nil => rw [htw] at h; exact Option.noConfusion h
        | cons a run =>
          rw [htw] at h
          cases Option.some.inj h
          exact Or.inl (by simp)
      · rw [matchBVAt, if_neg hc] at h
        exact Option.noConfusion h

theorem matchAvAt_shape : ∀ {s r : Str}, matchAvAt s = some r → GoodId r := by
  intro s r h
  cases s with
  | nil => exact Option.noConfusion h
  | cons c1 s1 =>
    cases s1 with
    | nil => exact Option.noConfusion h
    | cons c2 rest =>
      by_cases hc : c1 = 'a' ∧ c2 = 'v'
      · rw [matchAvAt, if_pos hc] at h
        cases htw : rest.takeWhile Char.isDigit with
        | nil => rw [htw] at h; exact Option.noConfusion h
        | cons a run =>
          rw [htw] at h
          cases Option.some.inj h
          refine Or.inr ⟨a :: run, rfl, by simp, ?_⟩
          intro c hc2
          have : c ∈ rest.takeWhile Char.isDigit := by rw [htw]; exact hc2
          exact List.mem_takeWhile_imp this
      · rw [matchAvAt, if_neg hc] at h
        exact Option.noConfusion h

theorem matchUrlBVAt_shape {s r : Str} (h : matchUrlBVAt s = some r) : GoodId r := by
  unfold matchUrlBVAt at h
  by_cases hp : "https://www.bilibili.com/video/".toList.isPrefixOf s = true
  · rw [if_pos hp] at h
    exact matchBVAt_shape h
  · rw [if_neg hp] at h
    exact Option.noConfusion h

theorem matchUrlAvAt_shape {s r : Str} (h : matchUrlAvAt s = some r) : GoodId r := by
  unfold matchUrlAvAt at h
  by_cases hp : "https://www.bilibili.com/video/".toList.isPrefixOf s = true
  · rw [if_pos hp] at h
    exact matchAvAt_shape h
  · rw [if_neg hp] at h
    exact Option.noConfusion h

theorem searchWith_some {m : Str → Option Str} : ∀ {u r : Str},
    searchWith m u = some r → ∃ s, m s = some r := by
  intro u
  induction u with
  | nil => intro r h; exact Option.noConfusion h
  | cons c rest ih =>
    intro r h
    cases hm : m (c :: rest) with
    | some r2 =>
      rw [searchWith, hm] at h
      cases Option.some.inj h
      exact ⟨c :: rest, hm⟩
    | none =>
      rw [searchWith, hm] at h
      exact ih h

theorem extract_video_id_shape {url video_id : Str}
    (h : extract_video_id url = some video_id) : GoodId video_id := by
  have h0 : (match searchWith matchUrlBVAt url with
    | some r => some r
    | none =>
      match searchWith matchUrlAvAt url with
      | some r => some r
      | none =>
        match searchWith matchBVAt url with
        | some r => some r
        | none => searchWith matchAvAt url) = some video_id := h
  cases h1 : searchWith matchUrlBVAt url with
  | some r =>
    rw [h1] at h0
    cases Option.some.inj h0
    obtain ⟨s, hs⟩ := searchWith_some h1
    exact matchUrlBVAt_shape hs
  | none =>
    rw [h1] at h0
    have h2 : (match searchWith matchUrlAvAt url with
      | some r => some r
      | none =>
        match searchWith matchBVAt url with
        | some r => some r
        | none => searchWith matchAvAt url) = some video_id := h0
    cases h3 : searchWith matchUrlAvAt url with
    | some r =>
      rw [h3] at h2
      cases Option.some.inj h2
      obtain ⟨s, hs⟩ := searchWith_some h3
      exact matchUrlAvAt_shape hs
    | none =>
      rw [h3] at h2
      have h4 : (match searchWith matchBVAt url with
        | some r => some r
        | none => searchWith matchAvAt url) = some video_id := h2
      cases h5 : searchWith matchBVAt url with
      | some r =>
        rw [h5] at h4
        cases Option.some.inj h4
        obtain ⟨s, hs⟩ := searchWith_some h5
        exact matchBVAt_shape hs
      | none =>
        rw [h5] at h4
        have h6 : searchWith matchAvAt url = some video_id := h4
        obtain ⟨s, hs⟩ := searchWith_some h6
        exact matchAvAt_shape hs

end PyB

section C5Assembly

open PyB

/-- C5 (amended): `BilibiliSubtitleAdapter.fetch_subtitle_bundle` returns
a bundle dict or the not-available signal — and raises no exception — for
every URL, provided every JSON document the HTTP layer returns is
well-formed (dict-shaped where the code calls `.get`, string-shaped where
it calls `.lower()`/`.startswith`, list-of-dict page/track tables).  The
unamended claim quantifies over arbitrary responses and is refuted by
`C5_counterexample_raises`: the function owns no `try/except`, so a
mis-shaped response raises `AttributeError` through it. -/
theorem C5_fetch_no_raise (o : HttpOracle) (hwf : WellFormed o)
    (video_url : Str) :
    ∃ v, fetch_subtitle_bundle o video_url = .ok v ∧ GoodBundle v := by
  unfold fetch_subtitle_bundle
  by_cases hhs : hasSub video_url "aisubtitle.hdslb.com/bfs/ai_subtitle/".toList = true
  · rw [if_pos hhs]
    obtain ⟨sd, hsd, hgc⟩ := get_subtitle_content_ok hwf video_url
    rw [hsd]
    show ∃ v, (if truthy sd = true then
        match pyGet sd "lang".toList (PyVal.vStr []) with
        | Except.error e => Except.error e
        | Except.ok lang =>
          Except.ok (PyVal.vDict [
            ("platform".toList, PyVal.vStr "bilibili".toList),
            ("video_info".toList, PyVal.vDict [
              ("title".toList, PyVal.vStr "Bilibili AI Subtitle".toList),
              ("owner".toList, PyVal.vStr []),
              ("duration".toList, PyVal.vInt 0),
              ("description".toList, PyVal.vStr "字幕直链导入".toList)]),
            ("subtitle_meta".toList, PyVal.vDict [
              ("lan".toList, lang),
              ("lan_doc".toList, PyVal.vStr "AI字幕直链".toList)]),
            ("subtitle_data".toList, sd),
            ("source".toList, PyVal.vStr "subtitle".toList)])
      else Except.ok PyVal.vNone) = Except.ok v ∧ GoodBundle v
    cases ht : truthy sd with
    | false =>
      rw [if_neg (by simp)]
      exact ⟨.vNone, rfl, Or.inl rfl⟩
    | true =>
      rw [if_pos rfl]
      rcases hgc with hf | ⟨es, rfl⟩
      · rw [ht] at hf; exact absurd hf Bool.noConfusion
      · exact ⟨_, rfl, Or.inr ⟨_, rfl⟩⟩
  · rw [if_neg hhs]
    cases hev : extract_video_id video_url with
    | none => exact ⟨.vNone, rfl, Or.inl rfl⟩
    | some video_id =>
      have hid := extract_video_id_shape hev
      obtain ⟨vd, hvd, hgood⟩ := get_video_info_ok hwf video_id
      show ∃ v, (match get_video_info o video_id with
        | Except.error e => Except.error e
        | Except.ok video_data =>
          if truthy video_data = true then
            match mkVideoInfo video_data with
            | Except.error e => Except.error e
            | Except.ok vi =>
              match (if truthy vi.pages = true
                     then (Except.ok vi.pages : Except PyErr PyVal)
                     else
                       match pyGet video_data "cid".toList .vNone with
                       | Except.error e => Except.error e
                       | Except.ok c => Except.ok (PyVal.vList
                           [PyVal.vDict [("cid".toList, c)]])) with
              | Except.error e => Except.error e
              | Except.ok pages =>
                match pyIndex0 pages with
                | Except.error e => Except.error e
                | Except.ok p0 =>
                  match pyGet p0 "cid".toList .vNone with
                  | Except.error e => Except.error e
                  | Except.ok cid =>
                    if truthy cid = true then
                      match get_ai_subtitle_data o video_id cid with
                      | Except.error e => Except.error e
                      | Except.ok bundle =>
                        if truthy bundle = true then
                          match pyGet bundle "subtitle_meta".toList (.vDict []) with
                          | Except.error e => Except.error e
                          | Except.ok meta =>
                            match pyGet bundle "subtitle_data".toList (.vDict []) with
                            | Except.error e => Except.error e
                            | Except.ok sdata =>
                              Except.ok (PyVal.vDict [
                                ("platform".toList, PyVal.vStr "bilibili".toList),
                                ("video_info".toList, PyVal.vDict [
                                  ("title".toList, PyVal.vStr vi.title),
                                  ("owner".toList, vi.owner),
                                  ("duration".toList, vi.duration),
                                  ("description".toList, PyVal.vStr vi.description)]),
                                ("subtitle_meta".toList, meta),
                                ("subtitle_data".toList, sdata),
                                ("source".toList, PyVal.vStr "subtitle".toList)])
                        else Except.ok PyVal.vNone
                    else Except.ok PyVal.vNone
          else Except.ok PyVal.vNone) = Except.ok v ∧ GoodBundle v
      rw [hvd]
      cases htv : truthy vd with
      | false =>
        show ∃ v, (if truthy vd = true then _ else Except.ok PyVal.vNone)
            = Except.ok v ∧ GoodBundle v
        rw [if_neg (by rw [htv]; exact Bool.noConfusion)]
        exact ⟨.vNone, rfl, Or.inl rfl⟩
      | true =>
        obtain ⟨vi, hvi, hgp⟩ := mkVideoInfo_ok hgood htv
        show ∃ v, (if truthy vd = true then
            match mkVideoInfo vd with
            | Except.error e => Except.error e
            | Except.ok vi =>
              match (if truthy vi.pages = true
                     then (Except.ok vi.pages : Except PyErr PyVal)
                     else
                       match pyGet vd "cid".toList .vNone with
                       | Except.error e => Except.error e
                       | Except.ok c => Except.ok (PyVal.vList
                           [PyVal.vDict [("cid".toList, c)]])) with
              | Except.error e => Except.error e
              | Except.ok pages =>
                match pyIndex0 pages with
                | Except.error e => Except.error e
                | Except.ok p0 =>
                  match pyGet p0 "cid".toList .vNone with
                  | Except.error e => Except.error e
                  | Except.ok cid =>
                    if truthy cid = true then
                      match get_ai_subtitle_data o video_id cid with
                      | Except.error e => Except.error e
                      | Except.ok bundle =>
                        if truthy bundle = true then
                          match pyGet bundle "subtitle_meta".toList (.vDict []) with
                          | Except.error e => Except.error e
                          | Except.ok meta =>
                            match pyGet bundle "subtitle_data".toList (.vDict []) with
                            | Except.error e => Except.error e
                            | Except.ok sdata =>
                              Except.ok (PyVal.vDict [
                                ("platform".toList, PyVal.vStr "bilibili".toList),
                                ("video_info".toList, PyVal.vDict [
                                  ("title".toList, PyVal.vStr vi.title),
                                  ("owner".toList, vi.owner),
                                  ("duration".toList, vi.duration),
                                  ("description".toList, PyVal.vStr vi.description)]),
                                ("subtitle_meta".toList, meta),
                                ("subtitle_data".toList, sdata),
                                ("source".toList, PyVal.vStr "subtitle".toList)])
                        else Except.ok PyVal.vNone
                    else Except.ok PyVal.vNone
          else Except.ok PyVal.vNone) = Except.ok v ∧ GoodBundle v
        rw [if_pos htv, hvi]
        show ∃ v, (match (if truthy vi.pages = true
               then (Except.ok vi.pages : Except PyErr PyVal)
               else
                 match pyGet vd "cid".toList .vNone with
                 | Except.error e => Except.error e
                 | Except.ok c => Except.ok (PyVal.vList
                     [PyVal.vDict [("cid".toList, c)]])) with
           | Except.error e => Except.error e
           | Except.ok pages =>
             match pyIndex0 pages with
             | Except.error e => Except.error e
             | Except.ok p0 =>
               match pyGet p0 "cid".toList .vNone with
               | Except.error e => Except.error e
               | Except.ok cid =>
                 if truthy cid = true then
                   match get_ai_subtitle_data o video_id cid with
                   | Except.error e => Except.error e
                   | Except.ok bundle =>
                     if truthy bundle = true then
                       match pyGet bundle "subtitle_meta".toList (.vDict []) with
                       | Except.error e => Except.error e
                       | Except.ok meta =>
                         match pyGet bundle "subtitle_data".toList (.vDict []) with
                         | Except.error e => Except.error e
                         | Except.ok sdata =>
                           Except.ok (PyVal.vDict [
                             ("platform".toList, PyVal.vStr "bilibili".toList),
                             ("video_info".toList, PyVal.vDict [
                               ("title".toList, PyVal.vStr vi.title),
                               ("owner".toList, vi.owner),
                               ("duration".toList, vi.duration),
                               ("description".toList, PyVal.vStr vi.description)]),
                             ("subtitle_meta".toList, meta),
                             ("subtitle_data".toList, sdata),
                             ("source".toList, PyVal.vStr "subtitle".toList)])
                     else Except.ok PyVal.vNone
                 else Except.ok PyVal.vNone) = Except.ok v ∧ GoodBundle v
        obtain ⟨h0, t0, es0, hpv, rfl⟩ : ∃ h0 t0 es0,
            (if truthy vi.pages = true
             then (Except.ok vi.pages : Except PyErr PyVal)
             else
               match pyGet vd "cid".toList .vNone with
               | Except.error e => Except.error e
               | Except.ok c => Except.ok (PyVal.vList
                   [PyVal.vDict [("cid".toList, c)]]))
            = Except.ok (PyVal.vList (h0 :: t0)) ∧ h0 = PyVal.vDict es0 := by
          cases htp : truthy vi.pages with
          | true =>
            rcases hgp with hf | ⟨h0, t0, hpp, es0, h0d⟩
            · rw [htp] at hf; exact absurd hf Bool.noConfusion
            · exact ⟨h0, t0, es0, by rw [if_pos rfl, hpp], h0d⟩
          | false =>
            rcases hgood with hf | ⟨es, hvde, -, -, -, -⟩
            · rw [htv] at hf; exact absurd hf Bool.noConfusion
            · refine ⟨PyVal.vDict [("cid".toList,
                (dictLookup es "cid".toList).getD PyVal.vNone)], [],
                [("cid".toList, (dictLookup es "cid".toList).getD PyVal.vNone)],
                ?_, rfl⟩
              rw [if_neg (by simp), hvde]
              rfl
        rw [hpv]
        show ∃ v, (if truthy ((dictLookup es0 "cid".toList).getD PyVal.vNone) = true
            then
              match get_ai_subtitle_data o video_id
                  ((dictLookup es0 "cid".toList).getD PyVal.vNone) with
              | Except.error e => Except.error e
              | Except.ok bundle =>
                if truthy bundle = true then
                  match pyGet bundle "subtitle_meta".toList (.vDict []) with
                  | Except.error e => Except.error e
                  | Except.ok meta =>
                    match pyGet bundle "subtitle_data".toList (.vDict []) with
                    | Except.error e => Except.error e
                    | Except.ok sdata =>
                      Except.ok (PyVal.vDict [
                        ("platform".toList, PyVal.vStr "bilibili".toList),
                        ("video_info".toList, PyVal.vDict [
                          ("title".toList, PyVal.vStr vi.title),
                          ("owner".toList, vi.owner),
                          ("duration".toList, vi.duration),
                          ("description".toList, PyVal.vStr vi.description)]),
                        ("subtitle_meta".toList, meta),
                        ("subtitle_data".toList, sdata),
                        ("source".toList, PyVal.vStr "subtitle".toList)])
                else Except.ok PyVal.vNone
            else Except.ok PyVal.vNone) = Except.ok v ∧ GoodBundle v
        cases htc : truthy ((dictLookup es0 "cid".toList).getD PyVal.vNone) with
        | false =>
          rw [if_neg (by simp)]
          exact ⟨.vNone, rfl, Or.inl rfl⟩
        | true =>
          rw [if_pos rfl]
          unfold GoodId at hid
          obtain ⟨b, hb, hgb⟩ := get_ai_subtitle_data_ok hwf hid
            ((dictLookup es0 "cid".toList).getD PyVal.vNone)
          rw [hb]
          show ∃ v, (if truthy b = true then
              match pyGet b "subtitle_meta".toList (PyVal.vDict []) with
              | Except.error e => Except.error e
              | Except.ok meta =>
                match pyGet b "subtitle_data".toList (PyVal.vDict []) with
                | Except.error e => Except.error e
                | Except.ok sdata =>
                  Except.ok (PyVal.vDict [
                    ("platform".toList, PyVal.vStr "bilibili".toList),
                    ("video_info".toList, PyVal.vDict [
                      ("title".toList, PyVal.vStr vi.title),
                      ("owner".toList, vi.owner),
                      ("duration".toList, vi.duration),
                      ("description".toList, PyVal.vStr vi.description)]),
                    ("subtitle_meta".toList, meta),
                    ("subtitle_data".toList, sdata),
                    ("source".toList, PyVal.vStr "subtitle".toList)])
            else Except.ok PyVal.vNone) = Except.ok v ∧ GoodBundle v
          cases htb : truthy b with
          | false =>
            rw [if_neg (by simp)]
            exact ⟨.vNone, rfl, Or.inl rfl⟩
          | true =>
            rw [if_pos rfl]
            rcases hgb with rfl | ⟨esb, rfl⟩
            · exact absurd htb Bool.noConfusion
            · exact ⟨_, rfl, Or.inr ⟨_, rfl⟩⟩

end C5Assembly

/-- An HTTP layer with every transport failing (each helper catches its
own exception and yields `none`). -/
def nullOracle : PyB.HttpOracle :=
  { view := fun _ => none, player := fun _ _ => none, content := fun _ _ => none }

/-- Witness for the amended C5 theorem: the all-failing oracle is
well-formed and the fetch for `av12` returns the not-available signal
without raising. -/
theorem C5_fetch_no_raise_witness :
    PyB.WellFormed nullOracle
    ∧ ∃ v, PyB.fetch_subtitle_bundle nullOracle "av12".toList = .ok v
        ∧ PyB.GoodBundle v :=
  ⟨⟨fun _ _ h => Option.noConfusion h, fun _ _ _ h => Option.noConfusion h,
    fun _ _ _ h => Option.noConfusion h⟩,
   C5_fetch_no_raise nullOracle
     ⟨fun _ _ h => Option.noConfusion h, fun _ _ _ h => Option.noConfusion h,
      fun _ _ _ h => Option.noConfusion h⟩ "av12".toList⟩
